import Mathlib

/-!
# Verification of `src/BP/scripts/vein_mine.js` (Dorios-Excavate)

A shallow embedding of the vein-mining script: the per-run loot context
(`createVeinContext` / `addLoot` / `dropVeinLoot`), the resource governor
(`reduceHunger`), the block-removal protocol (`breakBlock`), the six shape
handlers of `veinHandler` (`shapelessVein`, `treeCapitator`, `veinMiner`,
`largeTunnel`, `smallTunnel`, `lineTunnel`), and the `playerBreakBlock`
event subscriber.

External collaborators (the Minecraft world, the player's equipment and
hunger components, the loot-table manager, the blacklist/allow-list data
from `global_variables.js`, and `is_diggable.js`) are modelled as an
explicit environment of oracles (`Env`), and the handlers are translated
as state-passing functions over a `RunState` that also records a trace of
the observable events the claims are about.

JavaScript's single-threaded cooperative scheduling is reflected by letting
the player's equipped mainhand change only at the explicit suspension
points (`await system.waitTicks(1)`), via the `Env.mainhandAfter` oracle.
-/

namespace VeinMine

/-- Integer block position (the `{x, y, z}` location objects of the script).
The script keys its visited set by the string `"${x},${y},${z}"`; that key
is in bijection with the triple, so positions are compared directly. -/
structure Pos where
  x : Int
  y : Int
  z : Int
deriving DecidableEq, Repr

/-- A resolved block, as far as the script observes one: its `typeId`, its
tags (`block.hasTag`), and what `lootManager.generateLootFromBlock` would
return for it (a list of item stacks, as `typeId × amount` pairs). -/
structure BlockData where
  typeId : String
  tags : List String
  drops : List (String × Nat)
deriving DecidableEq, Repr

/-- The breaking item (`ItemStack`), as far as the script observes it: its
`typeId` and which of the probed components it has. `hasDurability` is the
result of `item?.durability.isValidComponent()`. -/
structure Item where
  typeId : String
  hasHammer : Bool
  hasBlockLoot : Bool
  hasDurability : Bool
deriving DecidableEq, Repr

/- ───────────────────────────────────────────── -/
/- VEIN LOOT CONTEXT (per-run, isolated)         -/
/- ───────────────────────────────────────────── -/

/-- The per-run loot context created by `createVeinContext`: the
`Map<typeId, totalAmount>` is modelled as an association list in insertion
order (exactly the iteration order of a JS `Map`). The dimension handle and
drop position carried by the JS context do not affect any claim and are
dropped. -/
structure VeinCtx where
  loot : List (String × Nat)
deriving DecidableEq, Repr

/-- `createVeinContext`: fresh empty loot map. -/
def createVeinContext : VeinCtx := ⟨[]⟩

/-- `ctx.loot.get(id)` on the association list. -/
def lootGet (m : List (String × Nat)) (k : String) : Option Nat :=
  (m.find? (fun kv => kv.1 == k)).map (fun kv => kv.2)

/-- `ctx.loot.set(id, v)`: a JS `Map.set` updates the existing entry in
place (keeping its position in iteration order) or appends a new one. -/
def lootSet (m : List (String × Nat)) (k : String) (v : Nat) : List (String × Nat) :=
  if m.any (fun kv => kv.1 == k) then
    m.map (fun kv => if kv.1 == k then (k, v) else kv)
  else
    m ++ [(k, v)]

/-- `addLoot(ctx, itemStack)`:
`ctx.loot.set(id, (ctx.loot.get(id) ?? 0) + amount)`. -/
def addLoot (ctx : VeinCtx) (id : String) (amount : Nat) : VeinCtx :=
  ⟨lootSet ctx.loot id ((lootGet ctx.loot id).getD 0 + amount)⟩

/- String helpers (structural versions of the JS string operations the
script uses, so that concrete runs reduce inside the kernel). -/

/-- `bs` starts with `as` (character-wise). -/
def leadsWith : List Char → List Char → Bool
  | [], _ => true
  | _ :: _, [] => false
  | a :: as, b :: bs => a == b && leadsWith as bs

/-- `needle` occurs as a contiguous substring: JS `hay.includes(needle)`. -/
def hasSubList (needle : List Char) : List Char → Bool
  | [] => needle.isEmpty
  | c :: rest => leadsWith needle (c :: rest) || hasSubList needle rest

/-- JS `hay.includes(needle)`. -/
def strIncludes (hay needle : String) : Bool :=
  hasSubList needle.data hay.data

/-- Remove the first occurrence of `needle`: JS `s.replace(needle, '')`
with a string pattern (first occurrence only). -/
def removeFirstList (needle : List Char) : List Char → List Char
  | [] => []
  | c :: rest =>
    if leadsWith needle (c :: rest) then (c :: rest).drop needle.length
    else c :: removeFirstList needle rest

/-- JS `s.replace(pat, '')`. -/
def removeFirst (s pat : String) : String :=
  ⟨removeFirstList pat.data s.data⟩

/-- JS `s.endsWith(p)`. -/
def strEndsWith (s p : String) : Bool :=
  leadsWith p.data.reverse s.data.reverse

/-- The `while (remaining > 0)` loop of `dropVeinLoot` for one loot entry:
repeatedly spawns `Math.min(remaining, 64)` and subtracts it. The loop
strictly decreases `remaining`, so `fuel := remaining` iterations always
suffice; the recursion is made structural on that fuel. -/
def splitStackAux : Nat → Nat → List Nat
  | 0, _ => []
  | _, 0 => []
  | fuel + 1, remaining =>
    let stackSize := min remaining 64
    stackSize :: splitStackAux fuel (remaining - stackSize)

/-- Stack sizes spawned for one accumulated amount (cap 64 per stack). -/
def splitStack (amount : Nat) : List Nat := splitStackAux amount amount

/-- `dropVeinLoot(ctx)`: for each `(typeId, amount)` entry, in iteration
order, spawn stacks of at most 64 until the amount is exhausted. The
result lists the spawned `ItemStack(typeId, stackSize)` calls in order. -/
def dropVeinLoot (ctx : VeinCtx) : List (String × Nat) :=
  ctx.loot.flatMap (fun kv => (splitStack kv.2).map (fun sz => (kv.1, sz)))

/- ───────────────────────────────────────────── -/
/- ENVIRONMENT, RUN STATE AND EVENT TRACE        -/
/- ───────────────────────────────────────────── -/

/-- The player's aim vector (`player.getViewDirection()`). The game hands
the script a float vector; it is modelled over `ℚ`, which carries the same
ordered-field comparisons the script performs. -/
structure Vec3 where
  x : ℚ
  y : ℚ
  z : ℚ
deriving DecidableEq, Repr

/-- Observable events of one run, in program order.  `brk` records a
completed `breakBlock` call together with the mainhand equipment at that
moment; `toolFail` a failed per-step tool-identity check; `stamina n` an
invocation of `reduceHunger` at step counter `n`; `nausea` the
`player.addEffect('nausea', …)` penalty; `unequip` the removal of a
destroyed tool from the mainhand slot; `emit` an invocation of
`dropVeinLoot` (the `finally` block of a handler). -/
inductive Ev where
  | brk (pos : Pos) (mainhand : Option String)
  | toolFail
  | stamina (n : Nat)
  | nausea
  | unequip
  | emit
deriving DecidableEq, Repr

def isBrk : Ev → Bool
  | Ev.brk _ _ => true
  | _ => false

def isEmit : Ev → Bool
  | Ev.emit => true
  | _ => false

def isNausea : Ev → Bool
  | Ev.nausea => true
  | _ => false

def isStamina : Ev → Bool
  | Ev.stamina _ => true
  | _ => false

/-- The external world and player, as the oracles the script consults.

* `getBlock p` models `dim.getBlock(p)` inside the script's `try` blocks:
  `Except.error ()` is a thrown exception (unloaded chunk), `Except.ok
  none` an `undefined` result, `Except.ok (some b)` a resolved block.
  Every position is queried at most once per run before it could change,
  so a per-position oracle is faithful.
* `mainhandAfter n` is the equipment the player holds after the `n`-th
  `await system.waitTicks(1)` suspension (typeId of the mainhand stack, or
  `none` for an empty hand): in the single-threaded host, player actions
  interleave only at those suspension points.
* `damageResult n` is the result of the `n`-th `item.durability.damage()`
  call (`true`: the tool survives, `false`: it is destroyed).
* `breakFault n` makes the `n`-th `breakBlock` call throw.
* `hunger0` / `saturation0` are the player's `player.hunger` (or
  `minecraft:food`) and `player.saturation` component values at run start,
  `none` when the component is missing.
* `blacklist` is the list imported from `global_variables.js`.
* `noConsumeSaturation` is the world dynamic property
  `dorios:noConsumeSaturation`. -/
structure Env where
  getBlock : Pos → Except Unit (Option BlockData)
  mainhand0 : Option String
  mainhandAfter : Nat → Option String
  damageResult : Nat → Bool
  breakFault : Nat → Bool
  gameMode : String
  noConsumeSaturation : Bool
  hunger0 : Option Int
  saturation0 : Option Int
  blacklist : List String
  viewDir : Vec3

/-- Mutable state threaded through one run: the equipped mainhand (typeId),
the hunger/saturation component values, the counts of suspensions,
`damage()` calls and `breakBlock` calls (indices into the oracles), the
event trace so far, and the run's loot context. -/
structure RunState where
  mainhand : Option String
  hunger : Option Int
  saturation : Option Int
  ticks : Nat
  damages : Nat
  brkCalls : Nat
  trace : List Ev
  ctx : VeinCtx
deriving Repr

/-- Run state at handler entry. -/
def initState (env : Env) : RunState :=
  { mainhand := env.mainhand0
    hunger := env.hunger0
    saturation := env.saturation0
    ticks := 0
    damages := 0
    brkCalls := 0
    trace := []
    ctx := createVeinContext }

/-- `await system.waitTicks(1)`: the only suspension point; the player may
change equipment while the run is parked, so the mainhand is re-read from
the oracle. -/
def yieldTick (env : Env) (s : RunState) : RunState :=
  { s with ticks := s.ticks + 1, mainhand := env.mainhandAfter s.ticks }

/-- The per-step tool-identity check shared by all handlers:
`if (item) { const currentMainhand = …getEquipment("Mainhand");
if (currentMainhand?.typeId != item.typeId) break/return }`.
An empty hand (`undefined?.typeId`) never equals a string typeId. -/
def toolCheckFails (item : Option Item) (s : RunState) : Bool :=
  match item with
  | none => false
  | some it =>
    !(match s.mainhand with
      | some t => t == it.typeId
      | none => false)

/- ───────────────────────────────────────────── -/
/- RESOURCE GOVERNOR                             -/
/- ───────────────────────────────────────────── -/

/-- `reduceHunger(player, minusHunger = 1, minusSaturation = 1)`:
bypassed entirely by the `dorios:noConsumeSaturation` world flag; returns
`false` when either component is missing; otherwise deducts from
saturation first (`currentSaturation - minusSaturation >= 0`), then from
hunger, and returns `false` (abort) when neither covers the deduction.
All call sites in the script use the default costs `1, 1`. -/
def reduceHunger (env : Env) (s : RunState) (minusHunger minusSaturation : Int) :
    Bool × RunState :=
  if env.noConsumeSaturation then (true, s)
  else
    match s.hunger, s.saturation with
    | some currentHunger, some currentSaturation =>
      if currentSaturation - minusSaturation ≥ 0 then
        (true, { s with saturation := some (currentSaturation - minusSaturation) })
      else if currentHunger - minusHunger ≥ 0 then
        (true, { s with hunger := some (currentHunger - minusHunger) })
      else
        (false, s)
    | _, _ => (false, s)

/-- The durability block each handler runs on an eligible step:
`if (player.getGameMode().toLowerCase() == 'survival' &&
item?.durability.isValidComponent()) { if (item.durability.damage())
setEquipment('Mainhand', item) else { setEquipment('Mainhand'); playSound } }`.
A surviving tool is written back (same typeId); a destroyed tool empties
the mainhand slot. The game-mode names `getGameMode()` can return are
already lowercase, so `.toLowerCase()` is the identity on them and the
comparison is modelled directly against `"survival"`. -/
def applyToolWear (env : Env) (item : Option Item) (s : RunState) : RunState :=
  match item with
  | none => s
  | some it =>
    if env.gameMode == "survival" && it.hasDurability then
      if env.damageResult s.damages then
        { s with damages := s.damages + 1, mainhand := some it.typeId }
      else
        { s with damages := s.damages + 1, mainhand := none,
                 trace := s.trace ++ [Ev.unequip] }
    else s

/- ───────────────────────────────────────────── -/
/- BLOCK REMOVAL (`breakBlock` with a vein ctx)  -/
/- ───────────────────────────────────────────── -/

/-- `breakBlock(player, item, block, veinCtx)` as called by the handlers
(always with a context). The tag branches (`dorios:machine`, `generator`,
`fluid`, `furnace`) and the item-component branches (`utilitycraft:hammer`,
`utilitycraft:block_loot`) dispatch a script event and return without
adding loot; otherwise the generated drops are accumulated into the
context and the block is replaced with air. The boolean result is `true`
when the call threw (per the `breakFault` oracle; the handlers either
catch this or let it propagate). A completed call is recorded as a `brk`
event carrying the mainhand equipment at that moment. -/
def breakBlockCtx (env : Env) (item : Option Item) (pos : Pos) (blk : BlockData)
    (s0 : RunState) : RunState × Bool :=
  let n := s0.brkCalls
  let s1 := { s0 with brkCalls := n + 1 }
  if env.breakFault n then (s1, true)
  else
    let special :=
      blk.tags.contains "dorios:machine" || blk.tags.contains "dorios:generator" ||
      blk.tags.contains "dorios:fluid" || blk.tags.contains "dorios:furnace" ||
      (match item with | some it => it.hasHammer | none => false) ||
      (match item with | some it => it.hasBlockLoot | none => false)
    let s2 :=
      if special then s1
      else { s1 with ctx := blk.drops.foldl (fun c d => addLoot c d.1 d.2) s1.ctx }
    ({ s2 with trace := s2.trace ++ [Ev.brk pos s2.mainhand] }, false)

/- ───────────────────────────────────────────── -/
/- FLOOD-FILL HANDLERS                           -/
/- ───────────────────────────────────────────── -/

/-- The 26-neighbour offset table `dirs`, in source order. -/
def dirs : List Pos :=
  [⟨1, 0, 0⟩, ⟨-1, 0, 0⟩,
   ⟨0, 1, 0⟩, ⟨0, -1, 0⟩,
   ⟨0, 0, 1⟩, ⟨0, 0, -1⟩,
   ⟨1, 1, 0⟩, ⟨1, -1, 0⟩,
   ⟨-1, 1, 0⟩, ⟨-1, -1, 0⟩,
   ⟨1, 0, 1⟩, ⟨1, 0, -1⟩,
   ⟨-1, 0, 1⟩, ⟨-1, 0, -1⟩,
   ⟨0, 1, 1⟩, ⟨0, 1, -1⟩,
   ⟨0, -1, 1⟩, ⟨0, -1, -1⟩,
   ⟨1, 1, 1⟩, ⟨1, 1, -1⟩,
   ⟨1, -1, 1⟩, ⟨1, -1, -1⟩,
   ⟨-1, 1, 1⟩, ⟨-1, 1, -1⟩,
   ⟨-1, -1, 1⟩, ⟨-1, -1, -1⟩]

/-- Outcome of the body a flood-fill handler runs for an eligible
candidate. `cont2`: proceed with the loop (the step counter is then
incremented by the caller); `nauseaStop`: the hunger governor aborted
(`break` before `cont++`); `fault`: `breakBlock` threw and the exception
propagates out of the `while` loop (the flood-fill handlers do not catch
it). -/
inductive EligOut where
  | cont2 (s : RunState)
  | nauseaStop (s : RunState)
  | fault (s : RunState)

/-- The eligible-step body shared verbatim by `shapelessVein`,
`treeCapitator` and `veinMiner` (source lines 220–243 and their two
copies): tool wear, then every-10th-step hunger deduction (abort with a
nausea penalty on failure), then `cont++`, and — only when the block
actually resolved — `breakBlock` followed by a one-tick yield. -/
def floodEligibleStep (env : Env) (item : Option Item) (pos : Pos)
    (targetBlock : Option BlockData) (cont : Nat) (s0 : RunState) : EligOut :=
  let s1 := applyToolWear env item s0
  let hungerRes :=
    if cont % 10 == 0 && cont != 0 then
      reduceHunger env { s1 with trace := s1.trace ++ [Ev.stamina cont] } 1 1
    else (true, s1)
  match hungerRes with
  | (false, s2) => EligOut.nauseaStop { s2 with trace := s2.trace ++ [Ev.nausea] }
  | (true, s2) =>
    match targetBlock with
    | none => EligOut.cont2 s2
    | some blk =>
      match breakBlockCtx env item pos blk s2 with
      | (s3, true) => EligOut.fault s3
      | (s3, false) => EligOut.cont2 (yieldTick env s3)

/-- The `while (toCheck.length > 0 && cont < maxVein)` loop shared by the
three flood-fill handlers, parametrised by the eligibility predicate
applied to `targetBlock.typeId` (`shapelessVein`: equality with the broken
block's type; `treeCapitator`: `isTreeBlock`; `veinMiner`: `isOreBlock`).
Result: final state, final `cont`, and whether the run ended in an
uncaught fault.

Each iteration pops one queue entry, and entries are pushed only on
eligible steps (at most `maxVein` of them, 26 pushes each), so the loop
runs at most `1 + 27 * maxVein` iterations; the structural `fuel`
parameter makes the recursion total, and the top-level handlers supply
fuel beyond that bound, so the truncation case is never reached from
them. -/
def floodLoop (env : Env) (pred : String → Bool) (item : Option Item) (maxVein : Nat) :
    Nat → List Pos → List Pos → Nat → RunState → RunState × Nat × Bool
  | 0, _, _, cont, s => (s, cont, false)
  | Nat.succ fuel, visited, toCheck, cont, s =>
    match toCheck with
    | [] => (s, cont, false)
    | pos :: rest =>
      if cont < maxVein then
        if toolCheckFails item s then
          ({ s with trace := s.trace ++ [Ev.toolFail] }, cont, false)
        else if visited.contains pos then
          floodLoop env pred item maxVein fuel visited rest cont s
        else
          let visited' := pos :: visited
          let targetBlock : Option BlockData :=
            match env.getBlock pos with
            | Except.error _ => none
            | Except.ok b => b
          if visited'.length == 1 ||
             (match targetBlock with | some b => pred b.typeId | none => false) then
            match floodEligibleStep env item pos targetBlock cont s with
            | EligOut.nauseaStop s' => (s', cont, false)
            | EligOut.fault s' => (s', cont, true)
            | EligOut.cont2 s' =>
              floodLoop env pred item maxVein fuel visited'
                (rest ++ dirs.map (fun d => ⟨pos.x + d.x, pos.y + d.y, pos.z + d.z⟩))
                (cont + 1) s'
          else
            floodLoop env pred item maxVein fuel visited' rest cont s
      else (s, cont, false)

/-- Common shape of the three flood-fill handlers: run the loop from the
origin block's location inside `try { … } finally { dropVeinLoot(ctx) }`;
the `finally` emits the accumulated loot on every exit path (normal end,
`break`, or a fault propagating out of the loop), recorded as the final
`emit` event. -/
def floodVein (env : Env) (pred : String → Bool) (origin : Pos) (maxVein : Nat)
    (item : Option Item) : RunState × Nat × Bool :=
  let r := floodLoop env pred item maxVein (27 * maxVein + 2) [] [origin] 0 (initState env)
  ({ r.1 with trace := r.1.trace ++ [Ev.emit] }, r.2)

/-- `veinHandler['shapelessVein']`: flood-fill whose predicate is exact
type equality with `brokenBlock` (the type id handed over by the
trigger). -/
def shapelessVein (env : Env) (origin : Pos) (brokenBlock : String) (maxVein : Nat)
    (item : Option Item) : RunState × Nat × Bool :=
  floodVein env (fun t => t == brokenBlock) origin maxVein item

/-- `isTreeBlock` of `treeCapitator`: typeId ends in one of
`_log`, `_leaves`, `_stem`, `_wart_block`. -/
def isTreeBlock (typeId : String) : Bool :=
  ["_log", "_leaves", "_stem", "_wart_block"].any (fun p => strEndsWith typeId p)

/-- `veinHandler['treeCapitator']`: same loop as `shapelessVein` with the
tree-part predicate (the `brokenBlock` argument of the JS function is not
consulted by its predicate). -/
def treeCapitator (env : Env) (origin : Pos) (_brokenBlock : String) (maxVein : Nat)
    (item : Option Item) : RunState × Nat × Bool :=
  floodVein env isTreeBlock origin maxVein item

/-- `isOreBlock` of `veinMiner`: typeId ends in `_ore`, or is
`minecraft:ancient_debris`. -/
def isOreBlock (typeId : String) : Bool :=
  strEndsWith typeId "_ore" || typeId == "minecraft:ancient_debris"

/-- `veinHandler['veinMiner']`: same loop with the ore predicate. -/
def veinMiner (env : Env) (origin : Pos) (_brokenBlock : String) (maxVein : Nat)
    (item : Option Item) : RunState × Nat × Bool :=
  floodVein env isOreBlock origin maxVein item

/- ───────────────────────────────────────────── -/
/- TUNNEL HANDLERS                               -/
/- ───────────────────────────────────────────── -/

/-- Traversal axis of a tunnel (the JS strings `"x"`, `"y"`, `"z"`). -/
inductive Axis where
  | x
  | y
  | z
deriving DecidableEq, Repr

/-- The `allowVertical` constant, `true` in all three tunnel handlers. -/
def allowVertical : Bool := true

/-- Axis/direction selection from the player's aim vector, duplicated
verbatim in `largeTunnel`, `smallTunnel` and `lineTunnel`:
with `allowVertical`, pick `x` when `|v.x| ≥ |v.y|` and `|v.x| ≥ |v.z|`,
else `z` when `|v.z| ≥ |v.y|`, else `y`; the step direction is `1` for a
non-negative component and `-1` otherwise. -/
def pickAxisDir (v : Vec3) : Axis × Int :=
  if allowVertical = false then
    if |v.x| ≥ |v.z| then (Axis.x, if v.x ≥ 0 then 1 else -1)
    else (Axis.z, if v.z ≥ 0 then 1 else -1)
  else
    if |v.x| ≥ |v.y| ∧ |v.x| ≥ |v.z| then (Axis.x, if v.x ≥ 0 then 1 else -1)
    else if |v.z| ≥ |v.y| then (Axis.z, if v.z ≥ 0 then 1 else -1)
    else (Axis.y, if v.y ≥ 0 then 1 else -1)

/-- A cross-section cell: `if (axis === "x") { y += dx; z += dy }`,
`if (axis === "y") { x += dx; z += dy }`, `if (axis === "z") { x += dx;
y += dy }` applied to a slice center. -/
def sliceCell (axis : Axis) (c : Pos) (dx dy : Int) : Pos :=
  match axis with
  | Axis.x => ⟨c.x, c.y + dx, c.z + dy⟩
  | Axis.y => ⟨c.x + dx, c.y, c.z + dy⟩
  | Axis.z => ⟨c.x + dx, c.y + dy, c.z⟩

/-- The slice center at depth `d`: origin advanced `d * stepSign` along
the traversal axis. -/
def sliceCenter (axis : Axis) (origin : Pos) (d : Int) (stepSign : Int) : Pos :=
  match axis with
  | Axis.x => ⟨origin.x + d * stepSign, origin.y, origin.z⟩
  | Axis.y => ⟨origin.x, origin.y + d * stepSign, origin.z⟩
  | Axis.z => ⟨origin.x, origin.y, origin.z + d * stepSign⟩

/-- The local `getBlock` helper duplicated in all three tunnel handlers:
resolve the block, and filter out `undefined`, air, blacklisted types,
and (since `matchType` is the constant `true`) any type other than the
originally broken block's. The JS helper returns `null` for a filtered
cell and `false` for a thrown exception; both are falsy at every use site
(`if (!blk) continue`, the probe's truthiness test), so they collapse to
`none`. -/
def tunnelGetBlock (env : Env) (brokenBlockPerm : String) (p : Pos) : Option BlockData :=
  match env.getBlock p with
  | Except.error _ => none
  | Except.ok none => none
  | Except.ok (some b) =>
    if b.typeId == "minecraft:air" then none
    else if env.blacklist.contains b.typeId then none
    else if b.typeId != brokenBlockPerm then none
    else some b

/-- `spiralOffsets(outward)`: the fixed 9-cell ring order of `largeTunnel`
(center, then the 8 surrounding cells), reversed for inward slices. -/
def orderOut : List (Int × Int) :=
  [(0, 0), (1, 0), (1, 1), (0, 1), (-1, 1),
   (-1, 0), (-1, -1), (0, -1), (1, -1)]

def spiralOffsets (outward : Bool) : List (Int × Int) :=
  if outward then orderOut else orderOut.reverse

/-- The probe `largeTunnel` runs before its depth loop (source lines
450–462): scan the slice at the origin in outward order and test each cell
with `getBlock`; if no cell is solid (`hasSolid` stays false), start at
depth 1 instead of 0. The JS loop breaks at the first solid cell, which is
exactly `List.any`. -/
def probeSliceStart (env : Env) (brokenBlockPerm : String) (axis : Axis)
    (origin : Pos) : Nat :=
  let hasSolid := (spiralOffsets true).any (fun dq =>
    (tunnelGetBlock env brokenBlockPerm (sliceCell axis origin dq.1 dq.2)).isSome)
  if hasSolid then 0 else 1

/-- Result of `largeTunnel`'s inner per-slice loop. `done` covers both a
completed scan of the 9 offsets and an inner `break` (tool mismatch or
hunger abort) — either way control falls to the `if (!foundInSlice) break`
check; `ret` is a `return` out of the whole handler (a caught `breakBlock`
fault, or the `broken + 1 >= maxBlocks` cap). Fields: state, `cont`,
`broken`, and (for `done`) `foundInSlice`. -/
inductive LTInner where
  | done (s : RunState) (cont broken : Nat) (found : Bool)
  | ret (s : RunState) (cont broken : Nat)

/-- One slice of `largeTunnel` (source lines 474–518): for each ring
offset in order — tool-identity check (`break` on mismatch), cell lookup
(`continue` when falsy), tool wear, every-10th-step hunger deduction
(`break` with nausea on failure), then `cont++; breakBlock` inside
`try`/`catch` (`return` on a fault), `broken++`, the budget-cap `return`,
and a one-tick yield. -/
def largeInner (env : Env) (item : Option Item) (perm : String) (maxBlocks : Nat)
    (axis : Axis) (center : Pos) :
    List (Int × Int) → RunState → Nat → Nat → Bool → LTInner
  | [], s, cont, broken, found => LTInner.done s cont broken found
  | dq :: rest, s, cont, broken, found =>
    if toolCheckFails item s then
      LTInner.done { s with trace := s.trace ++ [Ev.toolFail] } cont broken found
    else
      let cell := sliceCell axis center dq.1 dq.2
      match tunnelGetBlock env perm cell with
      | none => largeInner env item perm maxBlocks axis center rest s cont broken found
      | some blk =>
        let s1 := applyToolWear env item s
        let hungerRes :=
          if cont % 10 == 0 && cont != 0 then
            reduceHunger env { s1 with trace := s1.trace ++ [Ev.stamina cont] } 1 1
          else (true, s1)
        match hungerRes with
        | (false, s2) =>
          LTInner.done { s2 with trace := s2.trace ++ [Ev.nausea] } cont broken found
        | (true, s2) =>
          match breakBlockCtx env item cell blk s2 with
          | (s3, true) => LTInner.ret s3 (cont + 1) broken
          | (s3, false) =>
            let broken' := broken + 1
            if broken' + 1 ≥ maxBlocks then LTInner.ret s3 (cont + 1) broken'
            else
              largeInner env item perm maxBlocks axis center rest (yieldTick env s3)
                (cont + 1) broken' true

/-- The depth loop of `largeTunnel` (`for (let d = sliceStart; d <=
maxLength; d++)`): run one slice in alternating ring order; stop at a
`return`, or when a slice produced no break (`if (!foundInSlice) break`),
otherwise flip `outward` and advance. -/
def largeOuter (env : Env) (item : Option Item) (perm : String) (maxBlocks : Nat)
    (axis : Axis) (stepSign : Int) (origin : Pos) :
    List Nat → Bool → RunState → Nat → Nat → RunState × Nat × Nat
  | [], _, s, cont, broken => (s, cont, broken)
  | d :: ds, outward, s, cont, broken =>
    let center := sliceCenter axis origin (Int.ofNat d) stepSign
    match largeInner env item perm maxBlocks axis center (spiralOffsets outward)
        s cont broken false with
    | LTInner.ret s' cont' broken' => (s', cont', broken')
    | LTInner.done s' cont' broken' found =>
      if found then largeOuter env item perm maxBlocks axis stepSign origin ds
        (!outward) s' cont' broken'
      else (s', cont', broken')

/-- `veinHandler['largeTunnel']`: the 3×3 spiral tunnel. `maxLength =
Math.floor(maxVein / 4)`, `maxBlocks = maxVein * 2`; axis and direction
from the aim vector; a probe may skip the leading slice; depths
`sliceStart … maxLength` inclusive. The `finally` emits the loot on every
exit path. Result: final state, `cont`, `broken`. -/
def largeTunnel (env : Env) (origin : Pos) (brokenBlockPerm : String) (maxVein : Nat)
    (item : Option Item) : RunState × Nat × Nat :=
  let maxLength := maxVein / 4
  let maxBlocks := maxVein * 2
  let ad := pickAxisDir env.viewDir
  let sliceStart := probeSliceStart env brokenBlockPerm ad.1 origin
  let depths := (List.range (maxLength + 1 - sliceStart)).map (fun i => i + sliceStart)
  let r := largeOuter env item brokenBlockPerm maxBlocks ad.1 ad.2 origin depths
    true (initState env) 0 0
  ({ r.1 with trace := r.1.trace ++ [Ev.emit] }, r.2)

/-- Result of processing one cell of `smallTunnel` / one depth of
`lineTunnel`: continue, `return`/`break` out of the run. -/
inductive STStep where
  | next (s : RunState) (cont : Nat)
  | stop (s : RunState) (cont : Nat)

/-- One column cell of `smallTunnel` (source lines 586–624): tool check
(`return` on mismatch), cell lookup (`continue`), tool wear, every-10th
hunger deduction (`return` with nausea), `cont++; breakBlock` in
`try`/`catch` (`return` on fault), one-tick yield. -/
def smallCell (env : Env) (item : Option Item) (perm : String) (cell : Pos)
    (s : RunState) (cont : Nat) : STStep :=
  if toolCheckFails item s then
    STStep.stop { s with trace := s.trace ++ [Ev.toolFail] } cont
  else
    match tunnelGetBlock env perm cell with
    | none => STStep.next s cont
    | some blk =>
      let s1 := applyToolWear env item s
      let hungerRes :=
        if cont % 10 == 0 && cont != 0 then
          reduceHunger env { s1 with trace := s1.trace ++ [Ev.stamina cont] } 1 1
        else (true, s1)
      match hungerRes with
      | (false, s2) => STStep.stop { s2 with trace := s2.trace ++ [Ev.nausea] } cont
      | (true, s2) =>
        match breakBlockCtx env item cell blk s2 with
        | (s3, true) => STStep.stop s3 (cont + 1)
        | (s3, false) => STStep.next (yieldTick env s3) (cont + 1)

/-- The two-cell column of one `smallTunnel` depth: offsets
`(0,0,0)` and `(0,1,0)` in order, stopping the whole run when a cell
says so. -/
def smallColumn (env : Env) (item : Option Item) (perm : String) (base : Pos)
    (s : RunState) (cont : Nat) : STStep :=
  match smallCell env item perm base s cont with
  | STStep.stop s' cont' => STStep.stop s' cont'
  | STStep.next s' cont' =>
    smallCell env item perm ⟨base.x, base.y + 1, base.z⟩ s' cont'

/-- The depth loop of `smallTunnel` (`for (let d = 0; d < maxLength; d++)`,
no empty-slice stop). -/
def smallLoop (env : Env) (item : Option Item) (perm : String) (axis : Axis)
    (stepSign : Int) (origin : Pos) :
    List Nat → RunState → Nat → RunState × Nat
  | [], s, cont => (s, cont)
  | d :: ds, s, cont =>
    let base := sliceCenter axis origin (Int.ofNat d) stepSign
    match smallColumn env item perm base s cont with
    | STStep.stop s' cont' => (s', cont')
    | STStep.next s' cont' =>
      smallLoop env item perm axis stepSign origin ds s' cont'

/-- `veinHandler['smallTunnel']`: the 1×2 tunnel; `maxLength =
Math.floor(maxVein / 2)`. The `finally` emits the loot on every exit
path. -/
def smallTunnel (env : Env) (origin : Pos) (brokenBlockPerm : String) (maxVein : Nat)
    (item : Option Item) : RunState × Nat :=
  let maxLength := maxVein / 2
  let ad := pickAxisDir env.viewDir
  let r := smallLoop env item brokenBlockPerm ad.1 ad.2 origin
    (List.range maxLength) (initState env) 0
  ({ r.1 with trace := r.1.trace ++ [Ev.emit] }, r.2)

/-- One depth of `lineTunnel` (source lines 677–716): position along the
axis, tool check (`break`), block lookup (`continue`), tool wear,
every-10th hunger deduction (`break` with nausea), `cont++; breakBlock`
in `try`/`catch` (`return`), one-tick yield. -/
def lineLoop (env : Env) (item : Option Item) (perm : String) (axis : Axis)
    (stepSign : Int) (origin : Pos) :
    List Nat → RunState → Nat → RunState × Nat
  | [], s, cont => (s, cont)
  | d :: ds, s, cont =>
    let pos := sliceCenter axis origin (Int.ofNat d) stepSign
    if toolCheckFails item s then
      ({ s with trace := s.trace ++ [Ev.toolFail] }, cont)
    else
      match tunnelGetBlock env perm pos with
      | none => lineLoop env item perm axis stepSign origin ds s cont
      | some blk =>
        let s1 := applyToolWear env item s
        let hungerRes :=
          if cont % 10 == 0 && cont != 0 then
            reduceHunger env { s1 with trace := s1.trace ++ [Ev.stamina cont] } 1 1
          else (true, s1)
        match hungerRes with
        | (false, s2) => ({ s2 with trace := s2.trace ++ [Ev.nausea] }, cont)
        | (true, s2) =>
          match breakBlockCtx env item pos blk s2 with
          | (s3, true) => (s3, cont + 1)
          | (s3, false) =>
            lineLoop env item perm axis stepSign origin ds (yieldTick env s3) (cont + 1)

/-- `veinHandler['lineTunnel']`: the 1×1 tunnel; `maxLength = maxVein`.
The `finally` emits the loot on every exit path. -/
def lineTunnel (env : Env) (origin : Pos) (brokenBlockPerm : String) (maxVein : Nat)
    (item : Option Item) : RunState × Nat :=
  let ad := pickAxisDir env.viewDir
  let r := lineLoop env item brokenBlockPerm ad.1 ad.2 origin
    (List.range maxVein) (initState env) 0
  ({ r.1 with trace := r.1.trace ++ [Ev.emit] }, r.2)

/- ───────────────────────────────────────────── -/
/- UNIFORM DISPATCH OVER THE SIX HANDLERS        -/
/- ───────────────────────────────────────────── -/

/-- The keys of `veinHandler`. -/
inductive Shape where
  | shapelessVein
  | treeCapitator
  | veinMiner
  | largeTunnel
  | smallTunnel
  | lineTunnel
deriving DecidableEq, Repr

/-- `veinHandler[shape](player, block, brokenBlock, maxVein, item)`,
returning the final run state (with its event trace) and the final step
counter `cont`. -/
def runShape (sh : Shape) (env : Env) (origin : Pos) (brokenBlock : String)
    (maxVein : Nat) (item : Option Item) : RunState × Nat :=
  match sh with
  | Shape.shapelessVein =>
    let r := shapelessVein env origin brokenBlock maxVein item; (r.1, r.2.1)
  | Shape.treeCapitator =>
    let r := treeCapitator env origin brokenBlock maxVein item; (r.1, r.2.1)
  | Shape.veinMiner =>
    let r := veinMiner env origin brokenBlock maxVein item; (r.1, r.2.1)
  | Shape.largeTunnel =>
    let r := largeTunnel env origin brokenBlock maxVein item; (r.1, r.2.1)
  | Shape.smallTunnel => smallTunnel env origin brokenBlock maxVein item
  | Shape.lineTunnel => lineTunnel env origin brokenBlock maxVein item

/- ───────────────────────────────────────────── -/
/- THE `playerBreakBlock` TRIGGER                -/
/- ───────────────────────────────────────────── -/

/-- Everything the `world.afterEvents.playerBreakBlock.subscribe` handler
reads before deciding whether to start a run: the event's block/player
data, the player's dynamic properties (`none` models an `undefined`
property, filled in with its default by the handler), the result of the
external `is_diggable(itemStackBeforeBreak, brokenBlockPermutation)`
check, the `blacklist` and default `list` from `global_variables.js`,
and the world-level `dorios:noConsumeSaturation` flag (never consulted by
the trigger; carried so independence from it can be stated). -/
structure TriggerEvent where
  sneaking : Bool
  gameMode : String
  isAdding : Bool
  isBlacklistAdding : Bool
  isDefaultAdding : Bool
  veinEnabled : Option Bool
  veinShape : Option String
  veinLimit : Option Nat
  veinList : Option (List String)
  brokenBlockId : String
  hungerValue : Int
  diggable : Bool
  blacklist : List String
  defaultList : List String
  noConsumeSaturation : Bool

/-- What the trigger decides: either no excavation run starts, or
`veinHandler[shape]` is invoked with the (possibly `lit_`-normalised)
broken-block id and the limit. -/
inductive TriggerResult where
  | noRun
  | run (shape : String) (brokenBlock : String) (limit : Nat)
deriving DecidableEq, Repr

/-- The `playerBreakBlock` subscriber (source lines 724–779): sneaking
non-creative players only; the three `isAdding` UI flags suppress runs;
`undefined` settings fall back to their defaults (enabled, shape
`shapelessVein`, limit 64, the built-in list); a blacklisted broken block
only prunes the allow-list and returns; `lit_redstone_ore` is normalised;
disabled vein mining or a non-diggable tool/block returns; a hunger
component at exactly 0 returns; tunnels (`largeTunnel`, `smallTunnel`)
bypass the allow-list, the other shapes require membership. -/
def onPlayerBreakBlock (e : TriggerEvent) : TriggerResult :=
  if !e.sneaking || e.gameMode == "creative" then TriggerResult.noRun
  else if e.isAdding || e.isBlacklistAdding || e.isDefaultAdding then TriggerResult.noRun
  else
    let isEnabled := e.veinEnabled.getD true
    let veinShape := e.veinShape.getD "shapelessVein"
    let veinLimit := e.veinLimit.getD 64
    let veinList := e.veinList.getD e.defaultList
    let brokenBlock := e.brokenBlockId
    if e.blacklist.contains brokenBlock then TriggerResult.noRun
    else
      let brokenBlock :=
        if strIncludes brokenBlock "redstone_ore" then removeFirst brokenBlock "lit_"
        else brokenBlock
      if !isEnabled || !e.diggable then TriggerResult.noRun
      else if e.hungerValue == 0 then TriggerResult.noRun
      else if veinShape == "largeTunnel" || veinShape == "smallTunnel" then
        TriggerResult.run veinShape brokenBlock veinLimit
      else if !(veinList.contains brokenBlock) then TriggerResult.noRun
      else TriggerResult.run veinShape brokenBlock veinLimit

/- ───────────────────────────────────────────── -/
/- PROOF-SIDE ABBREVIATIONS                      -/
/- ───────────────────────────────────────────── -/

/-- A run of `addLoot` calls, as the handlers perform them. -/
def applyAdds (ops : List (String × Nat)) : VeinCtx :=
  ops.foldl (fun c op => addLoot c op.1 op.2) createVeinContext

/-- Total quantity added for one item type over a run of `addLoot`
calls. -/
def totalAdded (ops : List (String × Nat)) (id : String) : Nat :=
  ((ops.filter (fun op => op.1 == id)).map Prod.snd).sum

/-- The stack sizes `dropVeinLoot` spawns for one item type. -/
def emittedFor (ctx : VeinCtx) (id : String) : List Nat :=
  ((dropVeinLoot ctx).filter (fun st => st.1 == id)).map Prod.snd

end VeinMine

/- ───────────────────────────────────────────── -/
/- LEMMAS: STACK SPLITTING AND THE LOOT MAP      -/
/- ───────────────────────────────────────────── -/

namespace VeinMine

theorem splitStackAux_sum : ∀ (fuel r : Nat), r ≤ fuel → (splitStackAux fuel r).sum = r := by
  intro fuel
  induction fuel with
  | zero =>
    intro r hr
    have : r = 0 := Nat.le_zero.mp hr
    subst this
    simp [splitStackAux]
  | succ n ih =>
    intro r hr
    match r with
    | 0 => simp [splitStackAux]
    | Nat.succ m =>
      simp only [splitStackAux, List.sum_cons]
      rw [ih (m + 1 - min (m + 1) 64) (by omega)]
      omega

theorem splitStackAux_bounds : ∀ (fuel r : Nat), ∀ x ∈ splitStackAux fuel r, 1 ≤ x ∧ x ≤ 64 := by
  intro fuel
  induction fuel with
  | zero => intro r x hx; simp [splitStackAux] at hx
  | succ n ih =>
    intro r x hx
    match r with
    | 0 => simp [splitStackAux] at hx
    | Nat.succ m =>
      simp only [splitStackAux, List.mem_cons] at hx
      rcases hx with h | h
      · omega
      · exact ih _ x h

theorem splitStack_sum (r : Nat) : (splitStack r).sum = r :=
  splitStackAux_sum r r (Nat.le_refl r)

theorem splitStack_bounds (r : Nat) : ∀ x ∈ splitStack r, 1 ≤ x ∧ x ≤ 64 :=
  splitStackAux_bounds r r

theorem splitStack_ne_nil (r : Nat) (hr : 0 < r) : splitStack r ≠ [] := by
  match r with
  | Nat.succ m => simp [splitStack, splitStackAux]

/-- Keys of the loot association list. -/
def lootKeys (m : List (String × Nat)) : List String := m.map Prod.fst

theorem lootSet_keys_of_mem (m : List (String × Nat)) (k : String) (v : Nat)
    (h : m.any (fun kv => kv.1 == k) = true) :
    lootKeys (lootSet m k v) = lootKeys m := by
  simp only [lootSet, h, if_true, lootKeys, List.map_map]
  apply List.map_congr_left
  intro kv _
  by_cases hk : kv.1 = k
  · simp [Function.comp, hk]
  · simp [Function.comp, hk]

theorem lootSet_keys_of_not_mem (m : List (String × Nat)) (k : String) (v : Nat)
    (h : m.any (fun kv => kv.1 == k) = false) :
    lootKeys (lootSet m k v) = lootKeys m ++ [k] := by
  simp [lootSet, h, lootKeys]

theorem any_key_iff (m : List (String × Nat)) (k : String) :
    m.any (fun kv => kv.1 == k) = true ↔ k ∈ lootKeys m := by
  simp only [List.any_eq_true, lootKeys, List.mem_map, beq_iff_eq]

theorem lootSet_nodup (m : List (String × Nat)) (k : String) (v : Nat)
    (h : (lootKeys m).Nodup) : (lootKeys (lootSet m k v)).Nodup := by
  by_cases hm : m.any (fun kv => kv.1 == k) = true
  · rw [lootSet_keys_of_mem m k v hm]; exact h
  · have hb : m.any (fun kv => kv.1 == k) = false := by
      cases hab : m.any (fun kv => kv.1 == k) with
      | true => exact absurd hab hm
      | false => rfl
    rw [lootSet_keys_of_not_mem m k v hb]
    have hk : k ∉ lootKeys m := by
      intro hmem
      exact hm ((any_key_iff m k).mpr hmem)
    simp [List.nodup_append, h, hk]

theorem find?_map_setval_same (m : List (String × Nat)) (k : String) (v : Nat)
    (h : m.any (fun kv => kv.1 == k) = true) :
    List.find? (fun kv => kv.1 == k)
      (m.map (fun kv => if kv.1 == k then (k, v) else kv)) = some (k, v) := by
  induction m with
  | nil => simp at h
  | cons kv rest ih =>
    by_cases hk : kv.1 = k
    · rw [List.map_cons, if_pos (by simp [hk])]
      exact List.find?_cons_of_pos _ (by simp)
    · rw [List.map_cons, if_neg (by simp [hk]), List.find?_cons_of_neg _ (by simp [hk])]
      apply ih
      have := List.any_eq_true.mp h
      rcases this with ⟨x, hx, hpx⟩
      rcases List.mem_cons.mp hx with rfl | hx'
      · exact absurd (by simpa using hpx) hk
      · exact List.any_eq_true.mpr ⟨x, hx', hpx⟩

theorem find?_map_setval_other (m : List (String × Nat)) (k k' : String) (v : Nat)
    (hne : k' ≠ k) :
    List.find? (fun kv => kv.1 == k')
      (m.map (fun kv => if kv.1 == k then (k, v) else kv))
      = List.find? (fun kv => kv.1 == k') m := by
  induction m with
  | nil => rfl
  | cons kv rest ih =>
    by_cases hk : kv.1 = k
    · rw [List.map_cons, if_pos (by simp [hk]),
        List.find?_cons_of_neg _ (by simp; exact fun h => hne h.symm),
        List.find?_cons_of_neg _ (by simp [hk]; exact fun h => hne h.symm)]
      exact ih
    · rw [List.map_cons, if_neg (by simp [hk])]
      by_cases hk' : kv.1 = k'
      · rw [List.find?_cons_of_pos _ (by simp [hk']),
          List.find?_cons_of_pos _ (by simp [hk'])]
      · rw [List.find?_cons_of_neg _ (by simp [hk']),
          List.find?_cons_of_neg _ (by simp [hk'])]
        exact ih

theorem find?_append_single_pos (m : List (String × Nat)) (p : String × Nat → Bool)
    (e : String × Nat) (hm : List.find? p m = none) (hp : p e = true) :
    List.find? p (m ++ [e]) = some e := by
  induction m with
  | nil => simp [List.find?_cons_of_pos _ hp]
  | cons kv rest ih =>
    have hkv : p kv = false := by
      cases hpkv : p kv with
      | true => rw [List.find?_cons_of_pos _ hpkv] at hm; exact absurd hm (by simp)
      | false => rfl
    rw [List.cons_append, List.find?_cons_of_neg _ (by simp [hkv])]
    apply ih
    rwa [List.find?_cons_of_neg _ (by simp [hkv])] at hm

theorem find?_append_single_neg (m : List (String × Nat)) (p : String × Nat → Bool)
    (e : String × Nat) (hp : p e = false) :
    List.find? p (m ++ [e]) = List.find? p m := by
  induction m with
  | nil =>
    rw [List.nil_append, List.find?_cons_of_neg _ (show ¬p e = true by simp [hp])]
  | cons kv rest ih =>
    cases hpkv : p kv with
    | true =>
      rw [List.cons_append, List.find?_cons_of_pos _ hpkv, List.find?_cons_of_pos _ hpkv]
    | false =>
      rw [List.cons_append, List.find?_cons_of_neg _ (by simp [hpkv]),
        List.find?_cons_of_neg _ (by simp [hpkv])]
      exact ih

theorem lootGet_eq_none_of_not_any (m : List (String × Nat)) (k : String)
    (hm : m.any (fun kv => kv.1 == k) = false) :
    List.find? (fun kv => kv.1 == k) m = none := by
  rw [List.find?_eq_none]
  intro kv hkv
  intro hc
  have : m.any (fun kv => kv.1 == k) = true := List.any_eq_true.mpr ⟨kv, hkv, hc⟩
  rw [this] at hm
  exact absurd hm (by simp)

theorem lootGet_lootSet_same (m : List (String × Nat)) (k : String) (v : Nat) :
    lootGet (lootSet m k v) k = some v := by
  by_cases hm : m.any (fun kv => kv.1 == k) = true
  · simp only [lootSet, hm, if_true, lootGet, find?_map_setval_same m k v hm]
    rfl
  · have hb : m.any (fun kv => kv.1 == k) = false := by
      cases h : m.any (fun kv => kv.1 == k) with
      | true => exact absurd h hm
      | false => rfl
    simp only [lootSet, hb, Bool.false_eq_true, if_false, lootGet]
    rw [find?_append_single_pos m _ (k, v) (lootGet_eq_none_of_not_any m k hb) (by simp)]
    rfl

theorem lootGet_lootSet_other (m : List (String × Nat)) (k k' : String) (v : Nat)
    (hne : k' ≠ k) : lootGet (lootSet m k v) k' = lootGet m k' := by
  by_cases hm : m.any (fun kv => kv.1 == k) = true
  · simp only [lootSet, hm, if_true, lootGet, find?_map_setval_other m k k' v hne]
  · have hb : m.any (fun kv => kv.1 == k) = false := by
      cases h : m.any (fun kv => kv.1 == k) with
      | true => exact absurd h hm
      | false => rfl
    simp only [lootSet, hb, Bool.false_eq_true, if_false, lootGet]
    rw [find?_append_single_neg m _ (k, v) (by simp; exact fun h => hne h.symm)]

theorem totalAdded_cons (op : String × Nat) (ops : List (String × Nat)) (id : String) :
    totalAdded (op :: ops) id = (if op.1 = id then op.2 else 0) + totalAdded ops id := by
  by_cases h : op.1 = id <;> simp [totalAdded, List.filter_cons, h]

theorem totalAdded_eq_zero_of_not_any (ops : List (String × Nat)) (id : String)
    (h : ops.any (fun op => op.1 == id) = false) : totalAdded ops id = 0 := by
  induction ops with
  | nil => simp [totalAdded]
  | cons op rest ih =>
    simp only [List.any_cons, Bool.or_eq_false_iff] at h
    rw [totalAdded_cons, if_neg (by simpa using h.1), ih h.2]

theorem applyAdds_get_aux (ops : List (String × Nat)) (id : String) :
    ∀ (c : VeinCtx),
      (lootGet (ops.foldl (fun c op => addLoot c op.1 op.2) c).loot id).getD 0
        = (lootGet c.loot id).getD 0 + totalAdded ops id := by
  induction ops with
  | nil => intro c; simp [totalAdded]
  | cons op rest ih =>
    intro c
    rw [List.foldl_cons, ih, totalAdded_cons]
    by_cases hid : op.1 = id
    · subst hid
      simp only [addLoot, lootGet_lootSet_same, Option.getD_some, eq_self_iff_true, if_true]
      omega
    · simp only [addLoot]
      rw [show lootGet (lootSet c.loot op.1 ((lootGet c.loot op.1).getD 0 + op.2)) id
          = lootGet c.loot id from
        lootGet_lootSet_other c.loot op.1 id _ (fun h => hid h.symm), if_neg hid]
      omega

theorem applyAdds_present_aux (ops : List (String × Nat)) (id : String) :
    ∀ (c : VeinCtx),
      ((lootGet (ops.foldl (fun c op => addLoot c op.1 op.2) c).loot id).isSome)
        = ((lootGet c.loot id).isSome || ops.any (fun op => op.1 == id)) := by
  induction ops with
  | nil => intro c; simp
  | cons op rest ih =>
    intro c
    rw [List.foldl_cons, ih]
    by_cases hid : op.1 = id
    · subst hid
      simp [addLoot, lootGet_lootSet_same]
    · simp only [addLoot]
      rw [show lootGet (lootSet c.loot op.1 ((lootGet c.loot op.1).getD 0 + op.2)) id
          = lootGet c.loot id from
        lootGet_lootSet_other c.loot op.1 id _ (fun h => hid h.symm)]
      have hb : (op.1 == id) = false := beq_eq_false_iff_ne.mpr hid
      simp [List.any_cons, hb]

theorem applyAdds_nodup_aux (ops : List (String × Nat)) :
    ∀ (c : VeinCtx), (lootKeys c.loot).Nodup →
      (lootKeys (ops.foldl (fun c op => addLoot c op.1 op.2) c).loot).Nodup := by
  induction ops with
  | nil => intro c h; exact h
  | cons op rest ih =>
    intro c h
    exact ih _ (lootSet_nodup c.loot op.1 _ h)

theorem applyAdds_nodup (ops : List (String × Nat)) :
    (lootKeys (applyAdds ops).loot).Nodup :=
  applyAdds_nodup_aux ops createVeinContext (by simp [createVeinContext, lootKeys])

theorem emitted_filter_notin (l : List (String × Nat)) (id : String)
    (h : id ∉ lootKeys l) :
    (l.flatMap (fun kv => (splitStack kv.2).map (fun sz => (kv.1, sz)))).filter
      (fun st => st.1 == id) = [] := by
  induction l with
  | nil => rfl
  | cons kv rest ih =>
    simp only [lootKeys, List.map_cons, List.mem_cons] at h
    push_neg at h
    rw [List.flatMap_cons, List.filter_append]
    rw [ih (by simpa [lootKeys] using h.2)]
    rw [List.append_nil]
    rw [List.filter_map]
    rw [List.filter_eq_nil_iff.mpr (by
      intro a _
      simp only [Function.comp_apply, beq_iff_eq]
      exact fun hh => h.1 hh.symm)]
    simp

theorem emittedFor_eq (ctx : VeinCtx) (id : String)
    (hnd : (lootKeys ctx.loot).Nodup) :
    emittedFor ctx id =
      (match lootGet ctx.loot id with
       | some v => splitStack v
       | none => []) := by
  obtain ⟨l⟩ := ctx
  simp only [emittedFor, dropVeinLoot, lootGet]
  induction l with
  | nil => simp
  | cons kv rest ih =>
    simp only [lootKeys, List.map_cons, List.nodup_cons] at hnd
    by_cases hk : kv.1 = id
    · rw [List.flatMap_cons, List.filter_append, List.find?_cons_of_pos _ (by simp [hk])]
      have hrest : (rest.flatMap (fun kv => (splitStack kv.2).map (fun sz => (kv.1, sz)))).filter
          (fun st => st.1 == id) = [] := by
        apply emitted_filter_notin
        rw [← hk]
        exact fun hmem => hnd.1 (by simpa [lootKeys] using hmem)
      rw [hrest, List.append_nil, List.filter_map]
      rw [List.filter_eq_self.mpr (by intro a _; simp [hk])]
      simp [List.map_map, Function.comp]
    · rw [List.flatMap_cons, List.filter_append, List.find?_cons_of_neg _ (by simp [hk])]
      rw [List.filter_map]
      rw [List.filter_eq_nil_iff.mpr (by intro a _; simp [Function.comp, hk])]
      simp only [List.map_nil, List.nil_append]
      exact ih (by simpa [lootKeys] using hnd.2)

/-- **C2.** For every loot context and every sequence of `addLoot` calls,
`dropVeinLoot` spawns, for each item type, one or more stacks each of
size at most 64 (and at least 1) whose sizes sum exactly to the total
quantity added for that type during the run. -/
theorem c2_emission_splits_totals (ops : List (String × Nat)) (id : String) :
    (emittedFor (applyAdds ops) id).sum = totalAdded ops id
    ∧ (∀ st ∈ dropVeinLoot (applyAdds ops), 1 ≤ st.2 ∧ st.2 ≤ 64)
    ∧ (0 < totalAdded ops id → emittedFor (applyAdds ops) id ≠ []) := by
  have hnd := applyAdds_nodup ops
  have hget : (lootGet (applyAdds ops).loot id).getD 0 = totalAdded ops id := by
    have h := applyAdds_get_aux ops id createVeinContext
    simpa [applyAdds, createVeinContext, lootGet] using h
  have hpres : ((lootGet (applyAdds ops).loot id).isSome)
      = ops.any (fun op => op.1 == id) := by
    have h := applyAdds_present_aux ops id createVeinContext
    simpa [applyAdds, createVeinContext, lootGet] using h
  have hchar := emittedFor_eq (applyAdds ops) id hnd
  have hzero_of_none : lootGet (applyAdds ops).loot id = none → totalAdded ops id = 0 := by
    intro hfind
    apply totalAdded_eq_zero_of_not_any
    rw [hfind] at hpres
    simpa using hpres.symm
  refine ⟨?_, ?_, ?_⟩
  · rw [hchar]
    cases hfind : lootGet (applyAdds ops).loot id with
    | some v =>
      have hv : v = totalAdded ops id := by
        rw [hfind] at hget
        simpa using hget
      simp [hv, splitStack_sum]
    | none =>
      simp [hzero_of_none hfind]
  · intro st hst
    simp only [dropVeinLoot, List.mem_flatMap, List.mem_map] at hst
    obtain ⟨kv, _, sz, hsz, rfl⟩ := hst
    exact splitStack_bounds kv.2 sz hsz
  · intro hpos
    rw [hchar]
    cases hfind : lootGet (applyAdds ops).loot id with
    | some v =>
      have hv : v = totalAdded ops id := by
        rw [hfind] at hget
        simpa using hget
      subst hv
      simp only
      exact splitStack_ne_nil _ hpos
    | none =>
      exfalso
      have hz := hzero_of_none hfind
      omega

/-- Witness for C2 at a concrete run: two types, one of which accumulates
130 units and is emitted as stacks 64, 64, 2. -/
theorem c2_emission_splits_totals_witness :
    (emittedFor (applyAdds [("a", 70), ("b", 1), ("a", 60)]) "a").sum
        = totalAdded [("a", 70), ("b", 1), ("a", 60)] "a"
    ∧ (emittedFor (applyAdds [("a", 70), ("b", 1), ("a", 60)]) "a" ≠ []) := by
  have h := c2_emission_splits_totals [("a", 70), ("b", 1), ("a", 60)] "a"
  exact ⟨h.1, h.2.2 (by decide)⟩

/- ───────────────────────────────────────────── -/
/- LEMMAS: SHAPE OF THE EVENTS A RUN APPENDS     -/
/- ───────────────────────────────────────────── -/

/-- Events a handler's loop may append: never `emit` (emission happens
only in the `finally`), and any `stamina n` satisfies the call-site guard
`n % 10 == 0 && n != 0`. -/
def goodEv : Ev → Bool
  | Ev.emit => false
  | Ev.stamina n => n % 10 == 0 && n != 0
  | _ => true

theorem reduceHunger_trace (env : Env) (s : RunState) (mh ms : Int) :
    (reduceHunger env s mh ms).2.trace = s.trace := by
  unfold reduceHunger
  by_cases hb : env.noConsumeSaturation
  · simp [hb]
  · simp only [hb, Bool.false_eq_true, if_false]
    cases s.hunger with
    | none => cases s.saturation <;> rfl
    | some h =>
      cases s.saturation with
      | none => rfl
      | some sat =>
        dsimp only
        by_cases h1 : sat - ms ≥ 0
        · rw [if_pos h1]
        · rw [if_neg h1]
          by_cases h2 : h - mh ≥ 0
          · rw [if_pos h2]
          · rw [if_neg h2]

theorem applyToolWear_trace (env : Env) (item : Option Item) (s : RunState) :
    ∃ ext, (applyToolWear env item s).trace = s.trace ++ ext ∧ ext.all goodEv = true := by
  unfold applyToolWear
  cases item with
  | none => exact ⟨[], by simp⟩
  | some it =>
    dsimp only
    by_cases hs : (env.gameMode == "survival" && it.hasDurability) = true
    · rw [if_pos hs]
      by_cases hd : env.damageResult s.damages = true
      · rw [if_pos hd]; exact ⟨[], by simp⟩
      · rw [if_neg hd]; exact ⟨[Ev.unequip], by simp [goodEv]⟩
    · rw [if_neg hs]; exact ⟨[], by simp⟩

theorem breakBlockCtx_trace (env : Env) (item : Option Item) (pos : Pos)
    (blk : BlockData) (s : RunState) :
    ∃ ext, (breakBlockCtx env item pos blk s).1.trace = s.trace ++ ext
      ∧ ext.all goodEv = true := by
  unfold breakBlockCtx
  by_cases hf : env.breakFault s.brkCalls = true
  · rw [if_pos hf]; exact ⟨[], by simp⟩
  · rw [if_neg hf]
    cases item with
    | none =>
      dsimp only
      split
      · exact ⟨[Ev.brk pos s.mainhand], by simp [goodEv]⟩
      · exact ⟨[Ev.brk pos s.mainhand], by simp [goodEv]⟩
    | some it =>
      dsimp only
      split
      · exact ⟨[Ev.brk pos s.mainhand], by simp [goodEv]⟩
      · exact ⟨[Ev.brk pos s.mainhand], by simp [goodEv]⟩

theorem yieldTick_trace (env : Env) (s : RunState) :
    (yieldTick env s).trace = s.trace := rfl

/-- The shared eligible-step body appends only good events. -/
theorem floodEligibleStep_trace (env : Env) (item : Option Item) (pos : Pos)
    (tb : Option BlockData) (cont : Nat) (s : RunState) :
    ∃ ext,
      (match floodEligibleStep env item pos tb cont s with
       | EligOut.cont2 s' => s'.trace
       | EligOut.nauseaStop s' => s'.trace
       | EligOut.fault s' => s'.trace) = s.trace ++ ext ∧ ext.all goodEv = true := by
  unfold floodEligibleStep
  dsimp only
  obtain ⟨e1, he1, hg1⟩ := applyToolWear_trace env item s
  by_cases hc : (cont % 10 == 0 && cont != 0) = true
  · rw [if_pos hc]
    have hgs : goodEv (Ev.stamina cont) = true := by simpa [goodEv] using hc
    rcases hmatch : reduceHunger env
        { applyToolWear env item s with
          trace := (applyToolWear env item s).trace ++ [Ev.stamina cont] } 1 1 with ⟨ok, s2⟩
    have hrh := reduceHunger_trace env
      { applyToolWear env item s with
        trace := (applyToolWear env item s).trace ++ [Ev.stamina cont] } 1 1
    rw [hmatch] at hrh
    simp only at hrh
    have hs2 : s2.trace = s.trace ++ (e1 ++ [Ev.stamina cont]) := by
      rw [hrh, he1, List.append_assoc]
    cases ok with
    | false =>
      refine ⟨e1 ++ [Ev.stamina cont] ++ [Ev.nausea], ?_, ?_⟩
      · dsimp only
        rw [hs2]
        simp [List.append_assoc]
      · simp [hg1, hgs, show goodEv Ev.nausea = true from rfl]
    | true =>
      cases tb with
      | none =>
        refine ⟨e1 ++ [Ev.stamina cont], ?_, ?_⟩
        · dsimp only
          rw [hs2]
        · simp [hg1, hgs]
      | some blk =>
        obtain ⟨e2, he2, hg2⟩ := breakBlockCtx_trace env item pos blk s2
        rcases hbb : breakBlockCtx env item pos blk s2 with ⟨s3, fault⟩
        rw [hbb] at he2
        simp only at he2
        cases fault with
        | true =>
          refine ⟨e1 ++ [Ev.stamina cont] ++ e2, ?_, ?_⟩
          · dsimp only
            rw [hbb]
            dsimp only
            rw [he2, hs2]
            simp [List.append_assoc]
          · simp [hg1, hgs, hg2]
        | false =>
          refine ⟨e1 ++ [Ev.stamina cont] ++ e2, ?_, ?_⟩
          · dsimp only
            rw [hbb]
            dsimp only
            rw [yieldTick_trace, he2, hs2]
            simp [List.append_assoc]
          · simp [hg1, hgs, hg2]
  · rw [if_neg hc]
    cases tb with
    | none => exact ⟨e1, by simpa using he1, hg1⟩
    | some blk =>
      obtain ⟨e2, he2, hg2⟩ := breakBlockCtx_trace env item pos blk (applyToolWear env item s)
      rcases hbb : breakBlockCtx env item pos blk (applyToolWear env item s) with ⟨s3, fault⟩
      rw [hbb] at he2
      simp only at he2
      cases fault with
      | true =>
        refine ⟨e1 ++ e2, ?_, by simp [hg1, hg2]⟩
        dsimp only
        rw [hbb]
        dsimp only
        rw [he2, he1]
        simp [List.append_assoc]
      | false =>
        refine ⟨e1 ++ e2, ?_, by simp [hg1, hg2]⟩
        dsimp only
        rw [hbb]
        dsimp only
        rw [yieldTick_trace, he2, he1]
        simp [List.append_assoc]

theorem floodLoop_trace (env : Env) (pred : String → Bool) (item : Option Item)
    (maxVein : Nat) :
    ∀ (fuel : Nat) (visited toCheck : List Pos) (cont : Nat) (s : RunState),
    ∃ ext, (floodLoop env pred item maxVein fuel visited toCheck cont s).1.trace
      = s.trace ++ ext ∧ ext.all goodEv = true := by
  intro fuel
  induction fuel with
  | zero => intro visited toCheck cont s; exact ⟨[], by simp [floodLoop]⟩
  | succ n ih =>
    intro visited toCheck cont s
    match toCheck with
    | [] => exact ⟨[], by simp [floodLoop]⟩
    | pos :: rest =>
      simp only [floodLoop]
      by_cases hlt : cont < maxVein
      · rw [if_pos hlt]
        by_cases htool : toolCheckFails item s = true
        · rw [if_pos htool]
          exact ⟨[Ev.toolFail], by simp, by simp [goodEv]⟩
        · rw [if_neg htool]
          by_cases hvis : visited.contains pos = true
          · rw [if_pos hvis]
            exact ih visited rest cont s
          · rw [if_neg hvis]
            by_cases helig : ((pos :: visited).length == 1 ||
                (match (match env.getBlock pos with
                        | Except.error _ => none
                        | Except.ok b => b : Option BlockData) with
                 | some b => pred b.typeId
                 | none => false)) = true
            · rw [if_pos helig]
              obtain ⟨e1, he1, hg1⟩ := floodEligibleStep_trace env item pos
                (match env.getBlock pos with
                 | Except.error _ => none
                 | Except.ok b => b) cont s
              rcases hstep : floodEligibleStep env item pos
                  (match env.getBlock pos with
                   | Except.error _ => none
                   | Except.ok b => b) cont s with s' | s' | s'
              · rw [hstep] at he1
                simp only at he1
                obtain ⟨e2, he2, hg2⟩ := ih (pos :: visited)
                  (rest ++ dirs.map (fun d => ⟨pos.x + d.x, pos.y + d.y, pos.z + d.z⟩))
                  (cont + 1) s'
                refine ⟨e1 ++ e2, ?_, by simp [hg1, hg2]⟩
                rw [he2, he1, List.append_assoc]
              · rw [hstep] at he1
                simp only at he1
                exact ⟨e1, by simpa using he1, hg1⟩
              · rw [hstep] at he1
                simp only at he1
                exact ⟨e1, by simpa using he1, hg1⟩
            · rw [if_neg helig]
              exact ih (pos :: visited) rest cont s
      · rw [if_neg hlt]
        exact ⟨[], by simp⟩

theorem largeInner_trace (env : Env) (item : Option Item) (perm : String)
    (maxBlocks : Nat) (axis : Axis) (center : Pos) :
    ∀ (offs : List (Int × Int)) (s : RunState) (cont broken : Nat) (found : Bool),
    ∃ ext,
      (match largeInner env item perm maxBlocks axis center offs s cont broken found with
       | LTInner.done s' _ _ _ => s'.trace
       | LTInner.ret s' _ _ => s'.trace) = s.trace ++ ext ∧ ext.all goodEv = true := by
  intro offs
  induction offs with
  | nil => intro s cont broken found; exact ⟨[], by simp [largeInner]⟩
  | cons dq rest ih =>
    intro s cont broken found
    simp only [largeInner]
    by_cases htool : toolCheckFails item s = true
    · rw [if_pos htool]
      exact ⟨[Ev.toolFail], by simp, by simp [goodEv]⟩
    · rw [if_neg htool]
      rcases hgb : tunnelGetBlock env perm (sliceCell axis center dq.1 dq.2) with _ | blk
      · exact ih s cont broken found
      · dsimp only
        obtain ⟨e1, he1, hg1⟩ := applyToolWear_trace env item s
        by_cases hc : (cont % 10 == 0 && cont != 0) = true
        · rw [if_pos hc]
          have hgs : goodEv (Ev.stamina cont) = true := by simpa [goodEv] using hc
          rcases hmatch : reduceHunger env
              { applyToolWear env item s with
                trace := (applyToolWear env item s).trace ++ [Ev.stamina cont] } 1 1
            with ⟨ok, s2⟩
          have hrh := reduceHunger_trace env
            { applyToolWear env item s with
              trace := (applyToolWear env item s).trace ++ [Ev.stamina cont] } 1 1
          rw [hmatch] at hrh
          simp only at hrh
          have hs2 : s2.trace = s.trace ++ (e1 ++ [Ev.stamina cont]) := by
            rw [hrh, he1, List.append_assoc]
          cases ok with
          | false =>
            refine ⟨e1 ++ [Ev.stamina cont] ++ [Ev.nausea], ?_, ?_⟩
            · dsimp only
              rw [hs2]
              simp [List.append_assoc]
            · simp [hg1, hgs, show goodEv Ev.nausea = true from rfl]
          | true =>
            obtain ⟨e2, he2, hg2⟩ := breakBlockCtx_trace env item
              (sliceCell axis center dq.1 dq.2) blk s2
            rcases hbb : breakBlockCtx env item (sliceCell axis center dq.1 dq.2) blk s2
              with ⟨s3, fault⟩
            rw [hbb] at he2
            simp only at he2
            have hs3 : s3.trace = s.trace ++ (e1 ++ [Ev.stamina cont] ++ e2) := by
              rw [he2, hs2]
              simp [List.append_assoc]
            cases fault with
            | true =>
              refine ⟨e1 ++ [Ev.stamina cont] ++ e2, ?_, by simp [hg1, hgs, hg2]⟩
              dsimp only
              rw [hbb]
              exact hs3
            | false =>
              dsimp only
              rw [hbb]
              dsimp only
              by_cases hmax : broken + 1 + 1 ≥ maxBlocks
              · rw [if_pos hmax]
                exact ⟨e1 ++ [Ev.stamina cont] ++ e2, hs3, by simp [hg1, hgs, hg2]⟩
              · rw [if_neg hmax]
                obtain ⟨e3, he3, hg3⟩ := ih (yieldTick env s3) (cont + 1) (broken + 1) true
                refine ⟨e1 ++ [Ev.stamina cont] ++ e2 ++ e3, ?_,
                  by simp [hg1, hgs, hg2, hg3]⟩
                rw [he3, yieldTick_trace, hs3]
                simp [List.append_assoc]
        · rw [if_neg hc]
          obtain ⟨e2, he2, hg2⟩ := breakBlockCtx_trace env item
            (sliceCell axis center dq.1 dq.2) blk (applyToolWear env item s)
          rcases hbb : breakBlockCtx env item (sliceCell axis center dq.1 dq.2) blk
              (applyToolWear env item s) with ⟨s3, fault⟩
          rw [hbb] at he2
          simp only at he2
          have hs3 : s3.trace = s.trace ++ (e1 ++ e2) := by
            rw [he2, he1, List.append_assoc]
          cases fault with
          | true =>
            refine ⟨e1 ++ e2, ?_, by simp [hg1, hg2]⟩
            dsimp only
            rw [hbb]
            exact hs3
          | false =>
            dsimp only
            rw [hbb]
            dsimp only
            by_cases hmax : broken + 1 + 1 ≥ maxBlocks
            · rw [if_pos hmax]
              exact ⟨e1 ++ e2, hs3, by simp [hg1, hg2]⟩
            · rw [if_neg hmax]
              obtain ⟨e3, he3, hg3⟩ := ih (yieldTick env s3) (cont + 1) (broken + 1) true
              refine ⟨e1 ++ e2 ++ e3, ?_, by simp [hg1, hg2, hg3]⟩
              rw [he3, yieldTick_trace, hs3]
              simp [List.append_assoc]

theorem largeOuter_trace (env : Env) (item : Option Item) (perm : String)
    (maxBlocks : Nat) (axis : Axis) (stepSign : Int) (origin : Pos) :
    ∀ (depths : List Nat) (outward : Bool) (s : RunState) (cont broken : Nat),
    ∃ ext,
      (largeOuter env item perm maxBlocks axis stepSign origin depths outward
        s cont broken).1.trace = s.trace ++ ext ∧ ext.all goodEv = true := by
  intro depths
  induction depths with
  | nil => intro outward s cont broken; exact ⟨[], by simp [largeOuter]⟩
  | cons d ds ih =>
    intro outward s cont broken
    simp only [largeOuter]
    obtain ⟨e1, he1, hg1⟩ := largeInner_trace env item perm maxBlocks axis
      (sliceCenter axis origin (Int.ofNat d) stepSign) (spiralOffsets outward)
      s cont broken false
    rcases hinner : largeInner env item perm maxBlocks axis
        (sliceCenter axis origin (Int.ofNat d) stepSign) (spiralOffsets outward)
        s cont broken false with ⟨s', cont', broken', found⟩ | ⟨s', cont', broken'⟩
    · rw [hinner] at he1
      simp only at he1
      cases found with
      | true =>
        dsimp only
        rw [if_pos rfl]
        obtain ⟨e2, he2, hg2⟩ := ih (!outward) s' cont' broken'
        refine ⟨e1 ++ e2, ?_, by simp [hg1, hg2]⟩
        rw [he2, he1, List.append_assoc]
      | false =>
        dsimp only
        rw [if_neg (by simp)]
        exact ⟨e1, he1, hg1⟩
    · rw [hinner] at he1
      simp only at he1
      exact ⟨e1, he1, hg1⟩

theorem smallCell_trace (env : Env) (item : Option Item) (perm : String) (cell : Pos)
    (s : RunState) (cont : Nat) :
    ∃ ext,
      (match smallCell env item perm cell s cont with
       | STStep.next s' _ => s'.trace
       | STStep.stop s' _ => s'.trace) = s.trace ++ ext ∧ ext.all goodEv = true := by
  unfold smallCell
  by_cases htool : toolCheckFails item s = true
  · rw [if_pos htool]
    exact ⟨[Ev.toolFail], by simp, by simp [goodEv]⟩
  · rw [if_neg htool]
    rcases hgb : tunnelGetBlock env perm cell with _ | blk
    · exact ⟨[], by simp⟩
    · dsimp only
      obtain ⟨e1, he1, hg1⟩ := applyToolWear_trace env item s
      by_cases hc : (cont % 10 == 0 && cont != 0) = true
      · rw [if_pos hc]
        have hgs : goodEv (Ev.stamina cont) = true := by simpa [goodEv] using hc
        rcases hmatch : reduceHunger env
            { applyToolWear env item s with
              trace := (applyToolWear env item s).trace ++ [Ev.stamina cont] } 1 1
          with ⟨ok, s2⟩
        have hrh := reduceHunger_trace env
          { applyToolWear env item s with
            trace := (applyToolWear env item s).trace ++ [Ev.stamina cont] } 1 1
        rw [hmatch] at hrh
        simp only at hrh
        have hs2 : s2.trace = s.trace ++ (e1 ++ [Ev.stamina cont]) := by
          rw [hrh, he1, List.append_assoc]
        cases ok with
        | false =>
          refine ⟨e1 ++ [Ev.stamina cont] ++ [Ev.nausea], ?_, ?_⟩
          · dsimp only
            rw [hs2]
            simp [List.append_assoc]
          · simp [hg1, hgs, show goodEv Ev.nausea = true from rfl]
        | true =>
          obtain ⟨e2, he2, hg2⟩ := breakBlockCtx_trace env item cell blk s2
          rcases hbb : breakBlockCtx env item cell blk s2 with ⟨s3, fault⟩
          rw [hbb] at he2
          simp only at he2
          have hs3 : s3.trace = s.trace ++ (e1 ++ [Ev.stamina cont] ++ e2) := by
            rw [he2, hs2]
            simp [List.append_assoc]
          cases fault with
          | true =>
            refine ⟨e1 ++ [Ev.stamina cont] ++ e2, ?_, by simp [hg1, hgs, hg2]⟩
            dsimp only
            rw [hbb]
            exact hs3
          | false =>
            refine ⟨e1 ++ [Ev.stamina cont] ++ e2, ?_, by simp [hg1, hgs, hg2]⟩
            dsimp only
            rw [hbb]
            dsimp only
            rw [yieldTick_trace]
            exact hs3
      · rw [if_neg hc]
        obtain ⟨e2, he2, hg2⟩ := breakBlockCtx_trace env item cell blk
          (applyToolWear env item s)
        rcases hbb : breakBlockCtx env item cell blk (applyToolWear env item s)
          with ⟨s3, fault⟩
        rw [hbb] at he2
        simp only at he2
        have hs3 : s3.trace = s.trace ++ (e1 ++ e2) := by
          rw [he2, he1, List.append_assoc]
        cases fault with
        | true =>
          refine ⟨e1 ++ e2, ?_, by simp [hg1, hg2]⟩
          dsimp only
          rw [hbb]
          exact hs3
        | false =>
          refine ⟨e1 ++ e2, ?_, by simp [hg1, hg2]⟩
          dsimp only
          rw [hbb]
          dsimp only
          rw [yieldTick_trace]
          exact hs3

theorem smallColumn_trace (env : Env) (item : Option Item) (perm : String) (base : Pos)
    (s : RunState) (cont : Nat) :
    ∃ ext,
      (match smallColumn env item perm base s cont with
       | STStep.next s' _ => s'.trace
       | STStep.stop s' _ => s'.trace) = s.trace ++ ext ∧ ext.all goodEv = true := by
  unfold smallColumn
  obtain ⟨e1, he1, hg1⟩ := smallCell_trace env item perm base s cont
  rcases hc1 : smallCell env item perm base s cont with ⟨s', cont'⟩ | ⟨s', cont'⟩
  · rw [hc1] at he1
    simp only at he1
    obtain ⟨e2, he2, hg2⟩ := smallCell_trace env item perm ⟨base.x, base.y + 1, base.z⟩ s' cont'
    rcases hc2 : smallCell env item perm ⟨base.x, base.y + 1, base.z⟩ s' cont'
      with ⟨s'', cont''⟩ | ⟨s'', cont''⟩
    · rw [hc2] at he2
      simp only at he2
      refine ⟨e1 ++ e2, ?_, by simp [hg1, hg2]⟩
      dsimp only
      rw [hc2]
      dsimp only
      rw [he2, he1, List.append_assoc]
    · rw [hc2] at he2
      simp only at he2
      refine ⟨e1 ++ e2, ?_, by simp [hg1, hg2]⟩
      dsimp only
      rw [hc2]
      dsimp only
      rw [he2, he1, List.append_assoc]
  · rw [hc1] at he1
    simp only at he1
    exact ⟨e1, he1, hg1⟩

theorem smallLoop_trace (env : Env) (item : Option Item) (perm : String) (axis : Axis)
    (stepSign : Int) (origin : Pos) :
    ∀ (depths : List Nat) (s : RunState) (cont : Nat),
    ∃ ext, (smallLoop env item perm axis stepSign origin depths s cont).1.trace
      = s.trace ++ ext ∧ ext.all goodEv = true := by
  intro depths
  induction depths with
  | nil => intro s cont; exact ⟨[], by simp [smallLoop]⟩
  | cons d ds ih =>
    intro s cont
    simp only [smallLoop]
    obtain ⟨e1, he1, hg1⟩ := smallColumn_trace env item perm
      (sliceCenter axis origin (Int.ofNat d) stepSign) s cont
    rcases hcol : smallColumn env item perm (sliceCenter axis origin (Int.ofNat d) stepSign)
        s cont with ⟨s', cont'⟩ | ⟨s', cont'⟩
    · rw [hcol] at he1
      simp only at he1
      obtain ⟨e2, he2, hg2⟩ := ih s' cont'
      refine ⟨e1 ++ e2, ?_, by simp [hg1, hg2]⟩
      rw [he2, he1, List.append_assoc]
    · rw [hcol] at he1
      simp only at he1
      exact ⟨e1, he1, hg1⟩

theorem lineLoop_trace (env : Env) (item : Option Item) (perm : String) (axis : Axis)
    (stepSign : Int) (origin : Pos) :
    ∀ (depths : List Nat) (s : RunState) (cont : Nat),
    ∃ ext, (lineLoop env item perm axis stepSign origin depths s cont).1.trace
      = s.trace ++ ext ∧ ext.all goodEv = true := by
  intro depths
  induction depths with
  | nil => intro s cont; exact ⟨[], by simp [lineLoop]⟩
  | cons d ds ih =>
    intro s cont
    simp only [lineLoop]
    by_cases htool : toolCheckFails item s = true
    · rw [if_pos htool]
      exact ⟨[Ev.toolFail], by simp, by simp [goodEv]⟩
    · rw [if_neg htool]
      rcases hgb : tunnelGetBlock env perm
          (sliceCenter axis origin (Int.ofNat d) stepSign) with _ | blk
      · exact ih s cont
      · dsimp only
        obtain ⟨e1, he1, hg1⟩ := applyToolWear_trace env item s
        by_cases hc : (cont % 10 == 0 && cont != 0) = true
        · rw [if_pos hc]
          have hgs : goodEv (Ev.stamina cont) = true := by simpa [goodEv] using hc
          rcases hmatch : reduceHunger env
              { applyToolWear env item s with
                trace := (applyToolWear env item s).trace ++ [Ev.stamina cont] } 1 1
            with ⟨ok, s2⟩
          have hrh := reduceHunger_trace env
            { applyToolWear env item s with
              trace := (applyToolWear env item s).trace ++ [Ev.stamina cont] } 1 1
          rw [hmatch] at hrh
          simp only at hrh
          have hs2 : s2.trace = s.trace ++ (e1 ++ [Ev.stamina cont]) := by
            rw [hrh, he1, List.append_assoc]
          cases ok with
          | false =>
            refine ⟨e1 ++ [Ev.stamina cont] ++ [Ev.nausea], ?_, ?_⟩
            · dsimp only
              rw [hs2]
              simp [List.append_assoc]
            · simp [hg1, hgs, show goodEv Ev.nausea = true from rfl]
          | true =>
            obtain ⟨e2, he2, hg2⟩ := breakBlockCtx_trace env item
              (sliceCenter axis origin (Int.ofNat d) stepSign) blk s2
            rcases hbb : breakBlockCtx env item
                (sliceCenter axis origin (Int.ofNat d) stepSign) blk s2 with ⟨s3, fault⟩
            rw [hbb] at he2
            simp only at he2
            have hs3 : s3.trace = s.trace ++ (e1 ++ [Ev.stamina cont] ++ e2) := by
              rw [he2, hs2]
              simp [List.append_assoc]
            cases fault with
            | true =>
              refine ⟨e1 ++ [Ev.stamina cont] ++ e2, ?_, by simp [hg1, hgs, hg2]⟩
              dsimp only
              rw [hbb]
              exact hs3
            | false =>
              dsimp only
              rw [hbb]
              dsimp only
              obtain ⟨e3, he3, hg3⟩ := ih (yieldTick env s3) (cont + 1)
              refine ⟨e1 ++ [Ev.stamina cont] ++ e2 ++ e3, ?_,
                by simp [hg1, hgs, hg2, hg3]⟩
              rw [he3, yieldTick_trace, hs3]
              simp [List.append_assoc]
        · rw [if_neg hc]
          obtain ⟨e2, he2, hg2⟩ := breakBlockCtx_trace env item
            (sliceCenter axis origin (Int.ofNat d) stepSign) blk (applyToolWear env item s)
          rcases hbb : breakBlockCtx env item
              (sliceCenter axis origin (Int.ofNat d) stepSign) blk
              (applyToolWear env item s) with ⟨s3, fault⟩
          rw [hbb] at he2
          simp only at he2
          have hs3 : s3.trace = s.trace ++ (e1 ++ e2) := by
            rw [he2, he1, List.append_assoc]
          cases fault with
          | true =>
            refine ⟨e1 ++ e2, ?_, by simp [hg1, hg2]⟩
            dsimp only
            rw [hbb]
            exact hs3
          | false =>
            dsimp only
            rw [hbb]
            dsimp only
            obtain ⟨e3, he3, hg3⟩ := ih (yieldTick env s3) (cont + 1)
            refine ⟨e1 ++ e2 ++ e3, ?_, by simp [hg1, hg2, hg3]⟩
            rw [he3, yieldTick_trace, hs3]
            simp [List.append_assoc]

theorem countP_isEmit_eq_zero (ext : List Ev) (h : ext.all goodEv = true) :
    ext.countP isEmit = 0 := by
  induction ext with
  | nil => rfl
  | cons e rest ih =>
    simp only [List.all_cons, Bool.and_eq_true] at h
    have he : isEmit e = false := by
      cases e <;> simp [isEmit, goodEv] at h ⊢
    rw [List.countP_cons, he]
    simp [ih h.2]

theorem emit_count_of_good (ext : List Ev) (h : ext.all goodEv = true) :
    ((ext ++ [Ev.emit]).countP isEmit) = 1 := by
  rw [List.countP_append, countP_isEmit_eq_zero ext h]
  rfl

/-- **C1.** For every run of every shape handler (`shapelessVein`,
`treeCapitator`, `veinMiner`, `largeTunnel`, `smallTunnel`, `lineTunnel`)
and every exit path — normal completion, early `break`/`return`, or a
fault thrown by `breakBlock` (caught in the tunnels, propagating in the
flood-fills) — the run's accumulated loot is emitted exactly once via
`dropVeinLoot`, by the `try`/`finally` wrapping of every handler body:
every trace carries exactly one `emit` event. -/
theorem c1_loot_emitted_exactly_once (sh : Shape) (env : Env) (origin : Pos)
    (brokenBlock : String) (maxVein : Nat) (item : Option Item) :
    ((runShape sh env origin brokenBlock maxVein item).1.trace.countP isEmit) = 1 := by
  cases sh with
  | shapelessVein =>
    obtain ⟨ext, hext, hg⟩ := floodLoop_trace env (fun t => t == brokenBlock) item maxVein
      (27 * maxVein + 2) [] [origin] 0 (initState env)
    simp only [runShape, shapelessVein, floodVein]
    rw [hext]
    simpa [initState] using emit_count_of_good ext hg
  | treeCapitator =>
    obtain ⟨ext, hext, hg⟩ := floodLoop_trace env isTreeBlock item maxVein
      (27 * maxVein + 2) [] [origin] 0 (initState env)
    simp only [runShape, treeCapitator, floodVein]
    rw [hext]
    simpa [initState] using emit_count_of_good ext hg
  | veinMiner =>
    obtain ⟨ext, hext, hg⟩ := floodLoop_trace env isOreBlock item maxVein
      (27 * maxVein + 2) [] [origin] 0 (initState env)
    simp only [runShape, veinMiner, floodVein]
    rw [hext]
    simpa [initState] using emit_count_of_good ext hg
  | largeTunnel =>
    obtain ⟨ext, hext, hg⟩ := largeOuter_trace env item brokenBlock (maxVein * 2)
      (pickAxisDir env.viewDir).1 (pickAxisDir env.viewDir).2 origin
      ((List.range (maxVein / 4 + 1 -
        probeSliceStart env brokenBlock (pickAxisDir env.viewDir).1 origin)).map
        (fun i => i + probeSliceStart env brokenBlock (pickAxisDir env.viewDir).1 origin))
      true (initState env) 0 0
    simp only [runShape, largeTunnel]
    rw [hext]
    simpa [initState] using emit_count_of_good ext hg
  | smallTunnel =>
    obtain ⟨ext, hext, hg⟩ := smallLoop_trace env item brokenBlock
      (pickAxisDir env.viewDir).1 (pickAxisDir env.viewDir).2 origin
      (List.range (maxVein / 2)) (initState env) 0
    simp only [runShape, smallTunnel]
    rw [hext]
    simpa [initState] using emit_count_of_good ext hg
  | lineTunnel =>
    obtain ⟨ext, hext, hg⟩ := lineLoop_trace env item brokenBlock
      (pickAxisDir env.viewDir).1 (pickAxisDir env.viewDir).2 origin
      (List.range maxVein) (initState env) 0
    simp only [runShape, lineTunnel]
    rw [hext]
    simpa [initState] using emit_count_of_good ext hg

/-- The events a run's trace may carry all satisfy the governor's
call-site guard on stamina checks. -/
def staminaGuardOk : Ev → Bool
  | Ev.stamina n => n % 10 == 0 && n != 0
  | _ => true

theorem goodEv_staminaGuardOk (e : Ev) (h : goodEv e = true) :
    staminaGuardOk e = true := by
  cases e <;> simp [goodEv, staminaGuardOk] at h ⊢
  exact h

theorem all_staminaGuardOk_of_good (ext : List Ev) (h : ext.all goodEv = true) :
    (ext ++ [Ev.emit]).all staminaGuardOk = true := by
  rw [List.all_append]
  have h1 : ext.all staminaGuardOk = true := by
    rw [List.all_eq_true] at h ⊢
    exact fun e he => goodEv_staminaGuardOk e (h e he)
  rw [h1]
  rfl

/-- **C6.** The resource governor (`reduceHunger`): with the bypass flag
off and both components present, it deducts the stamina cost from the
saturation reserve when saturation covers it, otherwise from the hunger
reserve when hunger covers it, and reports abort exactly when neither
covers the deduction; with the world-level bypass flag set it always
reports sufficient stamina and touches neither reserve. Every governor
invocation a handler performs happens at a step counter that is a nonzero
multiple of 10 (the `cont % 10 == 0 && cont != 0` guard), witnessed by
the `stamina` events of every run trace. -/
theorem c6_governor_policy :
    (∀ (env : Env) (s : RunState) (h sat mh ms : Int),
      env.noConsumeSaturation = false → s.hunger = some h → s.saturation = some sat →
        (ms ≤ sat → reduceHunger env s mh ms
            = (true, { s with saturation := some (sat - ms) }))
        ∧ (sat < ms → mh ≤ h → reduceHunger env s mh ms
            = (true, { s with hunger := some (h - mh) }))
        ∧ (sat < ms → h < mh → reduceHunger env s mh ms = (false, s)))
    ∧ (∀ (env : Env) (s : RunState) (mh ms : Int),
      env.noConsumeSaturation = true → reduceHunger env s mh ms = (true, s))
    ∧ (∀ (sh : Shape) (env : Env) (origin : Pos) (brokenBlock : String)
        (maxVein : Nat) (item : Option Item),
      ((runShape sh env origin brokenBlock maxVein item).1.trace.all
        staminaGuardOk) = true) := by
  refine ⟨?_, ?_, ?_⟩
  · intro env s h sat mh ms hb hh hs
    refine ⟨?_, ?_, ?_⟩
    · intro hcov
      unfold reduceHunger
      rw [hb]
      simp only [Bool.false_eq_true, if_false, hh, hs]
      rw [if_pos (by omega)]
    · intro hncov hcovh
      unfold reduceHunger
      rw [hb]
      simp only [Bool.false_eq_true, if_false, hh, hs]
      rw [if_neg (by omega), if_pos (by omega)]
    · intro hncov hncovh
      unfold reduceHunger
      rw [hb]
      simp only [Bool.false_eq_true, if_false, hh, hs]
      rw [if_neg (by omega), if_neg (by omega)]
  · intro env s mh ms hb
    unfold reduceHunger
    rw [hb]
    simp
  · intro sh env origin brokenBlock maxVein item
    cases sh with
    | shapelessVein =>
      obtain ⟨ext, hext, hg⟩ := floodLoop_trace env (fun t => t == brokenBlock) item maxVein
        (27 * maxVein + 2) [] [origin] 0 (initState env)
      simp only [runShape, shapelessVein, floodVein]
      rw [hext]
      simpa [initState] using all_staminaGuardOk_of_good ext hg
    | treeCapitator =>
      obtain ⟨ext, hext, hg⟩ := floodLoop_trace env isTreeBlock item maxVein
        (27 * maxVein + 2) [] [origin] 0 (initState env)
      simp only [runShape, treeCapitator, floodVein]
      rw [hext]
      simpa [initState] using all_staminaGuardOk_of_good ext hg
    | veinMiner =>
      obtain ⟨ext, hext, hg⟩ := floodLoop_trace env isOreBlock item maxVein
        (27 * maxVein + 2) [] [origin] 0 (initState env)
      simp only [runShape, veinMiner, floodVein]
      rw [hext]
      simpa [initState] using all_staminaGuardOk_of_good ext hg
    | largeTunnel =>
      obtain ⟨ext, hext, hg⟩ := largeOuter_trace env item brokenBlock (maxVein * 2)
        (pickAxisDir env.viewDir).1 (pickAxisDir env.viewDir).2 origin
        ((List.range (maxVein / 4 + 1 -
          probeSliceStart env brokenBlock (pickAxisDir env.viewDir).1 origin)).map
          (fun i => i + probeSliceStart env brokenBlock (pickAxisDir env.viewDir).1 origin))
        true (initState env) 0 0
      simp only [runShape, largeTunnel]
      rw [hext]
      simpa [initState] using all_staminaGuardOk_of_good ext hg
    | smallTunnel =>
      obtain ⟨ext, hext, hg⟩ := smallLoop_trace env item brokenBlock
        (pickAxisDir env.viewDir).1 (pickAxisDir env.viewDir).2 origin
        (List.range (maxVein / 2)) (initState env) 0
      simp only [runShape, smallTunnel]
      rw [hext]
      simpa [initState] using all_staminaGuardOk_of_good ext hg
    | lineTunnel =>
      obtain ⟨ext, hext, hg⟩ := lineLoop_trace env item brokenBlock
        (pickAxisDir env.viewDir).1 (pickAxisDir env.viewDir).2 origin
        (List.range maxVein) (initState env) 0
      simp only [runShape, lineTunnel]
      rw [hext]
      simpa [initState] using all_staminaGuardOk_of_good ext hg

/-- Witness for C6: a player with saturation 0 and hunger 3, bypass off,
pays the cost from hunger; with the bypass flag set nothing is touched. -/
theorem c6_governor_policy_witness :
    reduceHunger
        { getBlock := fun _ => Except.ok none, mainhand0 := none,
          mainhandAfter := fun _ => none, damageResult := fun _ => true,
          breakFault := fun _ => false, gameMode := "survival",
          noConsumeSaturation := false, hunger0 := some 3, saturation0 := some 0,
          blacklist := [], viewDir := ⟨1, 0, 0⟩ }
        (initState
          { getBlock := fun _ => Except.ok none, mainhand0 := none,
            mainhandAfter := fun _ => none, damageResult := fun _ => true,
            breakFault := fun _ => false, gameMode := "survival",
            noConsumeSaturation := false, hunger0 := some 3, saturation0 := some 0,
            blacklist := [], viewDir := ⟨1, 0, 0⟩ }) 1 1
      = (true, { initState
          { getBlock := fun _ => Except.ok none, mainhand0 := none,
            mainhandAfter := fun _ => none, damageResult := fun _ => true,
            breakFault := fun _ => false, gameMode := "survival",
            noConsumeSaturation := false, hunger0 := some 3, saturation0 := some 0,
            blacklist := [], viewDir := ⟨1, 0, 0⟩ } with hunger := some 2 }) := by
  have h := (c6_governor_policy.1
    { getBlock := fun _ => Except.ok none, mainhand0 := none,
      mainhandAfter := fun _ => none, damageResult := fun _ => true,
      breakFault := fun _ => false, gameMode := "survival",
      noConsumeSaturation := false, hunger0 := some 3, saturation0 := some 0,
      blacklist := [], viewDir := ⟨1, 0, 0⟩ }
    (initState
      { getBlock := fun _ => Except.ok none, mainhand0 := none,
        mainhandAfter := fun _ => none, damageResult := fun _ => true,
        breakFault := fun _ => false, gameMode := "survival",
        noConsumeSaturation := false, hunger0 := some 3, saturation0 := some 0,
        blacklist := [], viewDir := ⟨1, 0, 0⟩ }) 3 0 1 1 rfl rfl rfl).2.1
    (by norm_num) (by norm_num)
  simpa using h

/- ───────────────────────────────────────────── -/
/- C8: AXIS SELECTION                            -/
/- ───────────────────────────────────────────── -/

/-- The aim-vector component along an axis. -/
def axisComp (a : Axis) (v : Vec3) : ℚ :=
  match a with
  | Axis.x => v.x
  | Axis.y => v.y
  | Axis.z => v.z

/-- **C8.** For every tunnel run (`lineTunnel`, `smallTunnel`,
`largeTunnel` all run this selection verbatim on the player's aim
vector), the chosen traversal axis carries the largest absolute aim
component; the step direction is `1` for a non-negative component and
`-1` for a negative one (the sign of the component whenever it is
nonzero); and ties resolve preferring horizontal axes over the vertical
axis and `x` over `z`: `x` is chosen whenever its magnitude ties the
maximum, `z` whenever it ties the maximum and `x` does not, and `y` only
when strictly largest. -/
theorem c8_axis_from_aim (v : Vec3) :
    (|v.x| ≤ |axisComp (pickAxisDir v).1 v| ∧ |v.y| ≤ |axisComp (pickAxisDir v).1 v|
      ∧ |v.z| ≤ |axisComp (pickAxisDir v).1 v|)
    ∧ (0 ≤ axisComp (pickAxisDir v).1 v → (pickAxisDir v).2 = 1)
    ∧ (axisComp (pickAxisDir v).1 v < 0 → (pickAxisDir v).2 = -1)
    ∧ ((|v.y| ≤ |v.x| ∧ |v.z| ≤ |v.x|) → (pickAxisDir v).1 = Axis.x)
    ∧ ((pickAxisDir v).1 = Axis.y → |v.x| < |v.y| ∧ |v.z| < |v.y|)
    ∧ ((|v.y| ≤ |v.z| ∧ ¬(|v.y| ≤ |v.x| ∧ |v.z| ≤ |v.x|)) →
        (pickAxisDir v).1 = Axis.z) := by
  unfold pickAxisDir
  rw [if_neg (by simp [allowVertical])]
  by_cases h1 : |v.x| ≥ |v.y| ∧ |v.x| ≥ |v.z|
  · rw [if_pos h1]
    refine ⟨⟨le_refl _, h1.1, h1.2⟩, ?_, ?_, fun _ => rfl, ?_, ?_⟩
    · intro hc
      rw [if_pos (by exact hc)]
    · intro hc
      rw [if_neg (by exact not_le.mpr hc)]
    · intro hy
      exact absurd hy (by simp)
    · intro hz
      exact absurd h1 hz.2
  · rw [if_neg h1]
    by_cases h2 : |v.z| ≥ |v.y|
    · rw [if_pos h2]
      have hx : |v.x| < |v.z| := by
        rcases not_and_or.mp h1 with h | h
        · exact lt_of_lt_of_le (not_le.mp h) h2
        · exact not_le.mp h
      refine ⟨⟨le_of_lt hx, h2, le_refl _⟩, ?_, ?_, ?_, ?_, fun _ => rfl⟩
      · intro hc
        rw [if_pos (by exact hc)]
      · intro hc
        rw [if_neg (by exact not_le.mpr hc)]
      · intro hxmax
        exact absurd hxmax.2 (not_le.mpr hx)
      · intro hy
        exact absurd hy (by simp)
    · rw [if_neg h2]
      have hzy : |v.z| < |v.y| := not_le.mp h2
      have hxy : |v.x| < |v.y| := by
        rcases not_and_or.mp h1 with h | h
        · exact not_le.mp h
        · exact lt_of_lt_of_le (not_le.mp h) (le_of_lt hzy)
      refine ⟨⟨le_of_lt hxy, le_refl _, le_of_lt hzy⟩, ?_, ?_, ?_, ?_, ?_⟩
      · intro hc
        rw [if_pos (by exact hc)]
      · intro hc
        rw [if_neg (by exact not_le.mpr hc)]
      · intro hxmax
        exact absurd hxmax.1 (not_le.mpr hxy)
      · intro _
        exact ⟨hxy, hzy⟩
      · intro hz
        exact absurd hz.1 (not_le.mpr hzy)

/-- Witness for C8 at `v = (-3, 1, 2)`: axis `x` (largest magnitude),
direction `-1` (negative component). -/
theorem c8_axis_from_aim_witness :
    (pickAxisDir ⟨-3, 1, 2⟩).1 = Axis.x ∧ (pickAxisDir ⟨-3, 1, 2⟩).2 = -1 := by
  have h := c8_axis_from_aim ⟨-3, 1, 2⟩
  exact ⟨h.2.2.2.1 (by decide), h.2.2.1 (by decide)⟩

/- ───────────────────────────────────────────── -/
/- C10: ZERO HUNGER SUPPRESSES THE TRIGGER       -/
/- ───────────────────────────────────────────── -/

/-- **C10.** For every qualifying `playerBreakBlock` event, if the
player's `player.hunger` component value is exactly 0 the subscriber
returns before dispatching to `veinHandler`: no excavation run starts,
whatever the selected shape and whatever the value of the world-level
`dorios:noConsumeSaturation` bypass flag (which the trigger never
reads). -/
theorem c10_zero_hunger_no_run (e : TriggerEvent) (h : e.hungerValue = 0) :
    onPlayerBreakBlock e = TriggerResult.noRun := by
  unfold onPlayerBreakBlock
  have hb : (e.hungerValue == 0) = true := by simp [h]
  by_cases h1 : (!e.sneaking || e.gameMode == "creative") = true
  · rw [if_pos h1]
  · rw [if_neg h1]
    by_cases h2 : (e.isAdding || e.isBlacklistAdding || e.isDefaultAdding) = true
    · rw [if_pos h2]
    · rw [if_neg h2]
      dsimp only
      by_cases h3 : e.blacklist.contains e.brokenBlockId = true
      · rw [if_pos h3]
      · rw [if_neg h3]
        by_cases h4 : (!e.veinEnabled.getD true || !e.diggable) = true
        · rw [if_pos h4]
        · rw [if_neg h4]
          rw [if_pos hb]

/-- Witness for C10: a sneaking survival player with every setting at its
default, a diggable stone block — and hunger 0: no run starts, for both
values of the bypass flag. -/
theorem c10_zero_hunger_no_run_witness :
    onPlayerBreakBlock
        { sneaking := true, gameMode := "survival", isAdding := false,
          isBlacklistAdding := false, isDefaultAdding := false,
          veinEnabled := none, veinShape := none, veinLimit := none, veinList := none,
          brokenBlockId := "minecraft:stone", hungerValue := 0, diggable := true,
          blacklist := [], defaultList := ["minecraft:stone"],
          noConsumeSaturation := false } = TriggerResult.noRun
    ∧ onPlayerBreakBlock
        { sneaking := true, gameMode := "survival", isAdding := false,
          isBlacklistAdding := false, isDefaultAdding := false,
          veinEnabled := none, veinShape := none, veinLimit := none, veinList := none,
          brokenBlockId := "minecraft:stone", hungerValue := 0, diggable := true,
          blacklist := [], defaultList := ["minecraft:stone"],
          noConsumeSaturation := true } = TriggerResult.noRun :=
  ⟨c10_zero_hunger_no_run _ rfl, c10_zero_hunger_no_run _ rfl⟩

/- ───────────────────────────────────────────── -/
/- C7: THE LEADING-SLICE PROBE                   -/
/- ───────────────────────────────────────────── -/

/-- The claim's notion of the probe, following the spec's words
("probes whether the immediate next slice is fully solid"): every cell
of the leading cross-section resolves to an eligible block. The code's
probe (`probeSliceStart`) instead tests whether any cell does. -/
def sliceFullySolid (env : Env) (perm : String) (axis : Axis) (origin : Pos) : Bool :=
  (spiralOffsets true).all (fun dq =>
    (tunnelGetBlock env perm (sliceCell axis origin dq.1 dq.2)).isSome)

/-- A world whose only block is a single stone at the origin. -/
def envOneBlock : Env :=
  { getBlock := fun p =>
      if p = ⟨0, 0, 0⟩ then Except.ok (some ⟨"minecraft:stone", [], []⟩)
      else Except.ok none
    mainhand0 := none
    mainhandAfter := fun _ => none
    damageResult := fun _ => true
    breakFault := fun _ => false
    gameMode := "survival"
    noConsumeSaturation := true
    hunger0 := some 20
    saturation0 := some 5
    blacklist := []
    viewDir := ⟨1, 0, 0⟩ }

/-- C7 counterexample: with exactly one eligible cell in the leading
slice, the slice is not fully solid, yet `largeTunnel`'s probe keeps the
first depth at 0 — the claim's "if it is not fully solid it skips the
empty leading slice" is false on the code. -/
theorem c7_counterexample :
    sliceFullySolid envOneBlock "minecraft:stone" Axis.x ⟨0, 0, 0⟩ = false
    ∧ probeSliceStart envOneBlock "minecraft:stone" Axis.x ⟨0, 0, 0⟩ = 0 := by
  decide

/-- **C7 (amended).** Before the depth loop, `largeTunnel` probes the
leading cross-section slice and skips it (first depth 1 instead of 0)
exactly when the slice contains no eligible block; a single eligible
cell — even with the other eight empty — keeps the first depth at 0. -/
theorem c7_probe_skips_iff_empty (env : Env) (perm : String) (axis : Axis)
    (origin : Pos) :
    (probeSliceStart env perm axis origin = 1
      ↔ ∀ dq ∈ spiralOffsets true,
          tunnelGetBlock env perm (sliceCell axis origin dq.1 dq.2) = none)
    ∧ (probeSliceStart env perm axis origin = 0
      ↔ ∃ dq ∈ spiralOffsets true,
          (tunnelGetBlock env perm (sliceCell axis origin dq.1 dq.2)).isSome = true) := by
  cases hs : ((spiralOffsets true).any (fun dq =>
      (tunnelGetBlock env perm (sliceCell axis origin dq.1 dq.2)).isSome)) with
  | true =>
    have hp : probeSliceStart env perm axis origin = 0 := by
      unfold probeSliceStart
      rw [hs]
      rfl
    rw [hp]
    refine ⟨⟨fun hq => absurd hq (by norm_num), fun hall => ?_⟩,
      ⟨fun _ => List.any_eq_true.mp hs, fun _ => rfl⟩⟩
    exfalso
    obtain ⟨dq, hmem, hps⟩ := List.any_eq_true.mp hs
    rw [hall dq hmem] at hps
    exact absurd hps (by simp)
  | false =>
    have hp : probeSliceStart env perm axis origin = 1 := by
      unfold probeSliceStart
      rw [hs]
      rfl
    rw [hp]
    refine ⟨⟨fun _ dq hmem => ?_, fun _ => rfl⟩,
      ⟨fun hq => absurd hq (by norm_num), fun hex => ?_⟩⟩
    · cases hv : tunnelGetBlock env perm (sliceCell axis origin dq.1 dq.2) with
      | none => rfl
      | some b =>
        have hc : ((spiralOffsets true).any (fun dq =>
            (tunnelGetBlock env perm (sliceCell axis origin dq.1 dq.2)).isSome)) = true :=
          List.any_eq_true.mpr ⟨dq, hmem, by simp [hv]⟩
        rw [hs] at hc
        exact absurd hc (by simp)
    · have hc : ((spiralOffsets true).any (fun dq =>
          (tunnelGetBlock env perm (sliceCell axis origin dq.1 dq.2)).isSome)) = true :=
        List.any_eq_true.mpr hex
      rw [hs] at hc
      exact absurd hc (by simp)

/-- Witness for C7 (amended): at `envOneBlock` the leading slice has an
eligible cell, so the first depth is 0. -/
theorem c7_probe_skips_iff_empty_witness :
    probeSliceStart envOneBlock "minecraft:stone" Axis.x ⟨0, 0, 0⟩ = 0 :=
  (c7_probe_skips_iff_empty envOneBlock "minecraft:stone" Axis.x ⟨0, 0, 0⟩).2.mpr
    ⟨(0, 0), by decide, by decide⟩

/- ───────────────────────────────────────────── -/
/- C3: BROKEN-BLOCK BUDGET BOUNDS                -/
/- ───────────────────────────────────────────── -/

theorem applyToolWear_countBrk (env : Env) (item : Option Item) (s : RunState) :
    (applyToolWear env item s).trace.countP isBrk = s.trace.countP isBrk := by
  unfold applyToolWear
  cases item with
  | none => rfl
  | some it =>
    dsimp only
    by_cases hs : (env.gameMode == "survival" && it.hasDurability) = true
    · rw [if_pos hs]
      by_cases hd : env.damageResult s.damages = true
      · rw [if_pos hd]
      · rw [if_neg hd]
        simp [List.countP_append, isBrk]
    · rw [if_neg hs]

theorem breakBlockCtx_countBrk (env : Env) (item : Option Item) (pos : Pos)
    (blk : BlockData) (s : RunState) :
    ((breakBlockCtx env item pos blk s).2 = true →
      (breakBlockCtx env item pos blk s).1.trace.countP isBrk = s.trace.countP isBrk)
    ∧ ((breakBlockCtx env item pos blk s).2 = false →
      (breakBlockCtx env item pos blk s).1.trace.countP isBrk
        = s.trace.countP isBrk + 1) := by
  unfold breakBlockCtx
  by_cases hf : env.breakFault s.brkCalls = true
  · rw [if_pos hf]
    exact ⟨fun _ => rfl, fun hc => absurd hc (by simp)⟩
  · rw [if_neg hf]
    cases item with
    | none =>
      dsimp only
      split
      · exact ⟨fun hc => absurd hc (by simp), fun _ => by simp [List.countP_append, isBrk]⟩
      · exact ⟨fun hc => absurd hc (by simp), fun _ => by simp [List.countP_append, isBrk]⟩
    | some it =>
      dsimp only
      split
      · exact ⟨fun hc => absurd hc (by simp), fun _ => by simp [List.countP_append, isBrk]⟩
      · exact ⟨fun hc => absurd hc (by simp), fun _ => by simp [List.countP_append, isBrk]⟩

/-- Per eligible step of a flood-fill: at most one block break, and none
at all when the step ends the run (hunger abort or fault). -/
theorem floodEligibleStep_countBrk (env : Env) (item : Option Item) (pos : Pos)
    (tb : Option BlockData) (cont : Nat) (s : RunState) :
    (match floodEligibleStep env item pos tb cont s with
     | EligOut.cont2 s' => s'.trace.countP isBrk ≤ s.trace.countP isBrk + 1
     | EligOut.nauseaStop s' => s'.trace.countP isBrk = s.trace.countP isBrk
     | EligOut.fault s' => s'.trace.countP isBrk = s.trace.countP isBrk) := by
  unfold floodEligibleStep
  dsimp only
  have hw := applyToolWear_countBrk env item s
  by_cases hc : (cont % 10 == 0 && cont != 0) = true
  · rw [if_pos hc]
    rcases hmatch : reduceHunger env
        { applyToolWear env item s with
          trace := (applyToolWear env item s).trace ++ [Ev.stamina cont] } 1 1
      with ⟨ok, s2⟩
    have hrh := reduceHunger_trace env
      { applyToolWear env item s with
        trace := (applyToolWear env item s).trace ++ [Ev.stamina cont] } 1 1
    rw [hmatch] at hrh
    simp only at hrh
    have hs2 : s2.trace.countP isBrk = s.trace.countP isBrk := by
      rw [hrh, List.countP_append, hw]
      simp [isBrk]
    cases ok with
    | false =>
      dsimp only
      rw [List.countP_append, hs2]
      simp [isBrk]
    | true =>
      cases tb with
      | none => dsimp only; omega
      | some blk =>
        have hbc := breakBlockCtx_countBrk env item pos blk s2
        rcases hbb : breakBlockCtx env item pos blk s2 with ⟨s3, fault⟩
        rw [hbb] at hbc
        simp only at hbc
        cases fault with
        | true =>
          dsimp only
          rw [hbb]
          dsimp only
          rw [hbc.1 rfl, hs2]
        | false =>
          dsimp only
          rw [hbb]
          dsimp only
          rw [yieldTick_trace, hbc.2 rfl, hs2]
  · rw [if_neg hc]
    cases tb with
    | none => dsimp only; omega
    | some blk =>
      have hbc := breakBlockCtx_countBrk env item pos blk (applyToolWear env item s)
      rcases hbb : breakBlockCtx env item pos blk (applyToolWear env item s)
        with ⟨s3, fault⟩
      rw [hbb] at hbc
      simp only at hbc
      cases fault with
      | true =>
        dsimp only
        rw [hbb]
        dsimp only
        rw [hbc.1 rfl, hw]
      | false =>
        dsimp only
        rw [hbb]
        dsimp only
        rw [yieldTick_trace, hbc.2 rfl, hw]

/-- Flood-fill loop invariant: the final step counter never exceeds the
budget, and block breaks never outpace the step counter. -/
theorem floodLoop_bound (env : Env) (pred : String → Bool) (item : Option Item)
    (maxVein : Nat) :
    ∀ (fuel : Nat) (visited toCheck : List Pos) (cont : Nat) (s : RunState),
      cont ≤ maxVein →
      (floodLoop env pred item maxVein fuel visited toCheck cont s).2.1 ≤ maxVein
      ∧ (floodLoop env pred item maxVein fuel visited toCheck cont s).1.trace.countP isBrk
          + cont
        ≤ s.trace.countP isBrk
          + (floodLoop env pred item maxVein fuel visited toCheck cont s).2.1 := by
  intro fuel
  induction fuel with
  | zero =>
    intro visited toCheck cont s hc
    simp only [floodLoop]
    exact ⟨hc, by first | omega | (dsimp only; omega)⟩
  | succ n ih =>
    intro visited toCheck cont s hc
    match toCheck with
    | [] =>
      simp only [floodLoop]
      exact ⟨hc, by first | omega | (dsimp only; omega)⟩
    | pos :: rest =>
      simp only [floodLoop]
      by_cases hlt : cont < maxVein
      · rw [if_pos hlt]
        by_cases htool : toolCheckFails item s = true
        · rw [if_pos htool]
          refine ⟨hc, ?_⟩
          simp [List.countP_append, isBrk]
        · rw [if_neg htool]
          by_cases hvis : visited.contains pos = true
          · rw [if_pos hvis]
            exact ih visited rest cont s hc
          · rw [if_neg hvis]
            by_cases helig : ((pos :: visited).length == 1 ||
                (match (match env.getBlock pos with
                        | Except.error _ => none
                        | Except.ok b => b : Option BlockData) with
                 | some b => pred b.typeId
                 | none => false)) = true
            · rw [if_pos helig]
              have hstep := floodEligibleStep_countBrk env item pos
                (match env.getBlock pos with
                 | Except.error _ => none
                 | Except.ok b => b) cont s
              rcases hs : floodEligibleStep env item pos
                  (match env.getBlock pos with
                   | Except.error _ => none
                   | Except.ok b => b) cont s with s' | s' | s'
              · rw [hs] at hstep
                simp only at hstep
                have hrec := ih (pos :: visited)
                  (rest ++ dirs.map (fun d => ⟨pos.x + d.x, pos.y + d.y, pos.z + d.z⟩))
                  (cont + 1) s' (by omega)
                dsimp only
                omega
              · rw [hs] at hstep
                simp only at hstep
                dsimp only
                omega
              · rw [hs] at hstep
                simp only at hstep
                dsimp only
                omega
            · rw [if_neg helig]
              exact ih (pos :: visited) rest cont s hc
      · rw [if_neg hlt]
        exact ⟨hc, by first | omega | (dsimp only; omega)⟩

/-- `largeTunnel`'s inner slice loop: the recorded `brk` events track the
`broken` counter exactly, and `broken` stays below the cap. -/
theorem largeInner_bound (env : Env) (item : Option Item) (perm : String)
    (maxBlocks : Nat) (axis : Axis) (center : Pos) :
    ∀ (offs : List (Int × Int)) (s : RunState) (cont broken : Nat) (found : Bool),
      broken + 2 ≤ maxBlocks →
      (match largeInner env item perm maxBlocks axis center offs s cont broken found with
       | LTInner.done s' _ broken' _ =>
           broken' + 2 ≤ maxBlocks
           ∧ s'.trace.countP isBrk + broken = s.trace.countP isBrk + broken'
       | LTInner.ret s' _ broken' =>
           broken' + 1 ≤ maxBlocks
           ∧ s'.trace.countP isBrk + broken = s.trace.countP isBrk + broken') := by
  intro offs
  induction offs with
  | nil =>
    intro s cont broken found hcap
    simp only [largeInner]
    exact ⟨hcap, trivial⟩
  | cons dq rest ih =>
    intro s cont broken found hcap
    simp only [largeInner]
    by_cases htool : toolCheckFails item s = true
    · rw [if_pos htool]
      dsimp only
      constructor
      · exact hcap
      · simp [List.countP_append, isBrk]
    · rw [if_neg htool]
      rcases hgb : tunnelGetBlock env perm (sliceCell axis center dq.1 dq.2) with _ | blk
      · exact ih s cont broken found hcap
      · dsimp only
        have hw := applyToolWear_countBrk env item s
        by_cases hc : (cont % 10 == 0 && cont != 0) = true
        · rw [if_pos hc]
          rcases hmatch : reduceHunger env
              { applyToolWear env item s with
                trace := (applyToolWear env item s).trace ++ [Ev.stamina cont] } 1 1
            with ⟨ok, s2⟩
          have hrh := reduceHunger_trace env
            { applyToolWear env item s with
              trace := (applyToolWear env item s).trace ++ [Ev.stamina cont] } 1 1
          rw [hmatch] at hrh
          simp only at hrh
          have hs2 : s2.trace.countP isBrk = s.trace.countP isBrk := by
            rw [hrh, List.countP_append, hw]
            simp [isBrk]
          cases ok with
          | false =>
            dsimp only
            constructor
            · exact hcap
            · rw [List.countP_append, hs2]
              simp [isBrk]
          | true =>
            have hbc := breakBlockCtx_countBrk env item (sliceCell axis center dq.1 dq.2)
              blk s2
            rcases hbb : breakBlockCtx env item (sliceCell axis center dq.1 dq.2) blk s2
              with ⟨s3, fault⟩
            rw [hbb] at hbc
            simp only at hbc
            cases fault with
            | true =>
              dsimp only
              rw [hbb]
              dsimp only
              constructor
              · omega
              · rw [hbc.1 rfl, hs2]
            | false =>
              dsimp only
              rw [hbb]
              dsimp only
              have h3 : s3.trace.countP isBrk = s.trace.countP isBrk + 1 := by
                rw [hbc.2 rfl, hs2]
              by_cases hmax : broken + 1 + 1 ≥ maxBlocks
              · rw [if_pos hmax]
                dsimp only
                constructor
                · omega
                · omega
              · rw [if_neg hmax]
                have hrec := ih (yieldTick env s3) (cont + 1) (broken + 1) true (by omega)
                have hyt : (yieldTick env s3).trace.countP isBrk
                    = s.trace.countP isBrk + 1 := by
                  rw [yieldTick_trace, h3]
                rcases hin : largeInner env item perm maxBlocks axis center rest
                    (yieldTick env s3) (cont + 1) (broken + 1) true
                  with ⟨s4, cont4, broken4, found4⟩ | ⟨s4, cont4, broken4⟩
                · rw [hin] at hrec
                  simp only at hrec
                  exact ⟨hrec.1, by omega⟩
                · rw [hin] at hrec
                  simp only at hrec
                  exact ⟨hrec.1, by omega⟩
        · rw [if_neg hc]
          have hbc := breakBlockCtx_countBrk env item (sliceCell axis center dq.1 dq.2)
            blk (applyToolWear env item s)
          rcases hbb : breakBlockCtx env item (sliceCell axis center dq.1 dq.2) blk
              (applyToolWear env item s) with ⟨s3, fault⟩
          rw [hbb] at hbc
          simp only at hbc
          cases fault with
          | true =>
            dsimp only
            rw [hbb]
            dsimp only
            constructor
            · omega
            · rw [hbc.1 rfl, hw]
          | false =>
            dsimp only
            rw [hbb]
            dsimp only
            have h3 : s3.trace.countP isBrk = s.trace.countP isBrk + 1 := by
              rw [hbc.2 rfl, hw]
            by_cases hmax : broken + 1 + 1 ≥ maxBlocks
            · rw [if_pos hmax]
              dsimp only
              constructor
              · omega
              · omega
            · rw [if_neg hmax]
              have hrec := ih (yieldTick env s3) (cont + 1) (broken + 1) true (by omega)
              have hyt : (yieldTick env s3).trace.countP isBrk
                  = s.trace.countP isBrk + 1 := by
                rw [yieldTick_trace, h3]
              rcases hin : largeInner env item perm maxBlocks axis center rest
                  (yieldTick env s3) (cont + 1) (broken + 1) true
                with ⟨s4, cont4, broken4, found4⟩ | ⟨s4, cont4, broken4⟩
              · rw [hin] at hrec
                simp only at hrec
                exact ⟨hrec.1, by omega⟩
              · rw [hin] at hrec
                simp only at hrec
                exact ⟨hrec.1, by omega⟩

/-- `largeTunnel`'s depth loop: `broken` never reaches the cap, and the
trace's `brk` events equal the final `broken` counter. -/
theorem largeOuter_bound (env : Env) (item : Option Item) (perm : String)
    (maxBlocks : Nat) (axis : Axis) (stepSign : Int) (origin : Pos) :
    ∀ (depths : List Nat) (outward : Bool) (s : RunState) (cont broken : Nat),
      broken + 2 ≤ maxBlocks →
      (largeOuter env item perm maxBlocks axis stepSign origin depths outward
          s cont broken).2.2 + 1 ≤ maxBlocks
      ∧ (largeOuter env item perm maxBlocks axis stepSign origin depths outward
          s cont broken).1.trace.countP isBrk + broken
        = s.trace.countP isBrk
          + (largeOuter env item perm maxBlocks axis stepSign origin depths outward
              s cont broken).2.2 := by
  intro depths
  induction depths with
  | nil =>
    intro outward s cont broken hcap
    simp only [largeOuter]
    constructor
    · omega
    · first | trivial | rfl | (dsimp only; omega) | omega
  | cons d ds ih =>
    intro outward s cont broken hcap
    simp only [largeOuter]
    have hin := largeInner_bound env item perm maxBlocks axis
      (sliceCenter axis origin (Int.ofNat d) stepSign) (spiralOffsets outward)
      s cont broken false hcap
    rcases hinner : largeInner env item perm maxBlocks axis
        (sliceCenter axis origin (Int.ofNat d) stepSign) (spiralOffsets outward)
        s cont broken false with ⟨s', cont', broken', found⟩ | ⟨s', cont', broken'⟩
    · rw [hinner] at hin
      simp only at hin
      cases found with
      | true =>
        dsimp only
        rw [if_pos rfl]
        have hrec := ih (!outward) s' cont' broken' hin.1
        omega
      | false =>
        dsimp only
        rw [if_neg (by simp)]
        dsimp only
        exact ⟨by omega, hin.2⟩
    · rw [hinner] at hin
      simp only at hin
      exact hin

/-- Per `smallTunnel` cell: at most one break when the run continues,
none when it stops. -/
theorem smallCell_countBrk (env : Env) (item : Option Item) (perm : String)
    (cell : Pos) (s : RunState) (cont : Nat) :
    (match smallCell env item perm cell s cont with
     | STStep.next s' _ => s'.trace.countP isBrk ≤ s.trace.countP isBrk + 1
     | STStep.stop s' _ => s'.trace.countP isBrk = s.trace.countP isBrk) := by
  unfold smallCell
  by_cases htool : toolCheckFails item s = true
  · rw [if_pos htool]
    dsimp only
    simp [List.countP_append, isBrk]
  · rw [if_neg htool]
    rcases hgb : tunnelGetBlock env perm cell with _ | blk
    · dsimp only; omega
    · dsimp only
      have hw := applyToolWear_countBrk env item s
      by_cases hc : (cont % 10 == 0 && cont != 0) = true
      · rw [if_pos hc]
        rcases hmatch : reduceHunger env
            { applyToolWear env item s with
              trace := (applyToolWear env item s).trace ++ [Ev.stamina cont] } 1 1
          with ⟨ok, s2⟩
        have hrh := reduceHunger_trace env
          { applyToolWear env item s with
            trace := (applyToolWear env item s).trace ++ [Ev.stamina cont] } 1 1
        rw [hmatch] at hrh
        simp only at hrh
        have hs2 : s2.trace.countP isBrk = s.trace.countP isBrk := by
          rw [hrh, List.countP_append, hw]
          simp [isBrk]
        cases ok with
        | false =>
          dsimp only
          rw [List.countP_append, hs2]
          simp [isBrk]
        | true =>
          have hbc := breakBlockCtx_countBrk env item cell blk s2
          rcases hbb : breakBlockCtx env item cell blk s2 with ⟨s3, fault⟩
          rw [hbb] at hbc
          simp only at hbc
          cases fault with
          | true =>
            dsimp only
            rw [hbb]
            dsimp only
            rw [hbc.1 rfl, hs2]
          | false =>
            dsimp only
            rw [hbb]
            dsimp only
            rw [yieldTick_trace, hbc.2 rfl, hs2]
      · rw [if_neg hc]
        have hbc := breakBlockCtx_countBrk env item cell blk (applyToolWear env item s)
        rcases hbb : breakBlockCtx env item cell blk (applyToolWear env item s)
          with ⟨s3, fault⟩
        rw [hbb] at hbc
        simp only at hbc
        cases fault with
        | true =>
          dsimp only
          rw [hbb]
          dsimp only
          rw [hbc.1 rfl, hw]
        | false =>
          dsimp only
          rw [hbb]
          dsimp only
          rw [yieldTick_trace, hbc.2 rfl, hw]

theorem smallColumn_countBrk (env : Env) (item : Option Item) (perm : String)
    (base : Pos) (s : RunState) (cont : Nat) :
    (match smallColumn env item perm base s cont with
     | STStep.next s' _ => s'.trace.countP isBrk ≤ s.trace.countP isBrk + 2
     | STStep.stop s' _ => s'.trace.countP isBrk ≤ s.trace.countP isBrk + 1) := by
  unfold smallColumn
  have h1 := smallCell_countBrk env item perm base s cont
  rcases hc1 : smallCell env item perm base s cont with ⟨s', cont'⟩ | ⟨s', cont'⟩
  · rw [hc1] at h1
    simp only at h1
    have h2 := smallCell_countBrk env item perm ⟨base.x, base.y + 1, base.z⟩ s' cont'
    rcases hc2 : smallCell env item perm ⟨base.x, base.y + 1, base.z⟩ s' cont'
      with ⟨s'', cont''⟩ | ⟨s'', cont''⟩
    · rw [hc2] at h2
      simp only at h2
      dsimp only
      rw [hc2]
      dsimp only
      omega
    · rw [hc2] at h2
      simp only at h2
      dsimp only
      rw [hc2]
      dsimp only
      omega
  · rw [hc1] at h1
    simp only at h1
    dsimp only
    omega

theorem smallLoop_countBrk (env : Env) (item : Option Item) (perm : String)
    (axis : Axis) (stepSign : Int) (origin : Pos) :
    ∀ (depths : List Nat) (s : RunState) (cont : Nat),
      (smallLoop env item perm axis stepSign origin depths s cont).1.trace.countP isBrk
        ≤ s.trace.countP isBrk + 2 * depths.length := by
  intro depths
  induction depths with
  | nil =>
    intro s cont
    simp [smallLoop]
  | cons d ds ih =>
    intro s cont
    simp only [smallLoop]
    have h1 := smallColumn_countBrk env item perm
      (sliceCenter axis origin (Int.ofNat d) stepSign) s cont
    rcases hcol : smallColumn env item perm (sliceCenter axis origin (Int.ofNat d) stepSign)
        s cont with ⟨s', cont'⟩ | ⟨s', cont'⟩
    · rw [hcol] at h1
      simp only at h1
      have hrec := ih s' cont'
      simp only [List.length_cons]
      omega
    · rw [hcol] at h1
      simp only at h1
      simp only [List.length_cons]
      omega

theorem lineLoop_countBrk (env : Env) (item : Option Item) (perm : String)
    (axis : Axis) (stepSign : Int) (origin : Pos) :
    ∀ (depths : List Nat) (s : RunState) (cont : Nat),
      (lineLoop env item perm axis stepSign origin depths s cont).1.trace.countP isBrk
        ≤ s.trace.countP isBrk + depths.length := by
  intro depths
  induction depths with
  | nil =>
    intro s cont
    simp [lineLoop]
  | cons d ds ih =>
    intro s cont
    simp only [lineLoop]
    by_cases htool : toolCheckFails item s = true
    · rw [if_pos htool]
      dsimp only
      simp [List.countP_append, isBrk]
    · rw [if_neg htool]
      rcases hgb : tunnelGetBlock env perm
          (sliceCenter axis origin (Int.ofNat d) stepSign) with _ | blk
      · have hrec := ih s cont
        simp only [List.length_cons]
        omega
      · dsimp only
        have hw := applyToolWear_countBrk env item s
        by_cases hc : (cont % 10 == 0 && cont != 0) = true
        · rw [if_pos hc]
          rcases hmatch : reduceHunger env
              { applyToolWear env item s with
                trace := (applyToolWear env item s).trace ++ [Ev.stamina cont] } 1 1
            with ⟨ok, s2⟩
          have hrh := reduceHunger_trace env
            { applyToolWear env item s with
              trace := (applyToolWear env item s).trace ++ [Ev.stamina cont] } 1 1
          rw [hmatch] at hrh
          simp only at hrh
          have hs2 : s2.trace.countP isBrk = s.trace.countP isBrk := by
            rw [hrh, List.countP_append, hw]
            simp [isBrk]
          cases ok with
          | false =>
            dsimp only
            rw [List.countP_append, hs2]
            simp [isBrk]
          | true =>
            have hbc := breakBlockCtx_countBrk env item
              (sliceCenter axis origin (Int.ofNat d) stepSign) blk s2
            rcases hbb : breakBlockCtx env item
                (sliceCenter axis origin (Int.ofNat d) stepSign) blk s2 with ⟨s3, fault⟩
            rw [hbb] at hbc
            simp only at hbc
            cases fault with
            | true =>
              dsimp only
              rw [hbb]
              dsimp only
              rw [hbc.1 rfl, hs2]
              simp
            | false =>
              dsimp only
              rw [hbb]
              dsimp only
              have h3 : s3.trace.countP isBrk = s.trace.countP isBrk + 1 := by
                rw [hbc.2 rfl, hs2]
              have hrec := ih (yieldTick env s3) (cont + 1)
              rw [yieldTick_trace, h3] at hrec
              simp only [List.length_cons]
              omega
        · rw [if_neg hc]
          have hbc := breakBlockCtx_countBrk env item
            (sliceCenter axis origin (Int.ofNat d) stepSign) blk (applyToolWear env item s)
          rcases hbb : breakBlockCtx env item
              (sliceCenter axis origin (Int.ofNat d) stepSign) blk
              (applyToolWear env item s) with ⟨s3, fault⟩
          rw [hbb] at hbc
          simp only at hbc
          cases fault with
          | true =>
            dsimp only
            rw [hbb]
            dsimp only
            rw [hbc.1 rfl, hw]
            simp
          | false =>
            dsimp only
            rw [hbb]
            dsimp only
            have h3 : s3.trace.countP isBrk = s.trace.countP isBrk + 1 := by
              rw [hbc.2 rfl, hw]
            have hrec := ih (yieldTick env s3) (cont + 1)
            rw [yieldTick_trace, h3] at hrec
            simp only [List.length_cons]
            omega

/-- A world made entirely of stone (every position resolves to the same
eligible block), with the hunger model bypassed and no tool supplied:
nothing limits a run but its own budget logic. -/
def envAllStone : Env :=
  { getBlock := fun _ =>
      Except.ok (some ⟨"minecraft:stone", [], [("minecraft:cobblestone", 1)]⟩)
    mainhand0 := none
    mainhandAfter := fun _ => none
    damageResult := fun _ => true
    breakFault := fun _ => false
    gameMode := "survival"
    noConsumeSaturation := true
    hunger0 := some 20
    saturation0 := some 5
    blacklist := []
    viewDir := ⟨1, 0, 0⟩ }

/-- C3 counterexample: `largeTunnel` invoked with budget `maxVein = 4` on
a solid stone world breaks 7 blocks — its cap is `maxVein * 2` blocks
(minus one), not `maxVein`, so the claim "the number of blocks broken
never exceeds maxVein" is false for `largeTunnel`. -/
theorem c3_counterexample :
    ((runShape Shape.largeTunnel envAllStone ⟨0, 0, 0⟩ "minecraft:stone" 4
        none).1.trace.countP isBrk) = 7
    ∧ 4 < 7 := by
  exact ⟨by decide, by decide⟩

/-- **C3 (amended).** The flood-fill handlers and the small and line
tunnels never break more than `maxVein` blocks; `largeTunnel` instead
enforces the cap `maxBlocks = maxVein * 2`, so (for a positive budget)
it breaks at most `2 * maxVein - 1` blocks. -/
theorem c3_budget_bounds (sh : Shape) (env : Env) (origin : Pos)
    (brokenBlock : String) (maxVein : Nat) (item : Option Item) :
    (sh ≠ Shape.largeTunnel →
      ((runShape sh env origin brokenBlock maxVein item).1.trace.countP isBrk)
        ≤ maxVein)
    ∧ (sh = Shape.largeTunnel → 1 ≤ maxVein →
      ((runShape sh env origin brokenBlock maxVein item).1.trace.countP isBrk)
        ≤ 2 * maxVein - 1) := by
  constructor
  · intro hne
    cases sh with
    | shapelessVein =>
      have h := floodLoop_bound env (fun t => t == brokenBlock) item maxVein
        (27 * maxVein + 2) [] [origin] 0 (initState env) (by omega)
      simp only [runShape, shapelessVein, floodVein]
      rw [List.countP_append]
      have hemit : ([Ev.emit].countP isBrk) = 0 := by decide
      rw [hemit]
      have hz : (initState env).trace.countP isBrk = 0 := by rfl
      omega
    | treeCapitator =>
      have h := floodLoop_bound env isTreeBlock item maxVein
        (27 * maxVein + 2) [] [origin] 0 (initState env) (by omega)
      simp only [runShape, treeCapitator, floodVein]
      rw [List.countP_append]
      have hemit : ([Ev.emit].countP isBrk) = 0 := by decide
      rw [hemit]
      have hz : (initState env).trace.countP isBrk = 0 := by rfl
      omega
    | veinMiner =>
      have h := floodLoop_bound env isOreBlock item maxVein
        (27 * maxVein + 2) [] [origin] 0 (initState env) (by omega)
      simp only [runShape, veinMiner, floodVein]
      rw [List.countP_append]
      have hemit : ([Ev.emit].countP isBrk) = 0 := by decide
      rw [hemit]
      have hz : (initState env).trace.countP isBrk = 0 := by rfl
      omega
    | largeTunnel => exact absurd rfl hne
    | smallTunnel =>
      have h := smallLoop_countBrk env item brokenBlock
        (pickAxisDir env.viewDir).1 (pickAxisDir env.viewDir).2 origin
        (List.range (maxVein / 2)) (initState env) 0
      simp only [runShape, smallTunnel]
      rw [List.countP_append]
      have hemit : ([Ev.emit].countP isBrk) = 0 := by decide
      rw [hemit]
      have hz : (initState env).trace.countP isBrk = 0 := by rfl
      rw [List.length_range] at h
      omega
    | lineTunnel =>
      have h := lineLoop_countBrk env item brokenBlock
        (pickAxisDir env.viewDir).1 (pickAxisDir env.viewDir).2 origin
        (List.range maxVein) (initState env) 0
      simp only [runShape, lineTunnel]
      rw [List.countP_append]
      have hemit : ([Ev.emit].countP isBrk) = 0 := by decide
      rw [hemit]
      have hz : (initState env).trace.countP isBrk = 0 := by rfl
      rw [List.length_range] at h
      omega
  · intro heq hpos
    subst heq
    have h := largeOuter_bound env item brokenBlock (maxVein * 2)
      (pickAxisDir env.viewDir).1 (pickAxisDir env.viewDir).2 origin
      ((List.range (maxVein / 4 + 1 -
        probeSliceStart env brokenBlock (pickAxisDir env.viewDir).1 origin)).map
        (fun i => i + probeSliceStart env brokenBlock (pickAxisDir env.viewDir).1 origin))
      true (initState env) 0 0 (by omega)
    simp only [runShape, largeTunnel]
    rw [List.countP_append]
    have hemit : ([Ev.emit].countP isBrk) = 0 := by decide
    rw [hemit]
    have hz : (initState env).trace.countP isBrk = 0 := by rfl
    omega

/-- Witness for C3 (amended): a `lineTunnel` run with budget 3 breaks at
most 3 blocks, and a `largeTunnel` run with budget 4 at most 7. -/
theorem c3_budget_bounds_witness :
    ((runShape Shape.lineTunnel envAllStone ⟨0, 0, 0⟩ "minecraft:stone" 3
        none).1.trace.countP isBrk) ≤ 3
    ∧ ((runShape Shape.largeTunnel envAllStone ⟨0, 0, 0⟩ "minecraft:stone" 4
        none).1.trace.countP isBrk) ≤ 2 * 4 - 1 :=
  ⟨(c3_budget_bounds Shape.lineTunnel envAllStone ⟨0, 0, 0⟩ "minecraft:stone" 3
      none).1 (by decide),
   (c3_budget_bounds Shape.largeTunnel envAllStone ⟨0, 0, 0⟩ "minecraft:stone" 4
      none).2 rfl (by decide)⟩

/- ───────────────────────────────────────────── -/
/- C9: UNRESOLVABLE POSITIONS ARE SKIPPED        -/
/- ───────────────────────────────────────────── -/

/-- A durable diamond pickaxe (no special components). -/
def pickItem : Item :=
  ⟨"minecraft:diamond_pickaxe", false, false, true⟩

/-- A world where resolving the origin block throws (unloaded chunk) and
every other position is empty; the breaking player is in survival with
the pickaxe equipped. -/
def envOriginFault : Env :=
  { getBlock := fun p =>
      if p = ⟨0, 0, 0⟩ then Except.error () else Except.ok none
    mainhand0 := some "minecraft:diamond_pickaxe"
    mainhandAfter := fun _ => some "minecraft:diamond_pickaxe"
    damageResult := fun _ => true
    breakFault := fun _ => false
    gameMode := "survival"
    noConsumeSaturation := true
    hunger0 := some 20
    saturation0 := some 5
    blacklist := []
    viewDir := ⟨1, 0, 0⟩ }

/-- C9 counterexample: in a `shapelessVein` run whose ORIGIN position
fails to resolve (the `dim.getBlock` call throws), the run does not
fault — but the origin is still treated as eligible
(`visited.size === 1`), so the step counter is incremented (`cont = 1`)
and tool wear is applied (`damage()` called once), contradicting the
claim that a failing position is "skipped without being counted as a
step (no step counter increment, no tool wear)". -/
theorem c9_counterexample :
    envOriginFault.getBlock ⟨0, 0, 0⟩ = Except.error ()
    ∧ (runShape Shape.shapelessVein envOriginFault ⟨0, 0, 0⟩ "minecraft:stone" 5
        (some pickItem)).2 = 1
    ∧ (runShape Shape.shapelessVein envOriginFault ⟨0, 0, 0⟩ "minecraft:stone" 5
        (some pickItem)).1.damages = 1 := by
  refine ⟨rfl, by decide, by decide⟩

/-- **C9 (amended).** Every candidate position whose block resolution
throws is treated as absent and skipped — no fault, no step-counter
increment, no tool wear, no hunger deduction, no trace event — EXCEPT
the very first position a flood-fill run processes (its origin), which
is unconditionally eligible and therefore still wears the tool and
counts as a step. Stated per candidate: a failing candidate makes the
flood-fill loop (when some position was already processed), the
`largeTunnel` slice loop, the `smallTunnel` cell and the `lineTunnel`
depth loop continue exactly as if the candidate were not there. -/
theorem c9_unresolvable_skipped :
    (∀ (env : Env) (pred : String → Bool) (item : Option Item) (maxVein fuel : Nat)
        (visited : List Pos) (pos : Pos) (rest : List Pos) (cont : Nat) (s : RunState),
      visited ≠ [] →
      visited.contains pos = false →
      env.getBlock pos = Except.error () →
      cont < maxVein →
      toolCheckFails item s = false →
      floodLoop env pred item maxVein (fuel + 1) visited (pos :: rest) cont s
        = floodLoop env pred item maxVein fuel (pos :: visited) rest cont s)
    ∧ (∀ (env : Env) (item : Option Item) (perm : String) (maxBlocks : Nat)
        (axis : Axis) (center : Pos) (dq : Int × Int) (rest : List (Int × Int))
        (s : RunState) (cont broken : Nat) (found : Bool),
      toolCheckFails item s = false →
      env.getBlock (sliceCell axis center dq.1 dq.2) = Except.error () →
      largeInner env item perm maxBlocks axis center (dq :: rest) s cont broken found
        = largeInner env item perm maxBlocks axis center rest s cont broken found)
    ∧ (∀ (env : Env) (item : Option Item) (perm : String) (cell : Pos)
        (s : RunState) (cont : Nat),
      toolCheckFails item s = false →
      env.getBlock cell = Except.error () →
      smallCell env item perm cell s cont = STStep.next s cont)
    ∧ (∀ (env : Env) (item : Option Item) (perm : String) (axis : Axis)
        (stepSign : Int) (origin : Pos) (d : Nat) (ds : List Nat)
        (s : RunState) (cont : Nat),
      toolCheckFails item s = false →
      env.getBlock (sliceCenter axis origin (Int.ofNat d) stepSign) = Except.error () →
      lineLoop env item perm axis stepSign origin (d :: ds) s cont
        = lineLoop env item perm axis stepSign origin ds s cont) := by
  refine ⟨?_, ?_, ?_, ?_⟩
  · intro env pred item maxVein fuel visited pos rest cont s hvis hcontains hgb hlt htool
    simp only [floodLoop]
    rw [if_pos hlt, if_neg (by rw [htool]; simp), if_neg (by rw [hcontains]; simp)]
    have hlen : ((pos :: visited).length == 1) = false := by
      cases visited with
      | nil => exact absurd rfl hvis
      | cons v vs => simp
    rw [if_neg (by rw [hgb]; dsimp only; rw [hlen]; simp)]
  · intro env item perm maxBlocks axis center dq rest s cont broken found htool hgb
    simp only [largeInner]
    rw [if_neg (by rw [htool]; simp)]
    have hcell : tunnelGetBlock env perm (sliceCell axis center dq.1 dq.2) = none := by
      unfold tunnelGetBlock
      rw [hgb]
    rw [hcell]
  · intro env item perm cell s cont htool hgb
    unfold smallCell
    rw [if_neg (by rw [htool]; simp)]
    have hcell : tunnelGetBlock env perm cell = none := by
      unfold tunnelGetBlock
      rw [hgb]
    rw [hcell]
  · intro env item perm axis stepSign origin d ds s cont htool hgb
    simp only [lineLoop]
    rw [if_neg (by rw [htool]; simp)]
    have hcell : tunnelGetBlock env perm (sliceCenter axis origin (Int.ofNat d) stepSign)
        = none := by
      unfold tunnelGetBlock
      rw [hgb]
    rw [hcell]

/-- Witness for C9 (amended): a non-origin candidate at an unresolvable
position is skipped by the flood-fill loop. -/
theorem c9_unresolvable_skipped_witness :
    floodLoop envOriginFault (fun t => t == "minecraft:stone") none 5 3
        [⟨1, 1, 1⟩] [⟨0, 0, 0⟩] 1 (initState envOriginFault)
      = floodLoop envOriginFault (fun t => t == "minecraft:stone") none 5 2
        [⟨0, 0, 0⟩, ⟨1, 1, 1⟩] [] 1 (initState envOriginFault) :=
  c9_unresolvable_skipped.1 envOriginFault (fun t => t == "minecraft:stone") none 5 2
    [⟨1, 1, 1⟩] ⟨0, 0, 0⟩ [] 1 (initState envOriginFault)
    (by decide) (by decide) rfl (by decide) (by decide)

/- ───────────────────────────────────────────── -/
/- C4: NO BREAKS AFTER A FAILED TOOL CHECK       -/
/- ───────────────────────────────────────────── -/

/-- No `brk` event occurs anywhere after an occurrence of `mark`. -/
def noBrkAfter (mark : Ev) : List Ev → Bool
  | [] => true
  | e :: rest =>
    (if e = mark then rest.all (fun x => !isBrk x) else true) && noBrkAfter mark rest

theorem noBrkAfter_of_not_mem (mark : Ev) (l : List Ev) (h : mark ∉ l) :
    noBrkAfter mark l = true := by
  induction l with
  | nil => rfl
  | cons e rest ih =>
    simp only [List.mem_cons, not_or] at h
    simp only [noBrkAfter, Bool.and_eq_true]
    refine ⟨?_, ih h.2⟩
    rw [if_neg (fun hh => h.1 hh.symm)]

theorem noBrkAfter_append_nonbrk (mark : Ev) (l : List Ev) (e : Ev)
    (hp : noBrkAfter mark l = true) (he : isBrk e = false) :
    noBrkAfter mark (l ++ [e]) = true := by
  induction l with
  | nil =>
    simp only [List.nil_append, noBrkAfter, Bool.and_eq_true]
    refine ⟨?_, by first | rfl | trivial⟩
    by_cases hx : e = mark
    · rw [if_pos hx]; rfl
    · rw [if_neg hx]
  | cons x rest ih =>
    simp only [noBrkAfter, Bool.and_eq_true] at hp
    simp only [List.cons_append, noBrkAfter, Bool.and_eq_true]
    refine ⟨?_, ih hp.2⟩
    by_cases hx : x = mark
    · rw [if_pos hx]
      rw [if_pos hx] at hp
      simp [List.append_eq, List.all_append, hp.1, he]
    · rw [if_neg hx]

theorem toolCheckFails_trace (item : Option Item) (s : RunState) (t : List Ev) :
    toolCheckFails item { s with trace := t } = toolCheckFails item s := rfl

/-- `applyToolWear` appends at most one `unequip` event and touches
neither hunger reserve. -/
theorem applyToolWear_spec (env : Env) (item : Option Item) (s : RunState) :
    ∃ ext, (applyToolWear env item s).trace = s.trace ++ ext
      ∧ (∀ e ∈ ext, e = Ev.unequip)
      ∧ (applyToolWear env item s).hunger = s.hunger
      ∧ (applyToolWear env item s).saturation = s.saturation := by
  unfold applyToolWear
  cases item with
  | none => exact ⟨[], by simp⟩
  | some it =>
    dsimp only
    by_cases hs : (env.gameMode == "survival" && it.hasDurability) = true
    · rw [if_pos hs]
      by_cases hd : env.damageResult s.damages = true
      · rw [if_pos hd]; exact ⟨[], by simp⟩
      · rw [if_neg hd]
        exact ⟨[Ev.unequip], by simp⟩
    · rw [if_neg hs]; exact ⟨[], by simp⟩

/-- `breakBlockCtx` appends at most one `brk` event and touches neither
hunger reserve. -/
theorem breakBlockCtx_spec (env : Env) (item : Option Item) (pos : Pos)
    (blk : BlockData) (s : RunState) :
    ∃ ext, (breakBlockCtx env item pos blk s).1.trace = s.trace ++ ext
      ∧ (∀ e ∈ ext, e = Ev.brk pos s.mainhand)
      ∧ (breakBlockCtx env item pos blk s).1.hunger = s.hunger
      ∧ (breakBlockCtx env item pos blk s).1.saturation = s.saturation
      ∧ (breakBlockCtx env item pos blk s).1.mainhand = s.mainhand := by
  unfold breakBlockCtx
  by_cases hf : env.breakFault s.brkCalls = true
  · rw [if_pos hf]; exact ⟨[], by simp⟩
  · rw [if_neg hf]
    cases item with
    | none =>
      dsimp only
      split
      · exact ⟨[Ev.brk pos s.mainhand], by simp⟩
      · exact ⟨[Ev.brk pos s.mainhand], by simp⟩
    | some it =>
      dsimp only
      split
      · exact ⟨[Ev.brk pos s.mainhand], by simp⟩
      · exact ⟨[Ev.brk pos s.mainhand], by simp⟩

/-- `reduceHunger` never touches the trace or the mainhand. -/
theorem reduceHunger_frame (env : Env) (s : RunState) (mh ms : Int) :
    (reduceHunger env s mh ms).2.trace = s.trace
    ∧ (reduceHunger env s mh ms).2.mainhand = s.mainhand := by
  unfold reduceHunger
  by_cases hb : env.noConsumeSaturation
  · simp [hb]
  · simp only [hb, Bool.false_eq_true, if_false]
    cases s.hunger with
    | none => cases s.saturation <;> exact ⟨rfl, rfl⟩
    | some h =>
      cases s.saturation with
      | none => exact ⟨rfl, rfl⟩
      | some sat =>
        dsimp only
        by_cases h1 : sat - ms ≥ 0
        · rw [if_pos h1]; exact ⟨rfl, rfl⟩
        · rw [if_neg h1]
          by_cases h2 : h - mh ≥ 0
          · rw [if_pos h2]; exact ⟨rfl, rfl⟩
          · rw [if_neg h2]; exact ⟨rfl, rfl⟩

/-- The flood-fill eligible-step body never emits a `toolFail` event. -/
theorem floodEligibleStep_noTF (env : Env) (item : Option Item) (pos : Pos)
    (tb : Option BlockData) (cont : Nat) (s : RunState) :
    ∃ ext,
      (match floodEligibleStep env item pos tb cont s with
       | EligOut.cont2 s' => s'.trace
       | EligOut.nauseaStop s' => s'.trace
       | EligOut.fault s' => s'.trace) = s.trace ++ ext ∧ Ev.toolFail ∉ ext := by
  unfold floodEligibleStep
  dsimp only
  obtain ⟨e1, he1, hu1, _, _⟩ := applyToolWear_spec env item s
  have hnt1 : Ev.toolFail ∉ e1 := fun hmem => by cases hu1 _ hmem
  by_cases hc : (cont % 10 == 0 && cont != 0) = true
  · rw [if_pos hc]
    rcases hmatch : reduceHunger env
        { applyToolWear env item s with
          trace := (applyToolWear env item s).trace ++ [Ev.stamina cont] } 1 1
      with ⟨ok, s2⟩
    have hrh := reduceHunger_trace env
      { applyToolWear env item s with
        trace := (applyToolWear env item s).trace ++ [Ev.stamina cont] } 1 1
    rw [hmatch] at hrh
    simp only at hrh
    have hs2 : s2.trace = s.trace ++ (e1 ++ [Ev.stamina cont]) := by
      rw [hrh, he1, List.append_assoc]
    cases ok with
    | false =>
      refine ⟨e1 ++ [Ev.stamina cont] ++ [Ev.nausea], ?_, ?_⟩
      · dsimp only
        rw [hs2]
        simp [List.append_assoc]
      · simp only [List.mem_append, List.mem_singleton, not_or]
        exact ⟨⟨hnt1, by simp⟩, by simp⟩
    | true =>
      cases tb with
      | none =>
        refine ⟨e1 ++ [Ev.stamina cont], ?_, ?_⟩
        · dsimp only
          rw [hs2]
        · simp only [List.mem_append, List.mem_singleton, not_or]
          exact ⟨hnt1, by simp⟩
      | some blk =>
        obtain ⟨e2, he2, hb2, _, _, _⟩ := breakBlockCtx_spec env item pos blk s2
        have hnt2 : Ev.toolFail ∉ e2 := fun hmem => by cases hb2 _ hmem
        rcases hbb : breakBlockCtx env item pos blk s2 with ⟨s3, fault⟩
        rw [hbb] at he2
        simp only at he2
        cases fault with
        | true =>
          refine ⟨e1 ++ [Ev.stamina cont] ++ e2, ?_, ?_⟩
          · dsimp only
            rw [hbb]
            dsimp only
            rw [he2, hs2]
            simp [List.append_assoc]
          · simp only [List.mem_append, List.mem_singleton, not_or]
            exact ⟨⟨hnt1, by simp⟩, hnt2⟩
        | false =>
          refine ⟨e1 ++ [Ev.stamina cont] ++ e2, ?_, ?_⟩
          · dsimp only
            rw [hbb]
            dsimp only
            rw [yieldTick_trace, he2, hs2]
            simp [List.append_assoc]
          · simp only [List.mem_append, List.mem_singleton, not_or]
            exact ⟨⟨hnt1, by simp⟩, hnt2⟩
  · rw [if_neg hc]
    cases tb with
    | none => exact ⟨e1, by simpa using he1, hnt1⟩
    | some blk =>
      obtain ⟨e2, he2, hb2, _, _, _⟩ := breakBlockCtx_spec env item pos blk
        (applyToolWear env item s)
      have hnt2 : Ev.toolFail ∉ e2 := fun hmem => by cases hb2 _ hmem
      rcases hbb : breakBlockCtx env item pos blk (applyToolWear env item s)
        with ⟨s3, fault⟩
      rw [hbb] at he2
      simp only at he2
      cases fault with
      | true =>
        refine ⟨e1 ++ e2, ?_, ?_⟩
        · dsimp only
          rw [hbb]
          dsimp only
          rw [he2, he1]
          simp [List.append_assoc]
        · simp only [List.mem_append, not_or]
          exact ⟨hnt1, hnt2⟩
      | false =>
        refine ⟨e1 ++ e2, ?_, ?_⟩
        · dsimp only
          rw [hbb]
          dsimp only
          rw [yieldTick_trace, he2, he1]
          simp [List.append_assoc]
        · simp only [List.mem_append, not_or]
          exact ⟨hnt1, hnt2⟩

theorem floodLoop_c4 (env : Env) (pred : String → Bool) (item : Option Item)
    (maxVein : Nat) :
    ∀ (fuel : Nat) (visited toCheck : List Pos) (cont : Nat) (s : RunState),
      noBrkAfter Ev.toolFail s.trace = true →
      (Ev.toolFail ∈ s.trace → toolCheckFails item s = true) →
      noBrkAfter Ev.toolFail
        (floodLoop env pred item maxVein fuel visited toCheck cont s).1.trace = true := by
  intro fuel
  induction fuel with
  | zero => intro _ _ _ s hp _; exact hp
  | succ n ih =>
    intro visited toCheck cont s hp hinv
    match toCheck with
    | [] => exact hp
    | pos :: rest =>
      simp only [floodLoop]
      by_cases hlt : cont < maxVein
      · rw [if_pos hlt]
        by_cases htool : toolCheckFails item s = true
        · rw [if_pos htool]
          exact noBrkAfter_append_nonbrk _ _ _ hp rfl
        · rw [if_neg htool]
          have hnotf : Ev.toolFail ∉ s.trace := fun hmem => htool (hinv hmem)
          by_cases hvis : visited.contains pos = true
          · rw [if_pos hvis]
            exact ih visited rest cont s hp hinv
          · rw [if_neg hvis]
            by_cases helig : ((pos :: visited).length == 1 ||
                (match (match env.getBlock pos with
                        | Except.error _ => none
                        | Except.ok b => b : Option BlockData) with
                 | some b => pred b.typeId
                 | none => false)) = true
            · rw [if_pos helig]
              obtain ⟨ext, hext, hnt⟩ := floodEligibleStep_noTF env item pos
                (match env.getBlock pos with
                 | Except.error _ => none
                 | Except.ok b => b) cont s
              rcases hs : floodEligibleStep env item pos
                  (match env.getBlock pos with
                   | Except.error _ => none
                   | Except.ok b => b) cont s with s' | s' | s'
              · rw [hs] at hext
                simp only at hext
                have hnm : Ev.toolFail ∉ s'.trace := by
                  rw [hext]
                  intro hmem
                  rcases List.mem_append.mp hmem with hmem | hmem
                  · exact hnotf hmem
                  · exact hnt hmem
                exact ih _ _ (cont + 1) s' (noBrkAfter_of_not_mem _ _ hnm)
                  (fun hmem => absurd hmem hnm)
              · rw [hs] at hext
                simp only at hext
                apply noBrkAfter_of_not_mem
                rw [hext]
                intro hmem
                rcases List.mem_append.mp hmem with hmem | hmem
                · exact hnotf hmem
                · exact hnt hmem
              · rw [hs] at hext
                simp only at hext
                apply noBrkAfter_of_not_mem
                rw [hext]
                intro hmem
                rcases List.mem_append.mp hmem with hmem | hmem
                · exact hnotf hmem
                · exact hnt hmem
            · rw [if_neg helig]
              exact ih _ rest cont s hp hinv
      · rw [if_neg hlt]
        exact hp

theorem largeInner_c4 (env : Env) (item : Option Item) (perm : String)
    (maxBlocks : Nat) (axis : Axis) (center : Pos) :
    ∀ (offs : List (Int × Int)) (s : RunState) (cont broken : Nat) (found : Bool),
      noBrkAfter Ev.toolFail s.trace = true →
      (Ev.toolFail ∈ s.trace → toolCheckFails item s = true) →
      (match largeInner env item perm maxBlocks axis center offs s cont broken found with
       | LTInner.done s' _ _ _ =>
           noBrkAfter Ev.toolFail s'.trace = true
           ∧ (Ev.toolFail ∈ s'.trace → toolCheckFails item s' = true)
       | LTInner.ret s' _ _ => noBrkAfter Ev.toolFail s'.trace = true) := by
  intro offs
  induction offs with
  | nil =>
    intro s cont broken found hp hinv
    simp only [largeInner]
    exact ⟨hp, hinv⟩
  | cons dq rest ih =>
    intro s cont broken found hp hinv
    simp only [largeInner]
    by_cases htool : toolCheckFails item s = true
    · rw [if_pos htool]
      dsimp only
      refine ⟨noBrkAfter_append_nonbrk _ _ _ hp rfl, ?_⟩
      intro _
      rw [toolCheckFails_trace]
      exact htool
    · rw [if_neg htool]
      have hnotf : Ev.toolFail ∉ s.trace := fun hmem => htool (hinv hmem)
      rcases hgb : tunnelGetBlock env perm (sliceCell axis center dq.1 dq.2) with _ | blk
      · exact ih s cont broken found hp hinv
      · dsimp only
        obtain ⟨e1, he1, hu1, _, _⟩ := applyToolWear_spec env item s
        have hnt1 : Ev.toolFail ∉ e1 := fun hmem => by cases hu1 _ hmem
        by_cases hc : (cont % 10 == 0 && cont != 0) = true
        · rw [if_pos hc]
          rcases hmatch : reduceHunger env
              { applyToolWear env item s with
                trace := (applyToolWear env item s).trace ++ [Ev.stamina cont] } 1 1
            with ⟨ok, s2⟩
          have hrh := reduceHunger_trace env
            { applyToolWear env item s with
              trace := (applyToolWear env item s).trace ++ [Ev.stamina cont] } 1 1
          rw [hmatch] at hrh
          simp only at hrh
          have hnm2 : Ev.toolFail ∉ s2.trace := by
            rw [hrh, he1]
            intro hmem
            rcases List.mem_append.mp hmem with hmem | hmem
            · rcases List.mem_append.mp hmem with hmem | hmem
              · exact hnotf hmem
              · exact hnt1 hmem
            · simp at hmem
          cases ok with
          | false =>
            dsimp only
            constructor
            · apply noBrkAfter_of_not_mem
              intro hmem
              rcases List.mem_append.mp hmem with hmem | hmem
              · exact hnm2 hmem
              · simp at hmem
            · intro hmem
              exfalso
              rcases List.mem_append.mp hmem with hmem | hmem
              · exact hnm2 hmem
              · simp at hmem
          | true =>
            obtain ⟨e2, he2, hb2, _, _, _⟩ := breakBlockCtx_spec env item
              (sliceCell axis center dq.1 dq.2) blk s2
            have hnt2 : Ev.toolFail ∉ e2 := fun hmem => by cases hb2 _ hmem
            rcases hbb : breakBlockCtx env item (sliceCell axis center dq.1 dq.2) blk s2
              with ⟨s3, fault⟩
            rw [hbb] at he2
            simp only at he2
            have hnm3 : Ev.toolFail ∉ s3.trace := by
              rw [he2]
              intro hmem
              rcases List.mem_append.mp hmem with hmem | hmem
              · exact hnm2 hmem
              · exact hnt2 hmem
            cases fault with
            | true =>
              dsimp only
              rw [hbb]
              dsimp only
              exact noBrkAfter_of_not_mem _ _ hnm3
            | false =>
              dsimp only
              rw [hbb]
              dsimp only
              by_cases hmax : broken + 1 + 1 ≥ maxBlocks
              · rw [if_pos hmax]
                exact noBrkAfter_of_not_mem _ _ hnm3
              · rw [if_neg hmax]
                exact ih (yieldTick env s3) (cont + 1) (broken + 1) true
                  (noBrkAfter_of_not_mem _ _ hnm3) (fun hmem => absurd hmem hnm3)
        · rw [if_neg hc]
          obtain ⟨e2, he2, hb2, _, _, _⟩ := breakBlockCtx_spec env item
            (sliceCell axis center dq.1 dq.2) blk (applyToolWear env item s)
          have hnt2 : Ev.toolFail ∉ e2 := fun hmem => by cases hb2 _ hmem
          rcases hbb : breakBlockCtx env item (sliceCell axis center dq.1 dq.2) blk
              (applyToolWear env item s) with ⟨s3, fault⟩
          rw [hbb] at he2
          simp only at he2
          have hnm3 : Ev.toolFail ∉ s3.trace := by
            rw [he2, he1]
            intro hmem
            rcases List.mem_append.mp hmem with hmem | hmem
            · rcases List.mem_append.mp hmem with hmem | hmem
              · exact hnotf hmem
              · exact hnt1 hmem
            · exact hnt2 hmem
          cases fault with
          | true =>
            dsimp only
            rw [hbb]
            dsimp only
            exact noBrkAfter_of_not_mem _ _ hnm3
          | false =>
            dsimp only
            rw [hbb]
            dsimp only
            by_cases hmax : broken + 1 + 1 ≥ maxBlocks
            · rw [if_pos hmax]
              exact noBrkAfter_of_not_mem _ _ hnm3
            · rw [if_neg hmax]
              exact ih (yieldTick env s3) (cont + 1) (broken + 1) true
                (noBrkAfter_of_not_mem _ _ hnm3) (fun hmem => absurd hmem hnm3)

theorem largeOuter_c4 (env : Env) (item : Option Item) (perm : String)
    (maxBlocks : Nat) (axis : Axis) (stepSign : Int) (origin : Pos) :
    ∀ (depths : List Nat) (outward : Bool) (s : RunState) (cont broken : Nat),
      noBrkAfter Ev.toolFail s.trace = true →
      (Ev.toolFail ∈ s.trace → toolCheckFails item s = true) →
      noBrkAfter Ev.toolFail
        (largeOuter env item perm maxBlocks axis stepSign origin depths outward
          s cont broken).1.trace = true := by
  intro depths
  induction depths with
  | nil => intro _ s _ _ hp _; exact hp
  | cons d ds ih =>
    intro outward s cont broken hp hinv
    simp only [largeOuter]
    have hin := largeInner_c4 env item perm maxBlocks axis
      (sliceCenter axis origin (Int.ofNat d) stepSign) (spiralOffsets outward)
      s cont broken false hp hinv
    rcases hinner : largeInner env item perm maxBlocks axis
        (sliceCenter axis origin (Int.ofNat d) stepSign) (spiralOffsets outward)
        s cont broken false with ⟨s', cont', broken', found⟩ | ⟨s', cont', broken'⟩
    · rw [hinner] at hin
      simp only at hin
      cases found with
      | true =>
        dsimp only
        rw [if_pos rfl]
        exact ih (!outward) s' cont' broken' hin.1 hin.2
      | false =>
        dsimp only
        rw [if_neg (by simp)]
        exact hin.1
    · rw [hinner] at hin
      simp only at hin
      exact hin

theorem smallCell_c4 (env : Env) (item : Option Item) (perm : String) (cell : Pos)
    (s : RunState) (cont : Nat)
    (hp : noBrkAfter Ev.toolFail s.trace = true)
    (hinv : Ev.toolFail ∈ s.trace → toolCheckFails item s = true) :
    (match smallCell env item perm cell s cont with
     | STStep.next s' _ =>
         noBrkAfter Ev.toolFail s'.trace = true
         ∧ (Ev.toolFail ∈ s'.trace → toolCheckFails item s' = true)
     | STStep.stop s' _ => noBrkAfter Ev.toolFail s'.trace = true) := by
  unfold smallCell
  by_cases htool : toolCheckFails item s = true
  · rw [if_pos htool]
    dsimp only
    exact noBrkAfter_append_nonbrk _ _ _ hp rfl
  · rw [if_neg htool]
    have hnotf : Ev.toolFail ∉ s.trace := fun hmem => htool (hinv hmem)
    rcases hgb : tunnelGetBlock env perm cell with _ | blk
    · exact ⟨hp, hinv⟩
    · dsimp only
      obtain ⟨e1, he1, hu1, _, _⟩ := applyToolWear_spec env item s
      have hnt1 : Ev.toolFail ∉ e1 := fun hmem => by cases hu1 _ hmem
      by_cases hc : (cont % 10 == 0 && cont != 0) = true
      · rw [if_pos hc]
        rcases hmatch : reduceHunger env
            { applyToolWear env item s with
              trace := (applyToolWear env item s).trace ++ [Ev.stamina cont] } 1 1
          with ⟨ok, s2⟩
        have hrh := reduceHunger_trace env
          { applyToolWear env item s with
            trace := (applyToolWear env item s).trace ++ [Ev.stamina cont] } 1 1
        rw [hmatch] at hrh
        simp only at hrh
        have hnm2 : Ev.toolFail ∉ s2.trace := by
          rw [hrh, he1]
          intro hmem
          rcases List.mem_append.mp hmem with hmem | hmem
          · rcases List.mem_append.mp hmem with hmem | hmem
            · exact hnotf hmem
            · exact hnt1 hmem
          · simp at hmem
        cases ok with
        | false =>
          dsimp only
          apply noBrkAfter_of_not_mem
          intro hmem
          rcases List.mem_append.mp hmem with hmem | hmem
          · exact hnm2 hmem
          · simp at hmem
        | true =>
          obtain ⟨e2, he2, hb2, _, _, _⟩ := breakBlockCtx_spec env item cell blk s2
          have hnt2 : Ev.toolFail ∉ e2 := fun hmem => by cases hb2 _ hmem
          rcases hbb : breakBlockCtx env item cell blk s2 with ⟨s3, fault⟩
          rw [hbb] at he2
          simp only at he2
          have hnm3 : Ev.toolFail ∉ s3.trace := by
            rw [he2]
            intro hmem
            rcases List.mem_append.mp hmem with hmem | hmem
            · exact hnm2 hmem
            · exact hnt2 hmem
          cases fault with
          | true =>
            dsimp only
            rw [hbb]
            dsimp only
            exact noBrkAfter_of_not_mem _ _ hnm3
          | false =>
            dsimp only
            rw [hbb]
            dsimp only
            refine ⟨noBrkAfter_of_not_mem _ _ (by rw [yieldTick_trace]; exact hnm3), ?_⟩
            intro hmem
            exfalso
            rw [yieldTick_trace] at hmem
            exact hnm3 hmem
      · rw [if_neg hc]
        obtain ⟨e2, he2, hb2, _, _, _⟩ := breakBlockCtx_spec env item cell blk
          (applyToolWear env item s)
        have hnt2 : Ev.toolFail ∉ e2 := fun hmem => by cases hb2 _ hmem
        rcases hbb : breakBlockCtx env item cell blk (applyToolWear env item s)
          with ⟨s3, fault⟩
        rw [hbb] at he2
        simp only at he2
        have hnm3 : Ev.toolFail ∉ s3.trace := by
          rw [he2, he1]
          intro hmem
          rcases List.mem_append.mp hmem with hmem | hmem
          · rcases List.mem_append.mp hmem with hmem | hmem
            · exact hnotf hmem
            · exact hnt1 hmem
          · exact hnt2 hmem
        cases fault with
        | true =>
          dsimp only
          rw [hbb]
          dsimp only
          exact noBrkAfter_of_not_mem _ _ hnm3
        | false =>
          dsimp only
          rw [hbb]
          dsimp only
          refine ⟨noBrkAfter_of_not_mem _ _ (by rw [yieldTick_trace]; exact hnm3), ?_⟩
          intro hmem
          exfalso
          rw [yieldTick_trace] at hmem
          exact hnm3 hmem

theorem smallColumn_c4 (env : Env) (item : Option Item) (perm : String) (base : Pos)
    (s : RunState) (cont : Nat)
    (hp : noBrkAfter Ev.toolFail s.trace = true)
    (hinv : Ev.toolFail ∈ s.trace → toolCheckFails item s = true) :
    (match smallColumn env item perm base s cont with
     | STStep.next s' _ =>
         noBrkAfter Ev.toolFail s'.trace = true
         ∧ (Ev.toolFail ∈ s'.trace → toolCheckFails item s' = true)
     | STStep.stop s' _ => noBrkAfter Ev.toolFail s'.trace = true) := by
  unfold smallColumn
  have h1 := smallCell_c4 env item perm base s cont hp hinv
  rcases hc1 : smallCell env item perm base s cont with ⟨s', cont'⟩ | ⟨s', cont'⟩
  · rw [hc1] at h1
    simp only at h1
    have h2 := smallCell_c4 env item perm ⟨base.x, base.y + 1, base.z⟩ s' cont' h1.1 h1.2
    rcases hc2 : smallCell env item perm ⟨base.x, base.y + 1, base.z⟩ s' cont'
      with ⟨s'', cont''⟩ | ⟨s'', cont''⟩
    · rw [hc2] at h2
      simp only at h2
      dsimp only
      rw [hc2]
      exact h2
    · rw [hc2] at h2
      simp only at h2
      dsimp only
      rw [hc2]
      exact h2
  · rw [hc1] at h1
    simp only at h1
    exact h1

theorem smallLoop_c4 (env : Env) (item : Option Item) (perm : String) (axis : Axis)
    (stepSign : Int) (origin : Pos) :
    ∀ (depths : List Nat) (s : RunState) (cont : Nat),
      noBrkAfter Ev.toolFail s.trace = true →
      (Ev.toolFail ∈ s.trace → toolCheckFails item s = true) →
      noBrkAfter Ev.toolFail
        (smallLoop env item perm axis stepSign origin depths s cont).1.trace = true := by
  intro depths
  induction depths with
  | nil => intro s _ hp _; exact hp
  | cons d ds ih =>
    intro s cont hp hinv
    simp only [smallLoop]
    have h1 := smallColumn_c4 env item perm
      (sliceCenter axis origin (Int.ofNat d) stepSign) s cont hp hinv
    rcases hcol : smallColumn env item perm (sliceCenter axis origin (Int.ofNat d) stepSign)
        s cont with ⟨s', cont'⟩ | ⟨s', cont'⟩
    · rw [hcol] at h1
      simp only at h1
      exact ih s' cont' h1.1 h1.2
    · rw [hcol] at h1
      simp only at h1
      exact h1

theorem lineLoop_c4 (env : Env) (item : Option Item) (perm : String) (axis : Axis)
    (stepSign : Int) (origin : Pos) :
    ∀ (depths : List Nat) (s : RunState) (cont : Nat),
      noBrkAfter Ev.toolFail s.trace = true →
      (Ev.toolFail ∈ s.trace → toolCheckFails item s = true) →
      noBrkAfter Ev.toolFail
        (lineLoop env item perm axis stepSign origin depths s cont).1.trace = true := by
  intro depths
  induction depths with
  | nil => intro s _ hp _; exact hp
  | cons d ds ih =>
    intro s cont hp hinv
    simp only [lineLoop]
    by_cases htool : toolCheckFails item s = true
    · rw [if_pos htool]
      exact noBrkAfter_append_nonbrk _ _ _ hp rfl
    · rw [if_neg htool]
      have hnotf : Ev.toolFail ∉ s.trace := fun hmem => htool (hinv hmem)
      rcases hgb : tunnelGetBlock env perm
          (sliceCenter axis origin (Int.ofNat d) stepSign) with _ | blk
      · exact ih s cont hp hinv
      · dsimp only
        obtain ⟨e1, he1, hu1, _, _⟩ := applyToolWear_spec env item s
        have hnt1 : Ev.toolFail ∉ e1 := fun hmem => by cases hu1 _ hmem
        by_cases hc : (cont % 10 == 0 && cont != 0) = true
        · rw [if_pos hc]
          rcases hmatch : reduceHunger env
              { applyToolWear env item s with
                trace := (applyToolWear env item s).trace ++ [Ev.stamina cont] } 1 1
            with ⟨ok, s2⟩
          have hrh := reduceHunger_trace env
            { applyToolWear env item s with
              trace := (applyToolWear env item s).trace ++ [Ev.stamina cont] } 1 1
          rw [hmatch] at hrh
          simp only at hrh
          have hnm2 : Ev.toolFail ∉ s2.trace := by
            rw [hrh, he1]
            intro hmem
            rcases List.mem_append.mp hmem with hmem | hmem
            · rcases List.mem_append.mp hmem with hmem | hmem
              · exact hnotf hmem
              · exact hnt1 hmem
            · simp at hmem
          cases ok with
          | false =>
            dsimp only
            apply noBrkAfter_of_not_mem
            intro hmem
            rcases List.mem_append.mp hmem with hmem | hmem
            · exact hnm2 hmem
            · simp at hmem
          | true =>
            obtain ⟨e2, he2, hb2, _, _, _⟩ := breakBlockCtx_spec env item
              (sliceCenter axis origin (Int.ofNat d) stepSign) blk s2
            have hnt2 : Ev.toolFail ∉ e2 := fun hmem => by cases hb2 _ hmem
            rcases hbb : breakBlockCtx env item
                (sliceCenter axis origin (Int.ofNat d) stepSign) blk s2 with ⟨s3, fault⟩
            rw [hbb] at he2
            simp only at he2
            have hnm3 : Ev.toolFail ∉ s3.trace := by
              rw [he2]
              intro hmem
              rcases List.mem_append.mp hmem with hmem | hmem
              · exact hnm2 hmem
              · exact hnt2 hmem
            cases fault with
            | true =>
              dsimp only
              rw [hbb]
              dsimp only
              exact noBrkAfter_of_not_mem _ _ hnm3
            | false =>
              dsimp only
              rw [hbb]
              dsimp only
              exact ih (yieldTick env s3) (cont + 1)
                (noBrkAfter_of_not_mem _ _ (by rw [yieldTick_trace]; exact hnm3))
                (fun hmem => absurd (by rwa [yieldTick_trace] at hmem) hnm3)
        · rw [if_neg hc]
          obtain ⟨e2, he2, hb2, _, _, _⟩ := breakBlockCtx_spec env item
            (sliceCenter axis origin (Int.ofNat d) stepSign) blk (applyToolWear env item s)
          have hnt2 : Ev.toolFail ∉ e2 := fun hmem => by cases hb2 _ hmem
          rcases hbb : breakBlockCtx env item
              (sliceCenter axis origin (Int.ofNat d) stepSign) blk
              (applyToolWear env item s) with ⟨s3, fault⟩
          rw [hbb] at he2
          simp only at he2
          have hnm3 : Ev.toolFail ∉ s3.trace := by
            rw [he2, he1]
            intro hmem
            rcases List.mem_append.mp hmem with hmem | hmem
            · rcases List.mem_append.mp hmem with hmem | hmem
              · exact hnotf hmem
              · exact hnt1 hmem
            · exact hnt2 hmem
          cases fault with
          | true =>
            dsimp only
            rw [hbb]
            dsimp only
            exact noBrkAfter_of_not_mem _ _ hnm3
          | false =>
            dsimp only
            rw [hbb]
            dsimp only
            exact ih (yieldTick env s3) (cont + 1)
              (noBrkAfter_of_not_mem _ _ (by rw [yieldTick_trace]; exact hnm3))
              (fun hmem => absurd (by rwa [yieldTick_trace] at hmem) hnm3)

/-- A world with a single stone block at the origin whose breaking player
holds a pickaxe that is destroyed by its very first `damage()` call; the
mainhand stays empty afterwards. -/
def envToolBreaks : Env :=
  { getBlock := fun p =>
      if p = ⟨0, 0, 0⟩ then
        Except.ok (some ⟨"minecraft:stone", [], [("minecraft:cobblestone", 1)]⟩)
      else Except.ok none
    mainhand0 := some "minecraft:diamond_pickaxe"
    mainhandAfter := fun _ => none
    damageResult := fun _ => false
    breakFault := fun _ => false
    gameMode := "survival"
    noConsumeSaturation := true
    hunger0 := some 20
    saturation0 := some 5
    blacklist := []
    viewDir := ⟨1, 0, 0⟩ }

/-- C4 counterexample: when the step's tool wear destroys the pickaxe,
the mainhand is emptied (`unequip`) and the SAME step's block is still
broken afterwards — the `brk` event records mainhand `none`, which
differs from the required type `minecraft:diamond_pickaxe`. A block is
therefore broken after the equipped mainhand's type diverged from the
required item's type, refuting the claim as stated. -/
theorem c4_counterexample :
    (runShape Shape.shapelessVein envToolBreaks ⟨0, 0, 0⟩ "minecraft:stone" 5
        (some pickItem)).1.trace
      = [Ev.unequip, Ev.brk ⟨0, 0, 0⟩ none, Ev.toolFail, Ev.emit] := by
  decide

/-- **C4 (amended).** Once the per-candidate tool-identity check observes
an equipped mainhand differing from the required item's type (a
`toolFail` event), zero further blocks are broken for the remainder of
the run, in every shape handler. (Within a single candidate step that
already passed the check, the block is still broken even if that step's
own tool wear destroys and unequips the tool.) -/
theorem c4_no_breaks_after_tool_mismatch (sh : Shape) (env : Env) (origin : Pos)
    (brokenBlock : String) (maxVein : Nat) (item : Option Item) :
    noBrkAfter Ev.toolFail
      (runShape sh env origin brokenBlock maxVein item).1.trace = true := by
  have hinv0 : Ev.toolFail ∈ (initState env).trace → toolCheckFails item (initState env) = true := by
    intro hmem
    simp [initState] at hmem
  have hp0 : noBrkAfter Ev.toolFail (initState env).trace = true := rfl
  cases sh with
  | shapelessVein =>
    have h := floodLoop_c4 env (fun t => t == brokenBlock) item maxVein
      (27 * maxVein + 2) [] [origin] 0 (initState env) hp0 hinv0
    simp only [runShape, shapelessVein, floodVein]
    exact noBrkAfter_append_nonbrk _ _ _ h rfl
  | treeCapitator =>
    have h := floodLoop_c4 env isTreeBlock item maxVein
      (27 * maxVein + 2) [] [origin] 0 (initState env) hp0 hinv0
    simp only [runShape, treeCapitator, floodVein]
    exact noBrkAfter_append_nonbrk _ _ _ h rfl
  | veinMiner =>
    have h := floodLoop_c4 env isOreBlock item maxVein
      (27 * maxVein + 2) [] [origin] 0 (initState env) hp0 hinv0
    simp only [runShape, veinMiner, floodVein]
    exact noBrkAfter_append_nonbrk _ _ _ h rfl
  | largeTunnel =>
    have h := largeOuter_c4 env item brokenBlock (maxVein * 2)
      (pickAxisDir env.viewDir).1 (pickAxisDir env.viewDir).2 origin
      ((List.range (maxVein / 4 + 1 -
        probeSliceStart env brokenBlock (pickAxisDir env.viewDir).1 origin)).map
        (fun i => i + probeSliceStart env brokenBlock (pickAxisDir env.viewDir).1 origin))
      true (initState env) 0 0 hp0 hinv0
    simp only [runShape, largeTunnel]
    exact noBrkAfter_append_nonbrk _ _ _ h rfl
  | smallTunnel =>
    have h := smallLoop_c4 env item brokenBlock
      (pickAxisDir env.viewDir).1 (pickAxisDir env.viewDir).2 origin
      (List.range (maxVein / 2)) (initState env) 0 hp0 hinv0
    simp only [runShape, smallTunnel]
    exact noBrkAfter_append_nonbrk _ _ _ h rfl
  | lineTunnel =>
    have h := lineLoop_c4 env item brokenBlock
      (pickAxisDir env.viewDir).1 (pickAxisDir env.viewDir).2 origin
      (List.range maxVein) (initState env) 0 hp0 hinv0
    simp only [runShape, lineTunnel]
    exact noBrkAfter_append_nonbrk _ _ _ h rfl

/- ───────────────────────────────────────────── -/
/- C5: ZERO RESERVES ABORT AT THE 10TH STEP      -/
/- ───────────────────────────────────────────── -/

theorem noBrkAfter_append_all_nonbrk (mark : Ev) (l ext : List Ev)
    (hp : noBrkAfter mark l = true) (hext : ∀ e ∈ ext, isBrk e = false) :
    noBrkAfter mark (l ++ ext) = true := by
  induction ext generalizing l with
  | nil => simpa using hp
  | cons e rest ih =>
    have hsplit : l ++ e :: rest = (l ++ [e]) ++ rest := by simp
    rw [hsplit]
    exact ih (l ++ [e])
      (noBrkAfter_append_nonbrk _ _ _ hp (hext e (by simp)))
      (fun x hx => hext x (by simp [hx]))

theorem countN_eq_zero_of_not_mem (l : List Ev) (h : Ev.nausea ∉ l) :
    l.countP isNausea = 0 := by
  rw [List.countP_eq_zero]
  intro a ha hpa
  cases a <;> simp [isNausea] at hpa
  exact h ha

theorem countS_eq_zero_of_not_mem (l : List Ev) (h : ∀ n, Ev.stamina n ∉ l) :
    l.countP isStamina = 0 := by
  rw [List.countP_eq_zero]
  intro a ha hpa
  cases a with
  | stamina n => exact h n ha
  | _ => simp [isStamina] at hpa

/-- With the bypass off and both reserves at 0, the governor always
aborts without touching the state. -/
theorem reduceHunger_zero (env : Env) (s : RunState)
    (hb : env.noConsumeSaturation = false)
    (hh : s.hunger = some 0) (hsat : s.saturation = some 0) :
    reduceHunger env s 1 1 = (false, s) := by
  unfold reduceHunger
  rw [hb]
  simp only [Bool.false_eq_true, if_false, hh, hsat]
  rw [if_neg (by norm_num), if_neg (by norm_num)]

/-- A flood-fill eligible step off the 10-step boundary never consults
the governor: no `stamina`/`nausea` events, reserves untouched. -/
theorem floodEligibleStep_c5_quiet (env : Env) (item : Option Item) (pos : Pos)
    (tb : Option BlockData) (cont : Nat) (s : RunState)
    (hc : (cont % 10 == 0 && cont != 0) = false) :
    (match floodEligibleStep env item pos tb cont s with
     | EligOut.cont2 s' => ∃ ext, s'.trace = s.trace ++ ext
         ∧ (∀ e ∈ ext, isStamina e = false ∧ isNausea e = false)
         ∧ s'.hunger = s.hunger ∧ s'.saturation = s.saturation
     | EligOut.nauseaStop _ => False
     | EligOut.fault s' => ∃ ext, s'.trace = s.trace ++ ext
         ∧ (∀ e ∈ ext, isStamina e = false ∧ isNausea e = false)
         ∧ s'.hunger = s.hunger ∧ s'.saturation = s.saturation) := by
  unfold floodEligibleStep
  dsimp only
  rw [if_neg (by rw [hc]; simp)]
  obtain ⟨e1, he1, hu1, hh1, hs1⟩ := applyToolWear_spec env item s
  cases tb with
  | none =>
    exact ⟨e1, he1, fun e he => by rw [hu1 e he]; exact ⟨rfl, rfl⟩, hh1, hs1⟩
  | some blk =>
    obtain ⟨e2, he2, hb2, hh2, hs2, _⟩ := breakBlockCtx_spec env item pos blk
      (applyToolWear env item s)
    rcases hbb : breakBlockCtx env item pos blk (applyToolWear env item s)
      with ⟨s3, fault⟩
    rw [hbb] at he2 hh2 hs2
    simp only at he2 hh2 hs2
    cases fault with
    | true =>
      dsimp only
      rw [hbb]
      dsimp only
      refine ⟨e1 ++ e2, ?_, ?_, ?_, ?_⟩
      · rw [he2, he1]
        simp [List.append_assoc]
      · intro e he
        rcases List.mem_append.mp he with he | he
        · rw [hu1 e he]; exact ⟨rfl, rfl⟩
        · rw [hb2 e he]; exact ⟨rfl, rfl⟩
      · rw [hh2, hh1]
      · rw [hs2, hs1]
    | false =>
      dsimp only
      rw [hbb]
      dsimp only
      refine ⟨e1 ++ e2, ?_, ?_, ?_, ?_⟩
      · rw [yieldTick_trace, he2, he1]
        simp [List.append_assoc]
      · intro e he
        rcases List.mem_append.mp he with he | he
        · rw [hu1 e he]; exact ⟨rfl, rfl⟩
        · rw [hb2 e he]; exact ⟨rfl, rfl⟩
      · show (yieldTick env s3).hunger = s.hunger
        rw [show (yieldTick env s3).hunger = s3.hunger from rfl, hh2, hh1]
      · show (yieldTick env s3).saturation = s.saturation
        rw [show (yieldTick env s3).saturation = s3.saturation from rfl, hs2, hs1]

/-- A flood-fill eligible step at a 10-step boundary, with zero reserves
and the bypass off, always aborts: tool wear, one `stamina` event, one
terminal `nausea` event, reserves untouched. -/
theorem floodEligibleStep_c5_abort (env : Env) (item : Option Item) (pos : Pos)
    (tb : Option BlockData) (cont : Nat) (s : RunState)
    (hb : env.noConsumeSaturation = false)
    (hh : s.hunger = some 0) (hsat : s.saturation = some 0)
    (hc : (cont % 10 == 0 && cont != 0) = true) :
    (match floodEligibleStep env item pos tb cont s with
     | EligOut.nauseaStop s' =>
         ∃ ext, s'.trace = (s.trace ++ ext) ++ [Ev.stamina cont] ++ [Ev.nausea]
           ∧ (∀ e ∈ ext, e = Ev.unequip)
           ∧ s'.hunger = s.hunger ∧ s'.saturation = s.saturation
     | _ => False) := by
  unfold floodEligibleStep
  dsimp only
  rw [if_pos hc]
  obtain ⟨e1, he1, hu1, hh1, hs1⟩ := applyToolWear_spec env item s
  have hzero := reduceHunger_zero env
    { applyToolWear env item s with
      trace := (applyToolWear env item s).trace ++ [Ev.stamina cont] } hb
    (by simpa using hh1.trans hh) (by simpa using hs1.trans hsat)
  rw [hzero]
  dsimp only
  refine ⟨e1, ?_, hu1, by simpa using hh1, by simpa using hs1⟩
  simp [he1, List.append_assoc]

/-- A solid stone world with the hunger model ACTIVE and both reserves
empty: `noConsumeSaturation` off, hunger 0, saturation 0. -/
def envZeroReserves : Env :=
  { envAllStone with
    noConsumeSaturation := false
    hunger0 := some 0
    saturation0 := some 0 }

theorem countN_eq_zero_of_all_false (l : List Ev)
    (h : ∀ e ∈ l, isNausea e = false) : l.countP isNausea = 0 :=
  List.countP_eq_zero.mpr (fun a ha => by simp [h a ha])

theorem countS_eq_zero_of_all_false (l : List Ev)
    (h : ∀ e ∈ l, isStamina e = false) : l.countP isStamina = 0 :=
  List.countP_eq_zero.mpr (fun a ha => by simp [h a ha])

theorem nausea_not_mem_of_all_false (l : List Ev)
    (h : ∀ e ∈ l, isNausea e = false) : Ev.nausea ∉ l := by
  intro hm
  have := h _ hm
  simp [isNausea] at this

theorem nausea_not_mem_of_countN_zero (l : List Ev)
    (h : l.countP isNausea = 0) : Ev.nausea ∉ l := by
  intro hm
  have := List.countP_eq_zero.mp h _ hm
  simp [isNausea] at this

/-- Below a step counter of 10, the 10-step boundary test can only fail. -/
theorem cont_lt_of_not_boundary (cont : Nat) (hcont : cont ≤ 10)
    (hc : (cont % 10 == 0 && cont != 0) = false) : cont < 10 := by
  rcases Nat.lt_or_ge cont 10 with h | h
  · exact h
  · have heq : cont = 10 := le_antisymm hcont h
    subst heq
    exact absurd hc (by decide)

theorem noBrkAfter_c5_shape (l q r : List Ev)
    (hl : Ev.nausea ∉ l) (hq : Ev.nausea ∉ q)
    (hr : ∀ e ∈ r, isBrk e = false) :
    noBrkAfter Ev.nausea (l ++ (q ++ Ev.nausea :: r)) = true := by
  have hsplit : l ++ (q ++ Ev.nausea :: r) = ((l ++ q) ++ [Ev.nausea]) ++ r := by
    simp
  rw [hsplit]
  refine noBrkAfter_append_all_nonbrk _ _ _ ?_ hr
  refine noBrkAfter_append_nonbrk _ _ _ ?_ rfl
  exact noBrkAfter_of_not_mem _ _ (by
    intro hm
    rcases List.mem_append.mp hm with hm | hm
    · exact hl hm
    · exact hq hm)

/-- At zero reserves with the bypass off, a flood-fill run from any state
keeps the step counter at or below 10, applies as many stamina deductions
as nausea penalties (at most one of each), and ends at the nausea when one
occurs. -/
theorem floodLoop_c5 (env : Env) (pred : String → Bool) (item : Option Item)
    (maxVein : Nat) (hb : env.noConsumeSaturation = false) :
    ∀ (fuel : Nat) (visited toCheck : List Pos) (cont : Nat) (s : RunState),
      s.hunger = some 0 → s.saturation = some 0 → cont ≤ 10 →
      ∃ ext,
        (floodLoop env pred item maxVein fuel visited toCheck cont s).1.trace
          = s.trace ++ ext
        ∧ (floodLoop env pred item maxVein fuel visited toCheck cont s).2.1 ≤ 10
        ∧ ext.countP isNausea = ext.countP isStamina
        ∧ ext.countP isNausea ≤ 1
        ∧ (Ev.nausea ∈ ext → ∃ q, ext = q ++ [Ev.nausea] ∧ Ev.nausea ∉ q) := by
  intro fuel
  induction fuel with
  | zero =>
    intro visited toCheck cont s _ _ hcont
    exact ⟨[], by simp [floodLoop], hcont, rfl, by simp, by simp⟩
  | succ n ih =>
    intro visited toCheck cont s hh hsat hcont
    match toCheck with
    | [] => exact ⟨[], by simp [floodLoop], hcont, rfl, by simp, by simp⟩
    | pos :: rest =>
      simp only [floodLoop]
      by_cases hlt : cont < maxVein
      · rw [if_pos hlt]
        by_cases htool : toolCheckFails item s = true
        · rw [if_pos htool]
          exact ⟨[Ev.toolFail], rfl, hcont, rfl, by simp [isNausea],
            by intro hm; simp at hm⟩
        · rw [if_neg htool]
          by_cases hvis : visited.contains pos = true
          · rw [if_pos hvis]
            exact ih visited rest cont s hh hsat hcont
          · rw [if_neg hvis]
            by_cases helig : ((pos :: visited).length == 1 ||
                (match (match env.getBlock pos with
                        | Except.error _ => none
                        | Except.ok b => b : Option BlockData) with
                 | some b => pred b.typeId
                 | none => false)) = true
            · rw [if_pos helig]
              by_cases hcb : (cont % 10 == 0 && cont != 0) = true
              · have habort := floodEligibleStep_c5_abort env item pos
                  (match env.getBlock pos with
                   | Except.error _ => none
                   | Except.ok b => b) cont s hb hh hsat hcb
                rcases hs' : floodEligibleStep env item pos
                    (match env.getBlock pos with
                     | Except.error _ => none
                     | Except.ok b => b) cont s with s' | s' | s'
                · rw [hs'] at habort
                  simp only at habort
                · rw [hs'] at habort
                  simp only at habort
                  obtain ⟨ext0, htr, hun, _, _⟩ := habort
                  have h0N : ext0.countP isNausea = 0 :=
                    countN_eq_zero_of_all_false _ (fun e he => by rw [hun e he]; rfl)
                  have h0S : ext0.countP isStamina = 0 :=
                    countS_eq_zero_of_all_false _ (fun e he => by rw [hun e he]; rfl)
                  refine ⟨ext0 ++ [Ev.stamina cont] ++ [Ev.nausea], ?_, hcont, ?_, ?_, ?_⟩
                  · rw [htr]
                    simp [List.append_assoc]
                  · simp [List.countP_append, h0N, h0S, isNausea, isStamina]
                  · simp [List.countP_append, h0N, isNausea, isStamina]
                  · intro _
                    refine ⟨ext0 ++ [Ev.stamina cont], by simp, ?_⟩
                    intro hm
                    rcases List.mem_append.mp hm with hm | hm
                    · have := hun _ hm
                      cases this
                    · simp at hm
                · rw [hs'] at habort
                  simp only at habort
              · have hcb' : (cont % 10 == 0 && cont != 0) = false := by
                  cases hx : (cont % 10 == 0 && cont != 0) with
                  | false => rfl
                  | true => exact absurd hx hcb
                have hlt10 : cont < 10 := cont_lt_of_not_boundary cont hcont hcb'
                have hquiet := floodEligibleStep_c5_quiet env item pos
                  (match env.getBlock pos with
                   | Except.error _ => none
                   | Except.ok b => b) cont s hcb'
                rcases hs' : floodEligibleStep env item pos
                    (match env.getBlock pos with
                     | Except.error _ => none
                     | Except.ok b => b) cont s with s' | s' | s'
                · rw [hs'] at hquiet
                  simp only at hquiet
                  obtain ⟨ext0, htr, hq0, hhu, hsa⟩ := hquiet
                  obtain ⟨ext2, htr2, hle2, hcnt2, hle1, hmem2⟩ :=
                    ih (pos :: visited)
                      (rest ++ dirs.map (fun d => ⟨pos.x + d.x, pos.y + d.y, pos.z + d.z⟩))
                      (cont + 1) s' (hhu.trans hh) (hsa.trans hsat) (by omega)
                  have h0N : ext0.countP isNausea = 0 :=
                    countN_eq_zero_of_all_false _ (fun e he => (hq0 e he).2)
                  have h0S : ext0.countP isStamina = 0 :=
                    countS_eq_zero_of_all_false _ (fun e he => (hq0 e he).1)
                  refine ⟨ext0 ++ ext2, ?_, hle2, ?_, ?_, ?_⟩
                  · rw [htr2, htr]
                    simp [List.append_assoc]
                  · simp [List.countP_append, h0N, h0S, hcnt2]
                  · simpa [List.countP_append, h0N] using hle1
                  · intro hm
                    rcases List.mem_append.mp hm with hm | hm
                    · exact absurd ((hq0 _ hm).2)
                        (by simp [isNausea])
                    · obtain ⟨q2, hq2eq, hq2nm⟩ := hmem2 hm
                      refine ⟨ext0 ++ q2, by rw [hq2eq]; simp, ?_⟩
                      intro hmq
                      rcases List.mem_append.mp hmq with hmq | hmq
                      · exact absurd ((hq0 _ hmq).2) (by simp [isNausea])
                      · exact hq2nm hmq
                · rw [hs'] at hquiet
                  simp only at hquiet
                · rw [hs'] at hquiet
                  simp only at hquiet
                  obtain ⟨ext0, htr, hq0, _, _⟩ := hquiet
                  have h0N : ext0.countP isNausea = 0 :=
                    countN_eq_zero_of_all_false _ (fun e he => (hq0 e he).2)
                  have h0S : ext0.countP isStamina = 0 :=
                    countS_eq_zero_of_all_false _ (fun e he => (hq0 e he).1)
                  refine ⟨ext0, htr, hcont, by rw [h0N, h0S], by simp [h0N], ?_⟩
                  intro hm
                  exact absurd ((hq0 _ hm).2) (by simp [isNausea])
            · rw [if_neg helig]
              exact ih _ rest cont s hh hsat hcont
      · rw [if_neg hlt]
        exact ⟨[], by simp, hcont, rfl, by simp, by simp⟩

/-- One `smallTunnel` cell at zero reserves: a continuing cell is quiet
(no stamina, no nausea, reserves still empty); a stopping cell applies at
most one stamina/nausea pair, the nausea last. -/
theorem smallCell_c5 (env : Env) (item : Option Item) (perm : String) (cell : Pos)
    (s : RunState) (cont : Nat)
    (hb : env.noConsumeSaturation = false)
    (hh : s.hunger = some 0) (hsat : s.saturation = some 0) (hcont : cont ≤ 10) :
    (match smallCell env item perm cell s cont with
     | STStep.next s' cont' => ∃ ext, s'.trace = s.trace ++ ext ∧ cont' ≤ 10
         ∧ s'.hunger = some 0 ∧ s'.saturation = some 0
         ∧ (∀ e ∈ ext, isNausea e = false ∧ isStamina e = false)
     | STStep.stop s' cont' => ∃ ext, s'.trace = s.trace ++ ext ∧ cont' ≤ 10
         ∧ ext.countP isNausea = ext.countP isStamina
         ∧ ext.countP isNausea ≤ 1
         ∧ (Ev.nausea ∈ ext → ∃ q, ext = q ++ [Ev.nausea] ∧ Ev.nausea ∉ q)) := by
  unfold smallCell
  by_cases htool : toolCheckFails item s = true
  · rw [if_pos htool]
    exact ⟨[Ev.toolFail], rfl, hcont, by decide, by decide, by intro hm; simp at hm⟩
  · rw [if_neg htool]
    cases hblk : tunnelGetBlock env perm cell with
    | none =>
      dsimp only
      exact ⟨[], by simp, hcont, hh, hsat, by simp⟩
    | some blk =>
      dsimp only
      obtain ⟨e1, he1, hu1, hh1, hs1⟩ := applyToolWear_spec env item s
      by_cases hcb : (cont % 10 == 0 && cont != 0) = true
      · rw [if_pos hcb]
        have hzero := reduceHunger_zero env
          { applyToolWear env item s with
            trace := (applyToolWear env item s).trace ++ [Ev.stamina cont] } hb
          (by simpa using hh1.trans hh) (by simpa using hs1.trans hsat)
        rw [hzero]
        dsimp only
        have h0N : e1.countP isNausea = 0 :=
          countN_eq_zero_of_all_false _ (fun e he => by rw [hu1 e he]; rfl)
        have h0S : e1.countP isStamina = 0 :=
          countS_eq_zero_of_all_false _ (fun e he => by rw [hu1 e he]; rfl)
        refine ⟨e1 ++ [Ev.stamina cont] ++ [Ev.nausea], ?_, hcont, ?_, ?_, ?_⟩
        · simp [he1, List.append_assoc]
        · simp [List.countP_append, h0N, h0S, isNausea, isStamina]
        · simp [List.countP_append, h0N, isNausea, isStamina]
        · intro _
          refine ⟨e1 ++ [Ev.stamina cont], by simp, ?_⟩
          intro hm
          rcases List.mem_append.mp hm with hm | hm
          · have := hu1 _ hm
            cases this
          · simp at hm
      · rw [if_neg hcb]
        have hlt10 : cont < 10 := cont_lt_of_not_boundary cont hcont (by
          cases hx : (cont % 10 == 0 && cont != 0) with
          | false => rfl
          | true => exact absurd hx hcb)
        obtain ⟨e2, he2, hb2, hh2, hs2, _⟩ := breakBlockCtx_spec env item cell blk
          (applyToolWear env item s)
        rcases hbb : breakBlockCtx env item cell blk (applyToolWear env item s)
          with ⟨s3, fault⟩
        rw [hbb] at he2 hh2 hs2
        simp only at he2 hh2 hs2
        cases fault with
        | true =>
          dsimp only
          rw [hbb]
          dsimp only
          have h0N : (e1 ++ e2).countP isNausea = 0 :=
            countN_eq_zero_of_all_false _ (fun e he => by
              rcases List.mem_append.mp he with he | he
              · rw [hu1 e he]; rfl
              · rw [hb2 e he]; rfl)
          have h0S : (e1 ++ e2).countP isStamina = 0 :=
            countS_eq_zero_of_all_false _ (fun e he => by
              rcases List.mem_append.mp he with he | he
              · rw [hu1 e he]; rfl
              · rw [hb2 e he]; rfl)
          refine ⟨e1 ++ e2, ?_, by omega, by rw [h0N, h0S], by simp [h0N], ?_⟩
          · rw [he2, he1]
            simp [List.append_assoc]
          · intro hm
            exact absurd hm (nausea_not_mem_of_countN_zero _ h0N)
        | false =>
          dsimp only
          rw [hbb]
          dsimp only
          refine ⟨e1 ++ e2, ?_, by omega, ?_, ?_, ?_⟩
          · rw [yieldTick_trace, he2, he1]
            simp [List.append_assoc]
          · show (yieldTick env s3).hunger = some 0
            rw [show (yieldTick env s3).hunger = s3.hunger from rfl, hh2, hh1]
            exact hh
          · show (yieldTick env s3).saturation = some 0
            rw [show (yieldTick env s3).saturation = s3.saturation from rfl, hs2, hs1]
            exact hsat
          · intro e he
            rcases List.mem_append.mp he with he | he
            · rw [hu1 e he]; exact ⟨rfl, rfl⟩
            · rw [hb2 e he]; exact ⟨rfl, rfl⟩

/-- A two-cell `smallTunnel` column at zero reserves: same dichotomy as a
single cell. -/
theorem smallColumn_c5 (env : Env) (item : Option Item) (perm : String) (base : Pos)
    (s : RunState) (cont : Nat)
    (hb : env.noConsumeSaturation = false)
    (hh : s.hunger = some 0) (hsat : s.saturation = some 0) (hcont : cont ≤ 10) :
    (match smallColumn env item perm base s cont with
     | STStep.next s' cont' => ∃ ext, s'.trace = s.trace ++ ext ∧ cont' ≤ 10
         ∧ s'.hunger = some 0 ∧ s'.saturation = some 0
         ∧ (∀ e ∈ ext, isNausea e = false ∧ isStamina e = false)
     | STStep.stop s' cont' => ∃ ext, s'.trace = s.trace ++ ext ∧ cont' ≤ 10
         ∧ ext.countP isNausea = ext.countP isStamina
         ∧ ext.countP isNausea ≤ 1
         ∧ (Ev.nausea ∈ ext → ∃ q, ext = q ++ [Ev.nausea] ∧ Ev.nausea ∉ q)) := by
  unfold smallColumn
  have h1 := smallCell_c5 env item perm base s cont hb hh hsat hcont
  rcases hc1 : smallCell env item perm base s cont with ⟨s1, cont1⟩ | ⟨s1, cont1⟩
  · rw [hc1] at h1
    simp only at h1
    dsimp only
    obtain ⟨ext1, htr1, hcont1, hh1, hs1, hq1⟩ := h1
    have h0N : ext1.countP isNausea = 0 :=
      countN_eq_zero_of_all_false _ (fun e he => (hq1 e he).1)
    have h0S : ext1.countP isStamina = 0 :=
      countS_eq_zero_of_all_false _ (fun e he => (hq1 e he).2)
    have h2 := smallCell_c5 env item perm ⟨base.x, base.y + 1, base.z⟩ s1 cont1
      hb hh1 hs1 hcont1
    rcases hc2 : smallCell env item perm ⟨base.x, base.y + 1, base.z⟩ s1 cont1
      with ⟨s2, cont2⟩ | ⟨s2, cont2⟩
    · rw [hc2] at h2
      simp only at h2
      dsimp only
      obtain ⟨ext2, htr2, hcont2, hh2, hs2, hq2⟩ := h2
      refine ⟨ext1 ++ ext2, ?_, hcont2, hh2, hs2, ?_⟩
      · rw [htr2, htr1]
        simp [List.append_assoc]
      · intro e he
        rcases List.mem_append.mp he with he | he
        · exact hq1 e he
        · exact hq2 e he
    · rw [hc2] at h2
      simp only at h2
      dsimp only
      obtain ⟨ext2, htr2, hcont2, hcnt2, hle2, hmem2⟩ := h2
      refine ⟨ext1 ++ ext2, ?_, hcont2, ?_, ?_, ?_⟩
      · rw [htr2, htr1]
        simp [List.append_assoc]
      · simp [List.countP_append, h0N, h0S, hcnt2]
      · simpa [List.countP_append, h0N] using hle2
      · intro hm
        rcases List.mem_append.mp hm with hm | hm
        · exact absurd ((hq1 _ hm).1) (by simp [isNausea])
        · obtain ⟨q2, hq2eq, hq2nm⟩ := hmem2 hm
          refine ⟨ext1 ++ q2, by rw [hq2eq]; simp, ?_⟩
          intro hmq
          rcases List.mem_append.mp hmq with hmq | hmq
          · exact absurd ((hq1 _ hmq).1) (by simp [isNausea])
          · exact hq2nm hmq
  · rw [hc1] at h1
    simp only at h1
    dsimp only
    exact h1

/-- The `smallTunnel` depth loop at zero reserves: final step counter at
most 10, stamina and nausea counts equal and at most one, the nausea (if
any) last. -/
theorem smallLoop_c5 (env : Env) (item : Option Item) (perm : String) (axis : Axis)
    (stepSign : Int) (origin : Pos) (hb : env.noConsumeSaturation = false) :
    ∀ (ds : List Nat) (s : RunState) (cont : Nat),
      s.hunger = some 0 → s.saturation = some 0 → cont ≤ 10 →
      ∃ ext,
        (smallLoop env item perm axis stepSign origin ds s cont).1.trace
          = s.trace ++ ext
        ∧ (smallLoop env item perm axis stepSign origin ds s cont).2 ≤ 10
        ∧ ext.countP isNausea = ext.countP isStamina
        ∧ ext.countP isNausea ≤ 1
        ∧ (Ev.nausea ∈ ext → ∃ q, ext = q ++ [Ev.nausea] ∧ Ev.nausea ∉ q) := by
  intro ds
  induction ds with
  | nil =>
    intro s cont _ _ hcont
    exact ⟨[], by simp [smallLoop], by simpa [smallLoop] using hcont, rfl,
      by simp, by simp⟩
  | cons d ds ih =>
    intro s cont hh hsat hcont
    simp only [smallLoop]
    have h1 := smallColumn_c5 env item perm
      (sliceCenter axis origin (Int.ofNat d) stepSign) s cont hb hh hsat hcont
    rcases hc1 : smallColumn env item perm
        (sliceCenter axis origin (Int.ofNat d) stepSign) s cont
      with ⟨s1, cont1⟩ | ⟨s1, cont1⟩
    · rw [hc1] at h1
      simp only at h1
      obtain ⟨ext1, htr1, hcont1, hh1, hs1, hq1⟩ := h1
      have h0N : ext1.countP isNausea = 0 :=
        countN_eq_zero_of_all_false _ (fun e he => (hq1 e he).1)
      have h0S : ext1.countP isStamina = 0 :=
        countS_eq_zero_of_all_false _ (fun e he => (hq1 e he).2)
      obtain ⟨ext2, htr2, hle2, hcnt2, hle1, hmem2⟩ := ih s1 cont1 hh1 hs1 hcont1
      refine ⟨ext1 ++ ext2, ?_, hle2, ?_, ?_, ?_⟩
      · rw [htr2, htr1]
        simp [List.append_assoc]
      · simp [List.countP_append, h0N, h0S, hcnt2]
      · simpa [List.countP_append, h0N] using hle1
      · intro hm
        rcases List.mem_append.mp hm with hm | hm
        · exact absurd ((hq1 _ hm).1) (by simp [isNausea])
        · obtain ⟨q2, hq2eq, hq2nm⟩ := hmem2 hm
          refine ⟨ext1 ++ q2, by rw [hq2eq]; simp, ?_⟩
          intro hmq
          rcases List.mem_append.mp hmq with hmq | hmq
          · exact absurd ((hq1 _ hmq).1) (by simp [isNausea])
          · exact hq2nm hmq
    · rw [hc1] at h1
      simp only at h1
      exact h1

/-- The `lineTunnel` depth loop at zero reserves: same invariants as the
small tunnel's. -/
theorem lineLoop_c5 (env : Env) (item : Option Item) (perm : String) (axis : Axis)
    (stepSign : Int) (origin : Pos) (hb : env.noConsumeSaturation = false) :
    ∀ (ds : List Nat) (s : RunState) (cont : Nat),
      s.hunger = some 0 → s.saturation = some 0 → cont ≤ 10 →
      ∃ ext,
        (lineLoop env item perm axis stepSign origin ds s cont).1.trace
          = s.trace ++ ext
        ∧ (lineLoop env item perm axis stepSign origin ds s cont).2 ≤ 10
        ∧ ext.countP isNausea = ext.countP isStamina
        ∧ ext.countP isNausea ≤ 1
        ∧ (Ev.nausea ∈ ext → ∃ q, ext = q ++ [Ev.nausea] ∧ Ev.nausea ∉ q) := by
  intro ds
  induction ds with
  | nil =>
    intro s cont _ _ hcont
    exact ⟨[], by simp [lineLoop], by simpa [lineLoop] using hcont, rfl,
      by simp, by simp⟩
  | cons d ds ih =>
    intro s cont hh hsat hcont
    simp only [lineLoop]
    by_cases htool : toolCheckFails item s = true
    · rw [if_pos htool]
      exact ⟨[Ev.toolFail], rfl, hcont, by decide, by decide,
        by intro hm; simp at hm⟩
    · rw [if_neg htool]
      cases hblk : tunnelGetBlock env perm
          (sliceCenter axis origin (Int.ofNat d) stepSign) with
      | none =>
        dsimp only
        exact ih s cont hh hsat hcont
      | some blk =>
        dsimp only
        obtain ⟨e1, he1, hu1, hh1, hs1⟩ := applyToolWear_spec env item s
        by_cases hcb : (cont % 10 == 0 && cont != 0) = true
        · rw [if_pos hcb]
          have hzero := reduceHunger_zero env
            { applyToolWear env item s with
              trace := (applyToolWear env item s).trace ++ [Ev.stamina cont] } hb
            (by simpa using hh1.trans hh) (by simpa using hs1.trans hsat)
          rw [hzero]
          dsimp only
          have h0N : e1.countP isNausea = 0 :=
            countN_eq_zero_of_all_false _ (fun e he => by rw [hu1 e he]; rfl)
          have h0S : e1.countP isStamina = 0 :=
            countS_eq_zero_of_all_false _ (fun e he => by rw [hu1 e he]; rfl)
          refine ⟨e1 ++ [Ev.stamina cont] ++ [Ev.nausea], ?_, hcont, ?_, ?_, ?_⟩
          · simp [he1, List.append_assoc]
          · simp [List.countP_append, h0N, h0S, isNausea, isStamina]
          · simp [List.countP_append, h0N, isNausea, isStamina]
          · intro _
            refine ⟨e1 ++ [Ev.stamina cont], by simp, ?_⟩
            intro hm
            rcases List.mem_append.mp hm with hm | hm
            · have := hu1 _ hm
              cases this
            · simp at hm
        · rw [if_neg hcb]
          have hlt10 : cont < 10 := cont_lt_of_not_boundary cont hcont (by
            cases hx : (cont % 10 == 0 && cont != 0) with
            | false => rfl
            | true => exact absurd hx hcb)
          obtain ⟨e2, he2, hb2, hh2, hs2, _⟩ := breakBlockCtx_spec env item
            (sliceCenter axis origin (Int.ofNat d) stepSign) blk
            (applyToolWear env item s)
          rcases hbb : breakBlockCtx env item
              (sliceCenter axis origin (Int.ofNat d) stepSign) blk
              (applyToolWear env item s) with ⟨s3, fault⟩
          rw [hbb] at he2 hh2 hs2
          simp only at he2 hh2 hs2
          cases fault with
          | true =>
            dsimp only
            rw [hbb]
            dsimp only
            have h0N : (e1 ++ e2).countP isNausea = 0 :=
              countN_eq_zero_of_all_false _ (fun e he => by
                rcases List.mem_append.mp he with he | he
                · rw [hu1 e he]; rfl
                · rw [hb2 e he]; rfl)
            have h0S : (e1 ++ e2).countP isStamina = 0 :=
              countS_eq_zero_of_all_false _ (fun e he => by
                rcases List.mem_append.mp he with he | he
                · rw [hu1 e he]; rfl
                · rw [hb2 e he]; rfl)
            refine ⟨e1 ++ e2, ?_, by omega, by rw [h0N, h0S], by simp [h0N], ?_⟩
            · rw [he2, he1]
              simp [List.append_assoc]
            · intro hm
              exact absurd hm (nausea_not_mem_of_countN_zero _ h0N)
          | false =>
            dsimp only
            rw [hbb]
            dsimp only
            have hhy : (yieldTick env s3).hunger = some 0 := by
              rw [show (yieldTick env s3).hunger = s3.hunger from rfl, hh2, hh1]
              exact hh
            have hsy : (yieldTick env s3).saturation = some 0 := by
              rw [show (yieldTick env s3).saturation = s3.saturation from rfl,
                hs2, hs1]
              exact hsat
            obtain ⟨ext2, htr2, hle2, hcnt2, hle1, hmem2⟩ :=
              ih (yieldTick env s3) (cont + 1) hhy hsy (by omega)
            have h0N : (e1 ++ e2).countP isNausea = 0 :=
              countN_eq_zero_of_all_false _ (fun e he => by
                rcases List.mem_append.mp he with he | he
                · rw [hu1 e he]; rfl
                · rw [hb2 e he]; rfl)
            have h0S : (e1 ++ e2).countP isStamina = 0 :=
              countS_eq_zero_of_all_false _ (fun e he => by
                rcases List.mem_append.mp he with he | he
                · rw [hu1 e he]; rfl
                · rw [hb2 e he]; rfl)
            refine ⟨(e1 ++ e2) ++ ext2, ?_, hle2, ?_, ?_, ?_⟩
            · rw [htr2, yieldTick_trace, he2, he1]
              simp [List.append_assoc]
            · simp only [List.countP_append] at h0N h0S ⊢
              omega
            · simp only [List.countP_append] at h0N ⊢
              omega
            · intro hm
              rcases List.mem_append.mp hm with hm | hm
              · exact absurd hm (nausea_not_mem_of_countN_zero _ h0N)
              · obtain ⟨q2, hq2eq, hq2nm⟩ := hmem2 hm
                refine ⟨(e1 ++ e2) ++ q2, by rw [hq2eq]; simp, ?_⟩
                intro hmq
                rcases List.mem_append.mp hmq with hmq | hmq
                · exact absurd hmq (nausea_not_mem_of_countN_zero _ h0N)
                · exact hq2nm hmq

/-- One `largeTunnel` slice at zero reserves: a `done` exit keeps the
step counter at or below 10, balances stamina against nausea (at most one
of each), and any nausea is terminal with the counter stuck on the
10-step boundary; a `return` exit applies neither. -/
theorem largeInner_c5 (env : Env) (item : Option Item) (perm : String)
    (maxBlocks : Nat) (axis : Axis) (center : Pos)
    (hb : env.noConsumeSaturation = false) :
    ∀ (offs : List (Int × Int)) (s : RunState) (cont broken : Nat) (found : Bool),
      s.hunger = some 0 → s.saturation = some 0 → cont ≤ 10 →
      (match largeInner env item perm maxBlocks axis center offs s cont broken found with
       | LTInner.done s' cont' _ _ =>
           ∃ ext, s'.trace = s.trace ++ ext ∧ cont' ≤ 10
             ∧ s'.hunger = some 0 ∧ s'.saturation = some 0
             ∧ ext.countP isNausea = ext.countP isStamina
             ∧ ext.countP isNausea ≤ 1
             ∧ (Ev.nausea ∈ ext →
                 (∃ q, ext = q ++ [Ev.nausea] ∧ Ev.nausea ∉ q)
                 ∧ (cont' % 10 == 0 && cont' != 0) = true)
       | LTInner.ret s' cont' _ =>
           ∃ ext, s'.trace = s.trace ++ ext ∧ cont' ≤ 10
             ∧ ext.countP isNausea = 0 ∧ ext.countP isStamina = 0) := by
  intro offs
  induction offs with
  | nil =>
    intro s cont broken found hh hsat hcont
    simp only [largeInner]
    exact ⟨[], by simp, hcont, hh, hsat, rfl, by simp, by simp⟩
  | cons dq rest ih =>
    intro s cont broken found hh hsat hcont
    simp only [largeInner]
    by_cases htool : toolCheckFails item s = true
    · rw [if_pos htool]
      exact ⟨[Ev.toolFail], rfl, hcont, hh, hsat, by decide, by decide,
        by intro hm; simp at hm⟩
    · rw [if_neg htool]
      cases hblk : tunnelGetBlock env perm (sliceCell axis center dq.1 dq.2) with
      | none =>
        dsimp only
        exact ih s cont broken found hh hsat hcont
      | some blk =>
        dsimp only
        obtain ⟨e1, he1, hu1, hh1, hs1⟩ := applyToolWear_spec env item s
        by_cases hcb : (cont % 10 == 0 && cont != 0) = true
        · rw [if_pos hcb]
          have hzero := reduceHunger_zero env
            { applyToolWear env item s with
              trace := (applyToolWear env item s).trace ++ [Ev.stamina cont] } hb
            (by simpa using hh1.trans hh) (by simpa using hs1.trans hsat)
          rw [hzero]
          dsimp only
          have h0N : e1.countP isNausea = 0 :=
            countN_eq_zero_of_all_false _ (fun e he => by rw [hu1 e he]; rfl)
          have h0S : e1.countP isStamina = 0 :=
            countS_eq_zero_of_all_false _ (fun e he => by rw [hu1 e he]; rfl)
          refine ⟨e1 ++ [Ev.stamina cont] ++ [Ev.nausea], ?_, hcont,
            by simpa using hh1.trans hh, by simpa using hs1.trans hsat,
            ?_, ?_, ?_⟩
          · simp [he1, List.append_assoc]
          · simp [List.countP_append, h0N, h0S, isNausea, isStamina]
          · simp [List.countP_append, h0N, isNausea, isStamina]
          · intro _
            refine ⟨⟨e1 ++ [Ev.stamina cont], by simp, ?_⟩, hcb⟩
            intro hm
            rcases List.mem_append.mp hm with hm | hm
            · have := hu1 _ hm
              cases this
            · simp at hm
        · rw [if_neg hcb]
          have hlt10 : cont < 10 := cont_lt_of_not_boundary cont hcont (by
            cases hx : (cont % 10 == 0 && cont != 0) with
            | false => rfl
            | true => exact absurd hx hcb)
          obtain ⟨e2, he2, hb2, hh2, hs2, _⟩ := breakBlockCtx_spec env item
            (sliceCell axis center dq.1 dq.2) blk (applyToolWear env item s)
          rcases hbb : breakBlockCtx env item (sliceCell axis center dq.1 dq.2)
              blk (applyToolWear env item s) with ⟨s3, fault⟩
          rw [hbb] at he2 hh2 hs2
          simp only at he2 hh2 hs2
          have h0N : (e1 ++ e2).countP isNausea = 0 :=
            countN_eq_zero_of_all_false _ (fun e he => by
              rcases List.mem_append.mp he with he | he
              · rw [hu1 e he]; rfl
              · rw [hb2 e he]; rfl)
          have h0S : (e1 ++ e2).countP isStamina = 0 :=
            countS_eq_zero_of_all_false _ (fun e he => by
              rcases List.mem_append.mp he with he | he
              · rw [hu1 e he]; rfl
              · rw [hb2 e he]; rfl)
          cases fault with
          | true =>
            dsimp only
            rw [hbb]
            dsimp only
            refine ⟨e1 ++ e2, ?_, by omega, h0N, h0S⟩
            rw [he2, he1]
            simp [List.append_assoc]
          | false =>
            dsimp only
            rw [hbb]
            dsimp only
            by_cases hcap : broken + 1 + 1 ≥ maxBlocks
            · rw [if_pos hcap]
              refine ⟨e1 ++ e2, ?_, by omega, h0N, h0S⟩
              rw [he2, he1]
              simp [List.append_assoc]
            · rw [if_neg hcap]
              have hhy : (yieldTick env s3).hunger = some 0 := by
                rw [show (yieldTick env s3).hunger = s3.hunger from rfl, hh2, hh1]
                exact hh
              have hsy : (yieldTick env s3).saturation = some 0 := by
                rw [show (yieldTick env s3).saturation = s3.saturation from rfl,
                  hs2, hs1]
                exact hsat
              have hrec := ih (yieldTick env s3) (cont + 1) (broken + 1) true
                hhy hsy (by omega)
              rcases hr : largeInner env item perm maxBlocks axis center rest
                  (yieldTick env s3) (cont + 1) (broken + 1) true
                with ⟨s4, cont4, broken4, found4⟩ | ⟨s4, cont4, broken4⟩
              · rw [hr] at hrec
                simp only at hrec
                obtain ⟨ext2, htr2, hle2, hh4, hs4, hcnt2, hle1, hmem2⟩ := hrec
                refine ⟨(e1 ++ e2) ++ ext2, ?_, hle2, hh4, hs4, ?_, ?_, ?_⟩
                · rw [htr2, yieldTick_trace, he2, he1]
                  simp [List.append_assoc]
                · simp only [List.countP_append] at h0N h0S ⊢
                  omega
                · simp only [List.countP_append] at h0N ⊢
                  omega
                · intro hm
                  rcases List.mem_append.mp hm with hm | hm
                  · exact absurd hm (nausea_not_mem_of_countN_zero _ h0N)
                  · obtain ⟨⟨q2, hq2eq, hq2nm⟩, hbnd⟩ := hmem2 hm
                    refine ⟨⟨(e1 ++ e2) ++ q2, by rw [hq2eq]; simp, ?_⟩, hbnd⟩
                    intro hmq
                    rcases List.mem_append.mp hmq with hmq | hmq
                    · exact absurd hmq (nausea_not_mem_of_countN_zero _ h0N)
                    · exact hq2nm hmq
              · rw [hr] at hrec
                simp only at hrec
                obtain ⟨ext2, htr2, hle2, h2N, h2S⟩ := hrec
                refine ⟨(e1 ++ e2) ++ ext2, ?_, hle2, ?_, ?_⟩
                · rw [htr2, yieldTick_trace, he2, he1]
                  simp [List.append_assoc]
                · simp only [List.countP_append] at h0N ⊢
                  omega
                · simp only [List.countP_append] at h0S ⊢
                  omega

/-- A `largeTunnel` slice entered ON the 10-step boundary with zero
reserves: the slice breaks nothing, leaves the counter and the found flag
unchanged, and applies at most one further stamina/nausea pair. -/
theorem largeInner_post (env : Env) (item : Option Item) (perm : String)
    (maxBlocks : Nat) (axis : Axis) (center : Pos)
    (hb : env.noConsumeSaturation = false) (cont : Nat)
    (hc : (cont % 10 == 0 && cont != 0) = true) :
    ∀ (offs : List (Int × Int)) (s : RunState) (broken : Nat) (found : Bool),
      s.hunger = some 0 → s.saturation = some 0 →
      (match largeInner env item perm maxBlocks axis center offs s cont broken found with
       | LTInner.done s' cont' _ found' =>
           cont' = cont ∧ found' = found
           ∧ ∃ ext, s'.trace = s.trace ++ ext
             ∧ (∀ e ∈ ext, isBrk e = false)
             ∧ ext.countP isNausea = ext.countP isStamina
             ∧ ext.countP isNausea ≤ 1
       | LTInner.ret _ _ _ => False) := by
  intro offs
  induction offs with
  | nil =>
    intro s broken found _ _
    simp only [largeInner]
    exact ⟨by first | rfl | trivial, by first | rfl | trivial, [], by simp,
      by simp, by first | rfl | trivial, by simp⟩
  | cons dq rest ih =>
    intro s broken found hh hsat
    simp only [largeInner]
    by_cases htool : toolCheckFails item s = true
    · rw [if_pos htool]
      exact ⟨by first | rfl | trivial, by first | rfl | trivial, [Ev.toolFail],
        rfl, by simp [isBrk], by decide, by decide⟩
    · rw [if_neg htool]
      cases hblk : tunnelGetBlock env perm (sliceCell axis center dq.1 dq.2) with
      | none =>
        dsimp only
        exact ih s broken found hh hsat
      | some blk =>
        dsimp only
        rw [if_pos hc]
        obtain ⟨e1, he1, hu1, hh1, hs1⟩ := applyToolWear_spec env item s
        have hzero := reduceHunger_zero env
          { applyToolWear env item s with
            trace := (applyToolWear env item s).trace ++ [Ev.stamina cont] } hb
          (by simpa using hh1.trans hh) (by simpa using hs1.trans hsat)
        rw [hzero]
        dsimp only
        have h0N : e1.countP isNausea = 0 :=
          countN_eq_zero_of_all_false _ (fun e he => by rw [hu1 e he]; rfl)
        have h0S : e1.countP isStamina = 0 :=
          countS_eq_zero_of_all_false _ (fun e he => by rw [hu1 e he]; rfl)
        refine ⟨by first | rfl | trivial, by first | rfl | trivial,
          e1 ++ [Ev.stamina cont] ++ [Ev.nausea], ?_, ?_, ?_, ?_⟩
        · simp [he1, List.append_assoc]
        · intro e he
          rcases List.mem_append.mp he with he | he
          · rcases List.mem_append.mp he with he | he
            · rw [hu1 e he]; rfl
            · simp at he
              rw [he]; rfl
          · simp at he
            rw [he]; rfl
        · simp [List.countP_append, h0N, h0S, isNausea, isStamina]
        · simp [List.countP_append, h0N, isNausea, isStamina]

/-- The `largeTunnel` depth loop at zero reserves: balanced stamina and
nausea counts, at most TWO nausea penalties (one per slice attempt), no
block broken after the first nausea, counter capped at 10. -/
theorem largeOuter_c5 (env : Env) (item : Option Item) (perm : String)
    (maxBlocks : Nat) (axis : Axis) (stepSign : Int) (origin : Pos)
    (hb : env.noConsumeSaturation = false) :
    ∀ (ds : List Nat) (outward : Bool) (s : RunState) (cont broken : Nat),
      s.hunger = some 0 → s.saturation = some 0 → cont ≤ 10 →
      ∃ ext,
        (largeOuter env item perm maxBlocks axis stepSign origin ds outward
          s cont broken).1.trace = s.trace ++ ext
        ∧ (largeOuter env item perm maxBlocks axis stepSign origin ds outward
            s cont broken).2.1 ≤ 10
        ∧ ext.countP isNausea = ext.countP isStamina
        ∧ ext.countP isNausea ≤ 2
        ∧ (Ev.nausea ∈ ext → ∃ q r, ext = q ++ Ev.nausea :: r ∧ Ev.nausea ∉ q
            ∧ (∀ e ∈ r, isBrk e = false)) := by
  intro ds
  induction ds with
  | nil =>
    intro outward s cont broken _ _ hcont
    exact ⟨[], by simp [largeOuter], by simpa [largeOuter] using hcont, rfl,
      by simp, by simp⟩
  | cons d ds ih =>
    intro outward s cont broken hh hsat hcont
    simp only [largeOuter]
    have h1 := largeInner_c5 env item perm maxBlocks axis
      (sliceCenter axis origin (Int.ofNat d) stepSign) hb
      (spiralOffsets outward) s cont broken false hh hsat hcont
    rcases hr : largeInner env item perm maxBlocks axis
        (sliceCenter axis origin (Int.ofNat d) stepSign) (spiralOffsets outward)
        s cont broken false
      with ⟨s1, cont1, broken1, found1⟩ | ⟨s1, cont1, broken1⟩
    · rw [hr] at h1
      simp only at h1
      obtain ⟨ext1, htr1, hcont1, hh1, hs1, hcnt1, hle1, hmem1⟩ := h1
      dsimp only
      cases found1 with
      | false =>
        rw [if_neg (by simp)]
        refine ⟨ext1, htr1, hcont1, hcnt1, by omega, ?_⟩
        intro hm
        obtain ⟨⟨q1, hq1eq, hq1nm⟩, _⟩ := hmem1 hm
        exact ⟨q1, [], by simpa using hq1eq, hq1nm, by simp⟩
      | true =>
        rw [if_pos rfl]
        by_cases hnm1 : Ev.nausea ∈ ext1
        · obtain ⟨⟨q1, hq1eq, hq1nm⟩, hbound1⟩ := hmem1 hnm1
          cases ds with
          | nil =>
            refine ⟨ext1, by simpa [largeOuter] using htr1,
              by simpa [largeOuter] using hcont1, hcnt1, by omega, ?_⟩
            intro _
            exact ⟨q1, [], by simpa using hq1eq, hq1nm, by simp⟩
          | cons d2 ds2 =>
            simp only [largeOuter]
            have h2 := largeInner_post env item perm maxBlocks axis
              (sliceCenter axis origin (Int.ofNat d2) stepSign) hb cont1 hbound1
              (spiralOffsets (!outward)) s1 broken1 false hh1 hs1
            rcases hr2 : largeInner env item perm maxBlocks axis
                (sliceCenter axis origin (Int.ofNat d2) stepSign)
                (spiralOffsets (!outward)) s1 cont1 broken1 false
              with ⟨s2, cont2, broken2, found2⟩ | ⟨s2, cont2, broken2⟩
            · rw [hr2] at h2
              simp only at h2
              obtain ⟨hcont2, hfound2, ext2, htr2, hnb2, hcnt2, hle2⟩ := h2
              subst hfound2
              subst hcont2
              dsimp only
              rw [if_neg (by simp)]
              refine ⟨ext1 ++ ext2, ?_, hcont1, ?_, ?_, ?_⟩
              · rw [htr2, htr1]
                simp [List.append_assoc]
              · simp only [List.countP_append]
                omega
              · simp only [List.countP_append]
                omega
              · intro _
                refine ⟨q1, ext2, by rw [hq1eq]; simp, hq1nm, hnb2⟩
            · rw [hr2] at h2
              simp only at h2
        · have h0N := countN_eq_zero_of_not_mem ext1 hnm1
          have h0S : ext1.countP isStamina = 0 := by omega
          obtain ⟨ext2, htr2, hle2', hcnt2, hle2, hmem2⟩ :=
            ih (!outward) s1 cont1 broken1 hh1 hs1 hcont1
          refine ⟨ext1 ++ ext2, ?_, hle2', ?_, ?_, ?_⟩
          · rw [htr2, htr1]
            simp [List.append_assoc]
          · simp only [List.countP_append]
            omega
          · simp only [List.countP_append]
            omega
          · intro hm
            rcases List.mem_append.mp hm with hm | hm
            · exact absurd hm hnm1
            · obtain ⟨q2, r2, hq2eq, hq2nm, hr2all⟩ := hmem2 hm
              refine ⟨ext1 ++ q2, r2, by rw [hq2eq]; simp, ?_, hr2all⟩
              intro hmq
              rcases List.mem_append.mp hmq with hmq | hmq
              · exact hnm1 hmq
              · exact hq2nm hmq
    · rw [hr] at h1
      simp only at h1
      obtain ⟨ext1, htr1, hcont1, h0N, h0S⟩ := h1
      dsimp only
      refine ⟨ext1, htr1, hcont1, by omega, by omega, ?_⟩
      intro hm
      exact absurd hm (nausea_not_mem_of_countN_zero _ h0N)

theorem c5_trace_glue (ext : List Ev) (cap : Nat)
    (hcnt : ext.countP isNausea = ext.countP isStamina)
    (hle1 : ext.countP isNausea ≤ cap)
    (hmem : Ev.nausea ∈ ext → ∃ q rr, ext = q ++ Ev.nausea :: rr ∧ Ev.nausea ∉ q
      ∧ ∀ e ∈ rr, isBrk e = false) :
    ((ext ++ [Ev.emit]).countP isNausea = (ext ++ [Ev.emit]).countP isStamina)
    ∧ (ext ++ [Ev.emit]).countP isNausea ≤ cap
    ∧ noBrkAfter Ev.nausea (ext ++ [Ev.emit]) = true := by
  refine ⟨?_, ?_, ?_⟩
  · simp [List.countP_append, isNausea, isStamina, hcnt]
  · simpa [List.countP_append, isNausea] using hle1
  · by_cases hm : Ev.nausea ∈ ext
    · obtain ⟨q, rr, heq, hnm, hrr⟩ := hmem hm
      have hform : ext ++ [Ev.emit] = [] ++ (q ++ Ev.nausea :: (rr ++ [Ev.emit])) := by
        rw [heq]
        simp
      rw [hform]
      refine noBrkAfter_c5_shape [] q (rr ++ [Ev.emit]) (by simp) hnm ?_
      intro e he
      rcases List.mem_append.mp he with he | he
      · exact hrr e he
      · simp at he
        rw [he]
        rfl
    · apply noBrkAfter_of_not_mem
      intro hmm
      rcases List.mem_append.mp hmm with hmm | hmm
      · exact hm hmm
      · simp at hmm

/-- C5 counterexample: on a solid stone world with the bypass off and
both reserves at 0, `largeTunnel` (budget 64) applies the nausea penalty
TWICE — once when the 10-step boundary aborts the current slice, and once
more when the depth loop re-enters the failing hunger check in the next
slice — while the claim says it is applied exactly once. -/
theorem c5_counterexample :
    ((runShape Shape.largeTunnel envZeroReserves ⟨0, 0, 0⟩ "minecraft:stone" 64
        none).1.trace.countP isNausea) = 2 ∧ 1 < 2 := by
  exact ⟨by decide, by decide⟩

/-- C5 (amended). For every run with the bypass off and both reserves at
0: each stamina deduction attempt immediately yields a nausea penalty
(the counts agree), at most one penalty is applied for every handler
except `largeTunnel` — which can apply it twice, once per slice attempt —
no block is broken after a nausea penalty, and the step counter never
passes 10 (the first boundary). -/
theorem c5_zero_reserves_governor (sh : Shape) (env : Env) (origin : Pos)
    (brokenBlock : String) (maxVein : Nat) (item : Option Item)
    (hb : env.noConsumeSaturation = false)
    (hh : env.hunger0 = some 0) (hs : env.saturation0 = some 0) :
    ((runShape sh env origin brokenBlock maxVein item).1.trace.countP isNausea
      = (runShape sh env origin brokenBlock maxVein item).1.trace.countP isStamina)
    ∧ (runShape sh env origin brokenBlock maxVein item).1.trace.countP isNausea
        ≤ (if sh = Shape.largeTunnel then 2 else 1)
    ∧ noBrkAfter Ev.nausea
        (runShape sh env origin brokenBlock maxVein item).1.trace = true
    ∧ (runShape sh env origin brokenBlock maxVein item).2 ≤ 10 := by
  have hh0 : (initState env).hunger = some 0 := hh
  have hs0 : (initState env).saturation = some 0 := hs
  cases sh with
  | shapelessVein =>
    obtain ⟨ext, htr, hle, hcnt, hle1, hmem⟩ :=
      floodLoop_c5 env (fun t => t == brokenBlock) item maxVein hb
        (27 * maxVein + 2) [] [origin] 0 (initState env) hh0 hs0 (by omega)
    rw [show (initState env).trace = [] from rfl, List.nil_append] at htr
    have hg := c5_trace_glue ext 1 hcnt hle1 (by
      intro hm
      obtain ⟨q, heq, hnm⟩ := hmem hm
      exact ⟨q, [], by simpa using heq, hnm, by simp⟩)
    simp only [runShape, shapelessVein, floodVein]
    rw [htr, if_neg (by decide)]
    exact ⟨hg.1, hg.2.1, hg.2.2, hle⟩
  | treeCapitator =>
    obtain ⟨ext, htr, hle, hcnt, hle1, hmem⟩ :=
      floodLoop_c5 env isTreeBlock item maxVein hb
        (27 * maxVein + 2) [] [origin] 0 (initState env) hh0 hs0 (by omega)
    rw [show (initState env).trace = [] from rfl, List.nil_append] at htr
    have hg := c5_trace_glue ext 1 hcnt hle1 (by
      intro hm
      obtain ⟨q, heq, hnm⟩ := hmem hm
      exact ⟨q, [], by simpa using heq, hnm, by simp⟩)
    simp only [runShape, treeCapitator, floodVein]
    rw [htr, if_neg (by decide)]
    exact ⟨hg.1, hg.2.1, hg.2.2, hle⟩
  | veinMiner =>
    obtain ⟨ext, htr, hle, hcnt, hle1, hmem⟩ :=
      floodLoop_c5 env isOreBlock item maxVein hb
        (27 * maxVein + 2) [] [origin] 0 (initState env) hh0 hs0 (by omega)
    rw [show (initState env).trace = [] from rfl, List.nil_append] at htr
    have hg := c5_trace_glue ext 1 hcnt hle1 (by
      intro hm
      obtain ⟨q, heq, hnm⟩ := hmem hm
      exact ⟨q, [], by simpa using heq, hnm, by simp⟩)
    simp only [runShape, veinMiner, floodVein]
    rw [htr, if_neg (by decide)]
    exact ⟨hg.1, hg.2.1, hg.2.2, hle⟩
  | largeTunnel =>
    obtain ⟨ext, htr, hle, hcnt, hle1, hmem⟩ :=
      largeOuter_c5 env item brokenBlock (maxVein * 2)
        (pickAxisDir env.viewDir).1 (pickAxisDir env.viewDir).2 origin hb
        ((List.range (maxVein / 4 + 1 -
          probeSliceStart env brokenBlock (pickAxisDir env.viewDir).1 origin)).map
          (fun i => i + probeSliceStart env brokenBlock (pickAxisDir env.viewDir).1 origin))
        true (initState env) 0 0 hh0 hs0 (by omega)
    rw [show (initState env).trace = [] from rfl, List.nil_append] at htr
    have hg := c5_trace_glue ext 2 hcnt hle1 hmem
    simp only [runShape, largeTunnel]
    rw [htr, if_pos trivial]
    exact ⟨hg.1, hg.2.1, hg.2.2, hle⟩
  | smallTunnel =>
    obtain ⟨ext, htr, hle, hcnt, hle1, hmem⟩ :=
      smallLoop_c5 env item brokenBlock
        (pickAxisDir env.viewDir).1 (pickAxisDir env.viewDir).2 origin hb
        (List.range (maxVein / 2)) (initState env) 0 hh0 hs0 (by omega)
    rw [show (initState env).trace = [] from rfl, List.nil_append] at htr
    have hg := c5_trace_glue ext 1 hcnt hle1 (by
      intro hm
      obtain ⟨q, heq, hnm⟩ := hmem hm
      exact ⟨q, [], by simpa using heq, hnm, by simp⟩)
    simp only [runShape, smallTunnel]
    rw [htr, if_neg (by decide)]
    exact ⟨hg.1, hg.2.1, hg.2.2, hle⟩
  | lineTunnel =>
    obtain ⟨ext, htr, hle, hcnt, hle1, hmem⟩ :=
      lineLoop_c5 env item brokenBlock
        (pickAxisDir env.viewDir).1 (pickAxisDir env.viewDir).2 origin hb
        (List.range maxVein) (initState env) 0 hh0 hs0 (by omega)
    rw [show (initState env).trace = [] from rfl, List.nil_append] at htr
    have hg := c5_trace_glue ext 1 hcnt hle1 (by
      intro hm
      obtain ⟨q, heq, hnm⟩ := hmem hm
      exact ⟨q, [], by simpa using heq, hnm, by simp⟩)
    simp only [runShape, lineTunnel]
    rw [htr, if_neg (by decide)]
    exact ⟨hg.1, hg.2.1, hg.2.2, hle⟩

theorem c5_zero_reserves_governor_witness :
    ((runShape Shape.largeTunnel envZeroReserves ⟨0, 0, 0⟩ "minecraft:stone" 64
        none).1.trace.countP isNausea
      = (runShape Shape.largeTunnel envZeroReserves ⟨0, 0, 0⟩ "minecraft:stone" 64
          none).1.trace.countP isStamina)
    ∧ (runShape Shape.largeTunnel envZeroReserves ⟨0, 0, 0⟩ "minecraft:stone" 64
        none).1.trace.countP isNausea
        ≤ (if Shape.largeTunnel = Shape.largeTunnel then 2 else 1)
    ∧ noBrkAfter Ev.nausea
        (runShape Shape.largeTunnel envZeroReserves ⟨0, 0, 0⟩ "minecraft:stone" 64
          none).1.trace = true
    ∧ (runShape Shape.largeTunnel envZeroReserves ⟨0, 0, 0⟩ "minecraft:stone" 64
        none).2 ≤ 10 :=
  c5_zero_reserves_governor Shape.largeTunnel envZeroReserves ⟨0, 0, 0⟩
    "minecraft:stone" 64 none rfl rfl rfl

end VeinMine
